import Mathlib

/-!
# Johnny Reborn platform layer: surfaces, blit/fill, event queue, WAV loading,
window presentation, clock, audio output, hot keys, arguments, configuration

A shallow embedding of the platform back ends (`platform_linux.c`,
`platform_windows.c`, `platform_web.c`) and of parts of `events.c`,
`jc_reborn.c` and `config.c`, together with theorems about them.

Conventions of the embedding

* C `int` values are unbounded `Int`: the model is exact whenever the
  intermediate values fit in 32 bits (signed overflow is undefined in C).
* `uint8` values are `Byte = Fin 256`.
* Pixel memory is one flat byte-addressed memory `Mem = Int → Byte`; a surface
  holds the address `pixels` of its first byte, `0` being `NULL`.  A pointer
  expression `pixels + y * pitch + x * bytesPerPixel` is the address computed
  by the same arithmetic.  Writes are performed where the code performs them,
  also when the address lies outside the surface's buffer.
* A nullable pointer argument is an `Option`.
* `float` is IEEE-754 binary32 with round-to-nearest-even (section
  "Single-precision arithmetic"), `double` is IEEE-754 binary64 (section
  "Double-precision arithmetic"); conversions of integers to `uint16`,
  `uint32` and `uint64_t` are reductions modulo `2^16`, `2^32` and `2^64`.
* Calls into libraries and other modules are recorded in a log, in program
  order; a function that ends in `exit` records it and stops.
* Threads are interleaved step by step over the variables they share.
-/

namespace JcReborn

/-! ## Memory -/

/-- One byte of memory (`uint8`). -/
abbrev Byte := Fin 256

/-- Flat byte-addressed memory. -/
abbrev Mem := Int → Byte

/-- Store of one byte: `p[0] = v` with `p = a`. -/
def Mem.write (m : Mem) (a : Int) (v : Byte) : Mem :=
  fun x => if x = a then v else m x

/-- Copy of `n` bytes, `memcpy(d, s, n)`: the source bytes are those of the
memory before the call. -/
def memcpy (m : Mem) (d s : Int) (n : Int) : Mem :=
  fun x => if d ≤ x ∧ x < d + n then m (s + (x - d)) else m x

/-- The values `lo, lo+1, ..., hi-1` taken by the counter of
`for (i = lo; i < hi; i++)`. -/
def loopRange (lo hi : Int) : List Int :=
  (List.range (hi - lo).toNat).map (fun (i : Nat) => lo + (i : Int))

/-! ## Rectangles and surfaces (`platform.h`, `struct PlatformSurface`) -/

/-- The struct `PlatformRect`: `x`, `y` are `sint16`, `w`, `h` are `uint16`. -/
structure PlatformRect where
  x : Int
  y : Int
  w : Int
  h : Int
deriving DecidableEq, Repr

/-- Field ranges of a `PlatformRect` value: signed 16-bit origin, unsigned
16-bit size. -/
def PlatformRect.InRange (r : PlatformRect) : Prop :=
  -32768 ≤ r.x ∧ r.x ≤ 32767 ∧ -32768 ≤ r.y ∧ r.y ≤ 32767 ∧
  0 ≤ r.w ∧ r.w ≤ 65535 ∧ 0 ≤ r.h ∧ r.h ≤ 65535

instance (r : PlatformRect) : Decidable r.InRange := by
  unfold PlatformRect.InRange; infer_instance

/-- The struct `PlatformSurface` (identical in the three back ends). -/
structure PlatformSurface where
  width : Int
  height : Int
  pitch : Int
  bytesPerPixel : Int
  pixels : Int
  hasColorKey : Byte
  colorKeyR : Byte
  colorKeyG : Byte
  colorKeyB : Byte
  clipRect : PlatformRect
  ownPixels : Int
deriving DecidableEq, Repr

/-- Address of pixel `(x, y)`:
`surface->pixels + y * surface->pitch + x * surface->bytesPerPixel`. -/
def PlatformSurface.pixelAddr (s : PlatformSurface) (x y : Int) : Int :=
  s.pixels + y * s.pitch + x * s.bytesPerPixel

/-- Coordinate `(x, y)` lies in the raw bounds `[0,width) x [0,height)`. -/
def PlatformSurface.InBounds (s : PlatformSurface) (x y : Int) : Prop :=
  0 ≤ x ∧ x < s.width ∧ 0 ≤ y ∧ y < s.height

/-- Coordinate `(x, y)` lies in the clip rectangle of the surface. -/
def PlatformSurface.InClip (s : PlatformSurface) (x y : Int) : Prop :=
  s.clipRect.x ≤ x ∧ x < s.clipRect.x + s.clipRect.w ∧
  s.clipRect.y ≤ y ∧ y < s.clipRect.y + s.clipRect.h

/-- Coordinate `(x, y)` lies in the rectangle `r`. -/
def PlatformRect.Contains (r : PlatformRect) (x y : Int) : Prop :=
  r.x ≤ x ∧ x < r.x + r.w ∧ r.y ≤ y ∧ y < r.y + r.h

instance (s : PlatformSurface) (x y : Int) : Decidable (s.InBounds x y) := by
  unfold PlatformSurface.InBounds; infer_instance

instance (s : PlatformSurface) (x y : Int) : Decidable (s.InClip x y) := by
  unfold PlatformSurface.InClip; infer_instance

instance (r : PlatformRect) (x y : Int) : Decidable (r.Contains x y) := by
  unfold PlatformRect.Contains; infer_instance

/-- Address `a` is one of the 4 bytes of pixel `(x, y)` of the surface. -/
def PlatformSurface.PixelByte (s : PlatformSurface) (x y a : Int) : Prop :=
  s.pixelAddr x y ≤ a ∧ a < s.pixelAddr x y + 4

/-- Layout invariant of the data model: 4 bytes per pixel, rows of at least
`width * 4` bytes, non-negative dimensions.  Both constructors establish
`bytesPerPixel = 4`; `platformCreateSurface` sets `pitch = width * 4`. -/
def PlatformSurface.WellFormed (s : PlatformSurface) : Prop :=
  s.bytesPerPixel = 4 ∧ 0 ≤ s.width ∧ 0 ≤ s.height ∧ s.width * 4 ≤ s.pitch

instance (s : PlatformSurface) (x y a : Int) : Decidable (s.PixelByte x y a) := by
  unfold PlatformSurface.PixelByte; infer_instance

instance (s : PlatformSurface) : Decidable s.WellFormed := by
  unfold PlatformSurface.WellFormed; infer_instance

/-- The pixel buffers `[pixels, pixels + pitch * height)` of two surfaces do
not overlap: the surfaces are distinct. -/
def Distinct (s d : PlatformSurface) : Prop :=
  s.pixels + s.pitch * s.height ≤ d.pixels ∨ d.pixels + d.pitch * d.height ≤ s.pixels

instance (s d : PlatformSurface) : Decidable (Distinct s d) := by
  unfold Distinct; infer_instance

/-! ## `platformBlitSurface` -/

/-- The local variables of `platformBlitSurface` after the clamp against the
destination clip rectangle. -/
structure BlitRegion where
  srcX : Int
  srcY : Int
  srcW : Int
  srcH : Int
  dstX : Int
  dstY : Int
deriving DecidableEq, Repr

/-- The first half of `platformBlitSurface`: defaults of the two rectangles and
the four `if` statements that clamp against `dst->clipRect`. -/
def blitClamp (src : PlatformSurface) (srcRect : Option PlatformRect)
    (dst : PlatformSurface) (dstRect : Option PlatformRect) : BlitRegion :=
  let srcX0 : Int := match srcRect with | some r => r.x | none => 0
  let srcY0 : Int := match srcRect with | some r => r.y | none => 0
  let srcW0 : Int := match srcRect with | some r => r.w | none => src.width
  let srcH0 : Int := match srcRect with | some r => r.h | none => src.height
  let dstX0 : Int := match dstRect with | some r => r.x | none => 0
  let dstY0 : Int := match dstRect with | some r => r.y | none => 0
  -- if (dstX < dst->clipRect.x) { srcX += ..; srcW -= ..; dstX = dst->clipRect.x; }
  let srcX := if dstX0 < dst.clipRect.x then srcX0 + (dst.clipRect.x - dstX0) else srcX0
  let srcW1 := if dstX0 < dst.clipRect.x then srcW0 - (dst.clipRect.x - dstX0) else srcW0
  let dstX := if dstX0 < dst.clipRect.x then dst.clipRect.x else dstX0
  -- if (dstY < dst->clipRect.y) { srcY += ..; srcH -= ..; dstY = dst->clipRect.y; }
  let srcY := if dstY0 < dst.clipRect.y then srcY0 + (dst.clipRect.y - dstY0) else srcY0
  let srcH1 := if dstY0 < dst.clipRect.y then srcH0 - (dst.clipRect.y - dstY0) else srcH0
  let dstY := if dstY0 < dst.clipRect.y then dst.clipRect.y else dstY0
  -- if (dstX + srcW > clip.x + clip.w) srcW = clip.x + clip.w - dstX;
  let srcW := if dstX + srcW1 > dst.clipRect.x + dst.clipRect.w
    then dst.clipRect.x + dst.clipRect.w - dstX else srcW1
  -- if (dstY + srcH > clip.y + clip.h) srcH = clip.y + clip.h - dstY;
  let srcH := if dstY + srcH1 > dst.clipRect.y + dst.clipRect.h
    then dst.clipRect.y + dst.clipRect.h - dstY else srcH1
  { srcX := srcX, srcY := srcY, srcW := srcW, srcH := srcH, dstX := dstX, dstY := dstY }

/-- The body of the inner loop of `platformBlitSurface` at offset `(x, y)`. -/
def blitPixel (src dst : PlatformSurface) (R : BlitRegion) (y x : Int) (m : Mem) : Mem :=
  let sx := R.srcX + x
  let sy := R.srcY + y
  let dx := R.dstX + x
  let dy := R.dstY + y
  if sx < 0 ∨ sy < 0 ∨ sx ≥ src.width ∨ sy ≥ src.height then m
  else if dx < 0 ∨ dy < 0 ∨ dx ≥ dst.width ∨ dy ≥ dst.height then m
  else
    let srcPixel := src.pixels + sy * src.pitch + sx * src.bytesPerPixel
    let dstPixel := dst.pixels + dy * dst.pitch + dx * dst.bytesPerPixel
    if src.hasColorKey ≠ 0 ∧ m srcPixel = src.colorKeyB ∧
        m (srcPixel + 1) = src.colorKeyG ∧ m (srcPixel + 2) = src.colorKeyR then m
    else memcpy m dstPixel srcPixel 4

/-- The inner loop `for (x = 0; x < srcW; x++)` of row `y`. -/
def blitRow (src dst : PlatformSurface) (R : BlitRegion) (m : Mem) (y : Int) : Mem :=
  (loopRange 0 R.srcW).foldl (fun m x => blitPixel src dst R y x m) m

/-- The outer loop `for (y = 0; y < srcH; y++)`. -/
def blitLoop (src dst : PlatformSurface) (R : BlitRegion) (m : Mem) : Mem :=
  (loopRange 0 R.srcH).foldl (blitRow src dst R) m

/-- The function `platformBlitSurface`, as a transformer of memory. -/
def platformBlitSurface (m : Mem) (src : Option PlatformSurface)
    (srcRect : Option PlatformRect) (dst : Option PlatformSurface)
    (dstRect : Option PlatformRect) : Mem :=
  match src, dst with
  | some s, some d =>
    if s.pixels = 0 ∨ d.pixels = 0 then m
    else
      let R := blitClamp s srcRect d dstRect
      if R.srcW ≤ 0 ∨ R.srcH ≤ 0 then m
      else blitLoop s d R m
  | _, _ => m

/-! ## `platformFillRect` -/

/-- The body of the inner loop of `platformFillRect`: the four stores
`pixel[0] = b; pixel[1] = g; pixel[2] = r; pixel[3] = a`. -/
def fillPixel (s : PlatformSurface) (r g b a : Byte) (py px : Int) (m : Mem) : Mem :=
  let pixel := s.pixels + py * s.pitch + px * s.bytesPerPixel
  (((m.write pixel b).write (pixel + 1) g).write (pixel + 2) r).write (pixel + 3) a

/-- The inner loop `for (px = x; px < x + w && px < surface->width; px++)`. -/
def fillRow (s : PlatformSurface) (x w : Int) (r g b a : Byte) (m : Mem) (py : Int) : Mem :=
  (loopRange x (min (x + w) s.width)).foldl (fun m px => fillPixel s r g b a py px m) m

/-- The function `platformFillRect`, as a transformer of memory. -/
def platformFillRect (m : Mem) (surface : Option PlatformSurface)
    (rect : Option PlatformRect) (r g b a : Byte) : Mem :=
  match surface with
  | none => m
  | some s =>
    if s.pixels = 0 then m
    else
      let x : Int := match rect with | some q => q.x | none => 0
      let y : Int := match rect with | some q => q.y | none => 0
      let w : Int := match rect with | some q => q.w | none => s.width
      let h : Int := match rect with | some q => q.h | none => s.height
      (loopRange y (min (y + h) s.height)).foldl (fillRow s x w r g b a) m

/-! ## Events (`platform.h`) and the pending-event queue
(`platform_web.c`, `platform_windows.c`) -/

/-- The enum `PlatformKeyCode`. -/
inductive PlatformKeyCode where
  | KEY_UNKNOWN
  | KEY_SPACE
  | KEY_RETURN
  | KEY_ESCAPE
  | KEY_M
  | KEY_LALT
deriving DecidableEq, Repr

/-- The enum `PlatformEventType`. -/
inductive PlatformEventType where
  | EVENT_NONE
  | EVENT_QUIT
  | EVENT_KEY_DOWN
  | EVENT_KEY_UP
  | EVENT_WINDOW_REFRESH
deriving DecidableEq, Repr

/-- The modifier bit `KEYMOD_LALT = 1 << 0`. -/
def KEYMOD_LALT : Nat := 1

/-- The struct `PlatformEvent`: the type and the `data.key` member (key code
and `uint16` modifier mask). -/
structure PlatformEvent where
  type : PlatformEventType
  keycode : PlatformKeyCode
  modifiers : Nat
deriving DecidableEq, Repr

/-- The statics `pendingEvents[32]` and `pendingEventCount`.  The array is a
map from index to slot; only the indices 0..31 exist in the program. -/
structure EventQueue where
  pendingEvents : Int → PlatformEvent
  pendingEventCount : Int

/-- Array store `pendingEvents[i] = e`. -/
def setSlot (slots : Int → PlatformEvent) (i : Int) (e : PlatformEvent) : Int → PlatformEvent :=
  fun j => if j = i then e else slots j

/-- The events waiting in the queue, oldest first: slots `0 .. count-1`. -/
def EventQueue.contents (q : EventQueue) : List PlatformEvent :=
  (loopRange 0 q.pendingEventCount).map q.pendingEvents

/-- The loop `for (i = 1; i < pendingEventCount; i++) pendingEvents[i-1] =
pendingEvents[i];` of `platformPollEvent`. -/
def shiftDown (slots : Int → PlatformEvent) (count : Int) : Int → PlatformEvent :=
  (loopRange 1 count).foldl (fun sl i => setSlot sl (i - 1) (sl i)) slots

/-- The dequeue shared by the web and the Windows `platformPollEvent`:
`if (pendingEventCount > 0) { *event = pendingEvents[0]; shift;
pendingEventCount--; return 1; } return 0;`.  The result is the return value,
the caller's event buffer and the queue. -/
def popPending (q : EventQueue) (event : PlatformEvent) : Int × PlatformEvent × EventQueue :=
  if q.pendingEventCount > 0 then
    (1, q.pendingEvents 0,
      { pendingEvents := shiftDown q.pendingEvents q.pendingEventCount,
        pendingEventCount := q.pendingEventCount - 1 })
  else (0, event, q)

/-- Repeated polling: `n` successive calls of `poll`, each on the event buffer
left by the previous one; the results are the return value and the buffer
after each call. -/
def pollN (poll : EventQueue → PlatformEvent → Int × PlatformEvent × EventQueue) :
    Nat → EventQueue → PlatformEvent → List (Int × PlatformEvent) × EventQueue × PlatformEvent
  | 0, q, ev => ([], q, ev)
  | n + 1, q, ev =>
    let r := poll q ev
    let rest := pollN poll n r.2.2 r.2.1
    ((r.1, r.2.1) :: rest.1, rest.2)

namespace Web

/-- The part of `EmscriptenKeyboardEvent` that `keyCallback` reads. -/
structure EmscriptenKeyboardEvent where
  key : String
  altKey : Bool
deriving DecidableEq, Repr

/-- The constant `EMSCRIPTEN_EVENT_KEYDOWN` of `emscripten/html5.h`. -/
def EMSCRIPTEN_EVENT_KEYDOWN : Int := 2

/-- The constant `EMSCRIPTEN_EVENT_KEYUP` of `emscripten/html5.h`. -/
def EMSCRIPTEN_EVENT_KEYUP : Int := 3

/-- The event `keyCallback` builds in the slot `pendingEvents[pendingEventCount]`:
every member of the slot is assigned. -/
def keyEventOf (eventType : Int) (keyEvent : EmscriptenKeyboardEvent) : PlatformEvent :=
  { type := if eventType = EMSCRIPTEN_EVENT_KEYDOWN then PlatformEventType.EVENT_KEY_DOWN
      else PlatformEventType.EVENT_KEY_UP
    modifiers := if keyEvent.altKey then 0 ||| KEYMOD_LALT else 0
    keycode :=
      if keyEvent.key = " " ∨ keyEvent.key = "Space" then PlatformKeyCode.KEY_SPACE
      else if keyEvent.key = "Enter" then PlatformKeyCode.KEY_RETURN
      else if keyEvent.key = "Escape" then PlatformKeyCode.KEY_ESCAPE
      else if keyEvent.key = "m" ∨ keyEvent.key = "M" then PlatformKeyCode.KEY_M
      else PlatformKeyCode.KEY_UNKNOWN }

/-- The function `keyCallback` of `platform_web.c`: the producer of the web
back end.  Returns the queue and the `EM_BOOL` result. -/
def keyCallback (q : EventQueue) (eventType : Int) (keyEvent : EmscriptenKeyboardEvent) :
    EventQueue × Bool :=
  if q.pendingEventCount ≥ 32 then (q, false)
  else
    ({ pendingEvents := setSlot q.pendingEvents q.pendingEventCount (keyEventOf eventType keyEvent),
       pendingEventCount := q.pendingEventCount + 1 }, true)

/-- The function `platformPollEvent` of `platform_web.c`. -/
def platformPollEvent (q : EventQueue) (event : PlatformEvent) :
    Int × PlatformEvent × EventQueue :=
  popPending q event

/-- One step of the web back end as seen by the queue: a keyboard callback or
a poll. -/
inductive Op where
  | key (eventType : Int) (keyEvent : EmscriptenKeyboardEvent)
  | poll (event : PlatformEvent)

/-- Effect of one step on the queue. -/
def step (q : EventQueue) : Op → EventQueue
  | Op.key t k => (keyCallback q t k).1
  | Op.poll ev => (platformPollEvent q ev).2.2

end Web

namespace Windows

/-- A window message as `WindowProc` sees it: `uMsg`, `wParam`, and whether
`GetKeyState(VK_MENU) & 0x8000` is non-zero at that moment. -/
structure Msg where
  uMsg : Nat
  wParam : Nat
  altDown : Bool
deriving DecidableEq, Repr

/-- The message constant `WM_CLOSE` of `windows.h`. -/
def WM_CLOSE : Nat := 0x0010

/-- The message constant `WM_KEYDOWN` of `windows.h`. -/
def WM_KEYDOWN : Nat := 0x0100

/-- The message constant `WM_KEYUP` of `windows.h`. -/
def WM_KEYUP : Nat := 0x0101

/-- The message constant `WM_PAINT` of `windows.h`. -/
def WM_PAINT : Nat := 0x000F

/-- The virtual-key code `VK_SPACE`. -/
def VK_SPACE : Nat := 0x20

/-- The virtual-key code `VK_RETURN`. -/
def VK_RETURN : Nat := 0x0D

/-- The virtual-key code `VK_ESCAPE`. -/
def VK_ESCAPE : Nat := 0x1B

/-- The character constant `'M'`. -/
def VK_M : Nat := 0x4D

/-- The function `WindowProc` of `platform_windows.c`, as far as the queue is
concerned: the producer of the Windows back end.  `WM_CLOSE` and `WM_KEYUP`
assign only the type of the slot, `WM_KEYDOWN` assigns type, modifiers and key
code; `WM_PAINT` (presentation) and the messages handed to `DefWindowProc`
leave the queue alone. -/
def WindowProc (q : EventQueue) (msg : Msg) : EventQueue :=
  if msg.uMsg = WM_CLOSE then
    if q.pendingEventCount < 32 then
      { pendingEvents := setSlot q.pendingEvents q.pendingEventCount
          { q.pendingEvents q.pendingEventCount with type := PlatformEventType.EVENT_QUIT },
        pendingEventCount := q.pendingEventCount + 1 }
    else q
  else if msg.uMsg = WM_KEYDOWN then
    if q.pendingEventCount < 32 then
      { pendingEvents := setSlot q.pendingEvents q.pendingEventCount
          { type := PlatformEventType.EVENT_KEY_DOWN
            modifiers := if msg.altDown then 0 ||| KEYMOD_LALT else 0
            keycode :=
              if msg.wParam = VK_SPACE then PlatformKeyCode.KEY_SPACE
              else if msg.wParam = VK_RETURN then PlatformKeyCode.KEY_RETURN
              else if msg.wParam = VK_ESCAPE then PlatformKeyCode.KEY_ESCAPE
              else if msg.wParam = VK_M then PlatformKeyCode.KEY_M
              else PlatformKeyCode.KEY_UNKNOWN },
        pendingEventCount := q.pendingEventCount + 1 }
    else q
  else if msg.uMsg = WM_KEYUP then
    if q.pendingEventCount < 32 then
      { pendingEvents := setSlot q.pendingEvents q.pendingEventCount
          { q.pendingEvents q.pendingEventCount with type := PlatformEventType.EVENT_KEY_UP },
        pendingEventCount := q.pendingEventCount + 1 }
    else q
  else q

/-- The message is one of the three for which `WindowProc` appends an event:
close, key down, key up. -/
def Msg.Appends (msg : Msg) : Prop :=
  msg.uMsg = WM_CLOSE ∨ msg.uMsg = WM_KEYDOWN ∨ msg.uMsg = WM_KEYUP

instance (msg : Msg) : Decidable msg.Appends := by
  unfold Msg.Appends; infer_instance

/-- The event an appending message leaves in its slot, `old` being what the
slot held before: a quit or key-up event keeps the key members of `old`. -/
def stored (old : PlatformEvent) (msg : Msg) : PlatformEvent :=
  if msg.uMsg = WM_CLOSE then { old with type := PlatformEventType.EVENT_QUIT }
  else if msg.uMsg = WM_KEYDOWN then
    { type := PlatformEventType.EVENT_KEY_DOWN
      modifiers := if msg.altDown then 0 ||| KEYMOD_LALT else 0
      keycode :=
        if msg.wParam = VK_SPACE then PlatformKeyCode.KEY_SPACE
        else if msg.wParam = VK_RETURN then PlatformKeyCode.KEY_RETURN
        else if msg.wParam = VK_ESCAPE then PlatformKeyCode.KEY_ESCAPE
        else if msg.wParam = VK_M then PlatformKeyCode.KEY_M
        else PlatformKeyCode.KEY_UNKNOWN }
  else { old with type := PlatformEventType.EVENT_KEY_UP }

/-- The events a sequence of appending messages leaves in the slots `c, c+1,
...` of an array that held `slots`. -/
def storedList (slots : Int → PlatformEvent) : Int → List Msg → List PlatformEvent
  | _, [] => []
  | c, msg :: rest => stored (slots c) msg :: storedList slots (c + 1) rest

/-- The function `platformPollEvent` of `platform_windows.c`: the messages
waiting in the thread's message queue are dispatched to `WindowProc` first,
then one event is dequeued. -/
def platformPollEvent (waiting : List Msg) (q : EventQueue) (event : PlatformEvent) :
    Int × PlatformEvent × EventQueue :=
  popPending (waiting.foldl WindowProc q) event

/-- One step of the Windows back end as seen by the queue: a message delivered
to `WindowProc` directly, or a poll with the messages waiting at that time. -/
inductive Op where
  | message (msg : Msg)
  | poll (waiting : List Msg) (event : PlatformEvent)

/-- Effect of one step on the queue. -/
def step (q : EventQueue) : Op → EventQueue
  | Op.message msg => WindowProc q msg
  | Op.poll waiting ev => (platformPollEvent waiting q ev).2.2

end Windows

/-! ## `platformLoadWAV` (identical in the three back ends)

Files are byte lists, `fopen` is a lookup in a file system that may fail, and
the C heap is the list of the blocks currently allocated.  `malloc` is taken
to succeed.  Multi-byte loads through `uint16*` / `uint32*` are little-endian,
as on every target of the three back ends. -/

/-- The struct `PlatformAudioSpec`: `int freq`, `uint16 format`,
`uint8 channels`, `uint16 samples`, the callback pointer and the user pointer
(both as addresses). -/
structure PlatformAudioSpec where
  freq : Int
  format : Nat
  channels : Nat
  samples : Nat
  callback : Nat
  userdata : Nat
deriving DecidableEq, Repr

/-- The C heap: the live blocks, each with its address and its bytes. -/
structure Heap where
  blocks : List (Nat × List Byte)
deriving DecidableEq, Repr

/-- An address that no live block has (and that is not `NULL`). -/
def Heap.fresh (h : Heap) : Nat :=
  1 + (h.blocks.map Prod.fst).foldr max 0

/-- The call `malloc(n)`: a new block of `n` bytes at a fresh address.  Its
initial bytes are indeterminate in C; they are 0 here and never read. -/
def malloc (h : Heap) (n : Nat) : Nat × Heap :=
  (h.fresh, { blocks := (h.fresh, List.replicate n 0) :: h.blocks })

/-- The call `free(p)`. -/
def free (h : Heap) (p : Nat) : Heap :=
  { blocks := h.blocks.filter (fun b => b.1 ≠ p) }

/-- Write `bytes` at the start of block `p`, as `fread` does with what it
could read. -/
def Heap.store (h : Heap) (p : Nat) (bytes : List Byte) : Heap :=
  { blocks := h.blocks.map
      (fun b => if b.1 = p then (p, bytes ++ b.2.drop bytes.length) else b) }

/-- The bytes of block `p`. -/
def Heap.load (h : Heap) (p : Nat) : Option (List Byte) :=
  (h.blocks.find? (fun b => b.1 = p)).map Prod.snd

/-- The load `*(uint16*)(header + off)`. -/
def readLE16 (header : List Byte) (off : Nat) : Nat :=
  (header.getD off 0).val + 256 * (header.getD (off + 1) 0).val

/-- The load `*(uint32*)(header + off)`. -/
def readLE32 (header : List Byte) (off : Nat) : Nat :=
  (header.getD off 0).val + 256 * (header.getD (off + 1) 0).val
    + 65536 * (header.getD (off + 2) 0).val + 16777216 * (header.getD (off + 3) 0).val

/-- Conversion of a `uint32` value to `int`: the same 32 bits in two's
complement. -/
def toInt32 (v : Nat) : Int :=
  if v < 2147483648 then (v : Int) else (v : Int) - 4294967296

/-- What `platformLoadWAV` reads and writes: the heap, `lastError`, and the
three objects behind its pointer arguments `spec`, `audio_buf`, `audio_len`. -/
structure WavState where
  heap : Heap
  lastError : String
  spec : PlatformAudioSpec
  audio_buf : Nat
  audio_len : Nat
deriving DecidableEq, Repr

/-- The function `platformLoadWAV`: return value and final state. -/
def platformLoadWAV (fs : String → Option (List Byte)) (filename : String) (st : WavState) :
    Int × WavState :=
  match fs filename with
  | none => (-1, { st with lastError := "Failed to open WAV file" })
  | some data =>
    -- fread(header, 1, 44, file)
    let header := data.take 44
    if header.length ≠ 44 then (-1, { st with lastError := "Invalid WAV file" })
    else
      let dataSize := readLE32 header 40
      -- *audio_len = dataSize; *audio_buf = malloc(dataSize);
      let a := malloc st.heap dataSize
      -- fread(*audio_buf, 1, dataSize, file)
      let payload := (data.drop 44).take dataSize
      let heap2 := a.2.store a.1 payload
      if payload.length ≠ dataSize then
        (-1, { heap := free heap2 a.1, lastError := "Failed to read WAV data",
               spec := st.spec, audio_buf := a.1, audio_len := dataSize })
      else
        (0, { heap := heap2, lastError := st.lastError,
              spec := { st.spec with
                freq := toInt32 (readLE32 header 24)
                channels := readLE16 header 22 % 256
                format := readLE16 header 34 },
              audio_buf := a.1, audio_len := dataSize })

/-! ## Single-precision arithmetic (`float`)

The letterbox computation of `platform_windows.c` is done in `float`.  The C
`float` is taken to be IEEE-754 binary32 with round-to-nearest-even, every
operation rounded to binary32 (no wider intermediate precision).  `F32` holds
the finite values and `F32X` adds negative zero, the infinities and NaN, which
a division by zero produces.  Exponent limits are not modelled; the quotients
and products of 32-bit integers stay far inside them. -/

/-- A finite single-precision value `m * 2^e`, with `|m| ≤ 2^24`. -/
structure F32 where
  m : Int
  e : Int
deriving DecidableEq, Repr

/-- Number of binary digits of `n` (0 for 0); the first argument is fuel,
`n` itself being enough. -/
def bitLength : Nat → Nat → Nat
  | 0, _ => 0
  | fuel + 1, n => if n = 0 then 0 else bitLength fuel (n / 2) + 1

/-- Position of the leading binary digit of `n`: the floor of its base-2
logarithm (0 for 0). -/
def ilog2 (n : Nat) : Nat := bitLength n n - 1

/-- The quotient `num / den` rounded to the nearest integer, ties to the even
one. -/
def roundHalfEven (num den : Nat) : Nat :=
  if 2 * (num % den) > den ∨ (2 * (num % den) = den ∧ num / den % 2 = 1)
  then num / den + 1 else num / den

/-- The positive rational `p / q` rounded to the nearest value with a 24-bit
significand, ties to even: the exponent `e` is chosen with
`2^23 ≤ p / (q * 2^e) < 2^24`, and the significand is that scaled quotient
rounded to the nearest integer. -/
def roundPos (p q : Nat) : F32 :=
  let e0 : Int := (ilog2 p : Int) - (ilog2 q : Int) - 23
  let num0 : Nat := p * 2 ^ (-e0).toNat
  let den : Nat := q * 2 ^ e0.toNat
  if num0 < den * 2 ^ 23 then { m := (roundHalfEven (2 * num0) den : Nat), e := e0 - 1 }
  else { m := (roundHalfEven num0 den : Nat), e := e0 }

/-- The rational `n / d` (`d ≠ 0`) rounded to single precision. -/
def roundQ (n d : Int) : F32 :=
  if n = 0 then { m := 0, e := 0 }
  else
    let r := roundPos n.natAbs d.natAbs
    if (n < 0 ∧ d < 0) ∨ (0 < n ∧ 0 < d) then r else { m := -r.m, e := r.e }

/-- The conversion `(float)n` of an `int`. -/
def f32OfInt (n : Int) : F32 := roundQ n 1

/-- The `float` division `a / b`; no result for a zero divisor. -/
def f32Div (a b : F32) : Option F32 :=
  if b.m = 0 then none
  else some (roundQ (a.m * 2 ^ (a.e - b.e).toNat) (b.m * 2 ^ (b.e - a.e).toNat))

/-- The `float` product `a * b`. -/
def f32Mul (a b : F32) : F32 :=
  roundQ (a.m * b.m * 2 ^ (a.e + b.e).toNat) (2 ^ (-(a.e + b.e)).toNat)

/-- The `float` comparison `a > b`. -/
def f32Gt (a b : F32) : Prop :=
  b.m * 2 ^ (b.e - a.e).toNat < a.m * 2 ^ (a.e - b.e).toNat

instance (a b : F32) : Decidable (f32Gt a b) := by
  unfold f32Gt; infer_instance

/-- The conversion `(int)a` of a `float`: the fraction is dropped (truncation
toward zero). -/
def f32ToInt (a : F32) : Int :=
  Int.tdiv (a.m * 2 ^ a.e.toNat) (2 ^ (-a.e).toNat)

/-- A `float` value: a finite value (with `m = 0` for positive zero), negative
zero, an infinity, or NaN. -/
inductive F32X where
  | finite (x : F32)
  | negZero
  | posInf
  | negInf
  | nan
deriving DecidableEq, Repr

/-- The sign bit of a value (false for NaN, whose sign is never used). -/
def F32X.neg : F32X → Bool
  | F32X.finite x => decide (x.m < 0)
  | F32X.negZero => true
  | F32X.posInf => false
  | F32X.negInf => true
  | F32X.nan => false

/-- The value is a zero of either sign. -/
def F32X.isZero : F32X → Bool
  | F32X.finite x => decide (x.m = 0)
  | F32X.negZero => true
  | _ => false

/-- The value is an infinity. -/
def F32X.isInf : F32X → Bool
  | F32X.posInf => true
  | F32X.negInf => true
  | _ => false

/-- The value is NaN. -/
def F32X.isNan : F32X → Bool
  | F32X.nan => true
  | _ => false

/-- The finite value of a finite argument, zero for the others. -/
def F32X.mag : F32X → F32
  | F32X.finite x => x
  | _ => { m := 0, e := 0 }

/-- The zero with the given sign bit. -/
def signedZero (neg : Bool) : F32X :=
  if neg then F32X.negZero else F32X.finite { m := 0, e := 0 }

/-- The infinity with the given sign bit. -/
def signedInf (neg : Bool) : F32X :=
  if neg then F32X.negInf else F32X.posInf

/-- The conversion `(float)n` of an `int`, as a `float` value. -/
def F32X.ofInt (n : Int) : F32X := F32X.finite (f32OfInt n)

/-- The IEEE-754 division `a / b`: NaN for a NaN operand, for inf/inf and for
0/0; an infinity for a finite non-zero value over zero; a zero for a finite
value over an infinity; the sign is the exclusive or of the signs. -/
def F32X.div (a b : F32X) : F32X :=
  if a.isNan ∨ b.isNan then F32X.nan
  else if a.isInf then (if b.isInf then F32X.nan else signedInf (xor a.neg b.neg))
  else if b.isInf then signedZero (xor a.neg b.neg)
  else if b.isZero then (if a.isZero then F32X.nan else signedInf (xor a.neg b.neg))
  else if a.isZero then signedZero (xor a.neg b.neg)
  else
    match f32Div a.mag b.mag with
    | some q => F32X.finite q
    | none => F32X.nan

/-- The IEEE-754 product `a * b`: NaN for a NaN operand and for zero times
infinity; the sign is the exclusive or of the signs. -/
def F32X.mul (a b : F32X) : F32X :=
  if a.isNan ∨ b.isNan then F32X.nan
  else if a.isInf ∨ b.isInf then
    (if a.isZero ∨ b.isZero then F32X.nan else signedInf (xor a.neg b.neg))
  else if a.isZero ∨ b.isZero then signedZero (xor a.neg b.neg)
  else F32X.finite (f32Mul a.mag b.mag)

/-- The comparison `a > b`: false when an operand is NaN, the zeros are
equal. -/
def F32X.gt (a b : F32X) : Prop :=
  a.isNan = false ∧ b.isNan = false ∧
    (if a = F32X.posInf then b ≠ F32X.posInf
     else if a = F32X.negInf then False
     else if b = F32X.posInf then False
     else if b = F32X.negInf then True
     else f32Gt a.mag b.mag)

instance (a b : F32X) : Decidable (F32X.gt a b) := by
  unfold F32X.gt; infer_instance

/-- The conversion `(int)a`: the integer part of a finite value; no result for
an infinity or NaN, whose conversion is undefined in C. -/
def F32X.toInt : F32X → Option Int
  | F32X.finite x => some (f32ToInt x)
  | F32X.negZero => some 0
  | _ => none

/-! ## `platformUpdateWindow` -/

/-- A destination rectangle of a presentation: `destX, destY, destWidth,
destHeight`. -/
structure DestRect where
  destX : Int
  destY : Int
  destWidth : Int
  destHeight : Int
deriving DecidableEq, Repr

/-- The Win32 struct `RECT`; `FillRect` paints `left ≤ x < right`,
`top ≤ y < bottom`. -/
structure RECT where
  left : Int
  top : Int
  right : Int
  bottom : Int
deriving DecidableEq, Repr

/-- What a call of `platformUpdateWindow` does to the window. -/
inductive Presented where
  /-- Returned at the guard `if (!window || ...) return;`. -/
  | skipped
  /-- An infinity or NaN is converted to `int`: undefined in C. -/
  | nonFinite
  /-- The rectangles painted black, in order, then the rectangle the back
  buffer is drawn into. -/
  | drawn (fills : List RECT) (dest : DestRect)
deriving DecidableEq, Repr

namespace Windows

/-- The part `// Calculate aspect-ratio preserving dimensions` of
`platformUpdateWindow` in `platform_windows.c`, for a surface `w x h` and a
client area `clientWidth x clientHeight`.  A division by zero goes on with an
infinity or NaN, as the code does; `none` when the cast `(int)` is applied to
an infinity or NaN. -/
def letterbox (w h clientWidth clientHeight : Int) : Option DestRect :=
  -- float surfaceAspect = (float)width / (float)height;
  let surfaceAspect := F32X.div (F32X.ofInt w) (F32X.ofInt h)
  -- float windowAspect = (float)clientWidth / (float)clientHeight;
  let windowAspect := F32X.div (F32X.ofInt clientWidth) (F32X.ofInt clientHeight)
  if F32X.gt windowAspect surfaceAspect then
    let destHeight := clientHeight
    match F32X.toInt (F32X.mul (F32X.ofInt destHeight) surfaceAspect) with
    | some destWidth =>
      some { destX := Int.tdiv (clientWidth - destWidth) 2, destY := 0,
             destWidth := destWidth, destHeight := destHeight }
    | none => none
  else
    let destWidth := clientWidth
    match F32X.toInt (F32X.div (F32X.ofInt destWidth) surfaceAspect) with
    | some destHeight =>
      some { destX := 0, destY := Int.tdiv (clientHeight - destHeight) 2,
             destWidth := destWidth, destHeight := destHeight }
    | none => none

/-- The part `// Fill borders with black if needed` of `platformUpdateWindow`:
the `FillRect` calls, in order. -/
def borders (d : DestRect) (clientWidth clientHeight : Int) : List RECT :=
  if d.destX > 0 ∨ d.destY > 0 then
    (if d.destX > 0 then
      [{ left := 0, top := 0, right := d.destX, bottom := clientHeight },
       { left := d.destX + d.destWidth, top := 0, right := clientWidth, bottom := clientHeight }]
     else []) ++
    (if d.destY > 0 then
      [{ left := 0, top := 0, right := clientWidth, bottom := d.destY },
       { left := 0, top := d.destY + d.destHeight, right := clientWidth, bottom := clientHeight }]
     else [])
  else []

/-- The function `platformUpdateWindow` of `platform_windows.c`: `surface` is
`window->surface` (`none` when the window or its surface is null), the client
size is what `GetClientRect` reports. -/
def platformUpdateWindow (surface : Option PlatformSurface) (clientWidth clientHeight : Int) :
    Presented :=
  match surface with
  | none => Presented.skipped
  | some s =>
    match letterbox s.width s.height clientWidth clientHeight with
    | none => Presented.nonFinite
    | some d => Presented.drawn (borders d clientWidth clientHeight) d

end Windows

namespace Linux

/-- The function `platformUpdateWindow` of `platform_linux.c`:
`XPutImage(display, window, gc, ximage, 0, 0, 0, 0, width, height)`, whatever
the size of the window. -/
def platformUpdateWindow (surface : Option PlatformSurface) (_clientWidth _clientHeight : Int) :
    Presented :=
  match surface with
  | none => Presented.skipped
  | some s =>
    Presented.drawn [] { destX := 0, destY := 0, destWidth := s.width, destHeight := s.height }

end Linux

namespace Web

/-- The function `platformUpdateWindow` of `platform_web.c`:
`ctx.putImageData(imageData, 0, 0)` with an image of `width x height`,
whatever the size the canvas is shown at. -/
def platformUpdateWindow (surface : Option PlatformSurface) (_clientWidth _clientHeight : Int) :
    Presented :=
  match surface with
  | none => Presented.skipped
  | some s =>
    Presented.drawn [] { destX := 0, destY := 0, destWidth := s.width, destHeight := s.height }

end Web

/-- The letterbox rule in the words of the specification, in exact arithmetic:
with S = w/h and C = cw/ch, if C > S then destHeight = ch and destWidth =
round(ch * S), otherwise destWidth = cw and destHeight = round(cw / S); the
result is centred in the other axis.  `roundDiv a b` is `a / b` rounded to the
nearest integer (halves up), for `b > 0`. -/
def roundDiv (a b : Int) : Int := (2 * a + b) / (2 * b)

/-- The rectangle the letterbox rule of the specification gives, for positive
sizes: `C > S` is `cw * h > w * ch`, `ch * S` is `ch * w / h` and `cw / S` is
`cw * h / w`. -/
def letterboxRule (w h cw ch : Int) : DestRect :=
  if cw * h > w * ch then
    { destX := (cw - roundDiv (ch * w) h) / 2, destY := 0,
      destWidth := roundDiv (ch * w) h, destHeight := ch }
  else
    { destX := 0, destY := (ch - roundDiv (cw * h) w) / 2,
      destWidth := cw, destHeight := roundDiv (cw * h) w }

/-- A pixel of the client area is inside the destination rectangle. -/
def DestRect.Contains (d : DestRect) (px py : Int) : Prop :=
  d.destX ≤ px ∧ px < d.destX + d.destWidth ∧ d.destY ≤ py ∧ py < d.destY + d.destHeight

/-- A pixel is painted by `FillRect` on the rectangle. -/
def RECT.Contains (r : RECT) (px py : Int) : Prop :=
  r.left ≤ px ∧ px < r.right ∧ r.top ≤ py ∧ py < r.bottom

instance (d : DestRect) (px py : Int) : Decidable (d.Contains px py) := by
  unfold DestRect.Contains; infer_instance

instance (r : RECT) (px py : Int) : Decidable (r.Contains px py) := by
  unfold RECT.Contains; infer_instance

/-- A surface of the given size with a pixel buffer at address 1000. -/
def surfaceOfSize (w h : Int) : PlatformSurface :=
  { width := w, height := h, pitch := w * 4, bytesPerPixel := 4, pixels := 1000,
    hasColorKey := 0, colorKeyR := 0, colorKeyG := 0, colorKeyB := 0,
    clipRect := ⟨0, 0, w % 65536, h % 65536⟩, ownPixels := 1 }

/-! ## Clock and delay (`platformGetTicks`, `platformDelay`) -/

/-- The struct `timespec`: seconds and nanoseconds, `0 ≤ tv_nsec < 10^9`. -/
structure Timespec where
  tv_sec : Int
  tv_nsec : Int
deriving DecidableEq, Repr

/-- A normalised `timespec`. -/
def Timespec.Valid (t : Timespec) : Prop := 0 ≤ t.tv_nsec ∧ t.tv_nsec < 1000000000

/-- Order of two readings of the monotonic clock. -/
def Timespec.le (a b : Timespec) : Prop :=
  a.tv_sec < b.tv_sec ∨ (a.tv_sec = b.tv_sec ∧ a.tv_nsec ≤ b.tv_nsec)

instance (t : Timespec) : Decidable t.Valid := by
  unfold Timespec.Valid; infer_instance

instance (a b : Timespec) : Decidable (a.le b) := by
  unfold Timespec.le; infer_instance

namespace Linux

/-- The function `platformGetTicks` of `platform_linux.c`: `startTime` is the
reading taken by `platformInit`, `now` the reading of this call.  The sum is
converted to `uint64_t`, the quotient to `uint32`. -/
def platformGetTicks (startTime now : Timespec) : Int :=
  let elapsed_ns := ((now.tv_sec - startTime.tv_sec) * 1000000000
    + (now.tv_nsec - startTime.tv_nsec)) % 18446744073709551616
  (elapsed_ns / 1000000) % 4294967296

/-- The function `platformDelay` of `platform_linux.c`: the value handed to
`usleep`, the `uint32` product `ms * 1000`. -/
def platformDelay (ms : Int) : Int := (ms * 1000) % 4294967296

end Linux

namespace Windows

/-- The function `platformGetTicks` of `platform_windows.c`, on the counter
values `QuadPart`: `elapsed` and `elapsed * 1000` are `uint64_t`, the result is
converted to `uint32`. -/
def platformGetTicks (performanceFreq startTime now : Int) : Int :=
  let elapsed := (now - startTime) % 18446744073709551616
  (((elapsed * 1000) % 18446744073709551616) / (performanceFreq % 18446744073709551616))
    % 4294967296

end Windows

/-! ## Double-precision arithmetic (`double`)

The clock of `platform_web.c` is read and subtracted in `double`.  The C
`double` is taken to be IEEE-754 binary64 with round-to-nearest-even.  The
value of a finite double is `m * 2^e` with `|m| < 2^53` and
`-1074 ≤ e ≤ 971`.  The
difference of two finite doubles is a multiple of the smaller of their two
units, so it never falls between subnormal values and only its 53-digit
rounding has to be modelled.  A difference of magnitude 2^1024 or more, which
the hardware turns into an infinity, is kept here as a finite value of that
magnitude; its conversion to `uint32` is undefined either way. -/

/-- A finite double-precision value `m * 2^e`; a rounding that carries leaves
the significand `2^53`. -/
structure F64 where
  m : Int
  e : Int
deriving DecidableEq, Repr

/-- Order of the values of two doubles: both significands are brought to the
smaller of the two exponents and compared. -/
def F64.le (a b : F64) : Prop :=
  a.m * 2 ^ (a.e - min a.e b.e).toNat ≤ b.m * 2 ^ (b.e - min a.e b.e).toNat

instance (a b : F64) : Decidable (a.le b) := by
  unfold F64.le; infer_instance

/-- The natural number `n` rounded to 53 significant binary digits, ties to
even: the number `k` of low digits dropped (0 when `n` has at most 53 digits)
and the rounded quotient `n / 2^k`. -/
def round53 (n : Nat) : Nat × Nat :=
  let k := bitLength n n - 53
  (roundHalfEven n (2 ^ k), k)

/-- The difference `a - b` of two doubles: the exact difference, a multiple `d`
of `2^e0` with `e0` the smaller exponent, rounded to 53 significant digits. -/
def f64Sub (a b : F64) : F64 :=
  let e0 := min a.e b.e
  let d : Int := a.m * 2 ^ (a.e - e0).toNat - b.m * 2 ^ (b.e - e0).toNat
  let r := round53 d.natAbs
  { m := if d < 0 then -(r.1 : Int) else (r.1 : Int), e := e0 + (r.2 : Int) }

/-- The integer part of a double: the fraction is dropped (truncation toward
zero). -/
def f64Trunc (a : F64) : Int :=
  Int.tdiv (a.m * 2 ^ a.e.toNat) (2 ^ (-a.e).toNat)

/-- The conversion `(uint32)a` of a double: the integer part when it is a
`uint32` value; otherwise the behaviour is undefined (`none`). -/
def f64ToUInt32 (a : F64) : Option Int :=
  if 0 ≤ f64Trunc a ∧ f64Trunc a < 4294967296 then some (f64Trunc a) else none

namespace Web

/-- The function `platformGetTicks` of `platform_web.c`: `startTime` is the
value of `emscripten_get_now()` stored by `platformInit`, `now` the value it
returns in this call. -/
def platformGetTicks (startTime now : F64) : Option Int :=
  f64ToUInt32 (f64Sub now startTime)

end Web

/-! ## Surface constructors and accessors -/

/-- Conversion of an `int` to `uint16`. -/
def toUInt16 (v : Int) : Int := v % 65536

/-- The call `calloc(n, size)` that returned `buf`: on success (`buf` not null)
the `n * size` bytes from `buf` are zero. -/
def calloc (m : Mem) (buf n size : Int) : Mem :=
  fun a => if buf ≠ 0 ∧ buf ≤ a ∧ a < buf + n * size then 0 else m a

/-- The function `platformCreateSurface`: `junk` is the indeterminate content of
the record `malloc` returns (the key color members are not assigned), `buf` the
pointer `calloc` returns.  The result is the surface and the memory. -/
def platformCreateSurface (m : Mem) (junk : PlatformSurface) (buf : Int) (width height : Int) :
    PlatformSurface × Mem :=
  ({ junk with
      width := width
      height := height
      bytesPerPixel := 4
      pitch := width * 4
      pixels := buf
      hasColorKey := 0
      clipRect := { x := 0, y := 0, w := toUInt16 width, h := toUInt16 height }
      ownPixels := 1 },
   calloc m buf (width * height) 4)

/-- The function `platformCreateSurfaceFrom`. -/
def platformCreateSurfaceFrom (junk : PlatformSurface) (pixels : Int)
    (width height pitch : Int) : PlatformSurface :=
  { junk with
      width := width
      height := height
      bytesPerPixel := 4
      pitch := pitch
      pixels := pixels
      hasColorKey := 0
      clipRect := { x := 0, y := 0, w := toUInt16 width, h := toUInt16 height }
      ownPixels := 0 }

/-- The function `platformSetColorKey`: the surface after the call. -/
def platformSetColorKey (surface : Option PlatformSurface) (r g b : Byte) :
    Option PlatformSurface :=
  match surface with
  | none => none
  | some s => some { s with hasColorKey := 1, colorKeyR := r, colorKeyG := g, colorKeyB := b }

/-- The function `platformSetClipRect`: the surface after the call. -/
def platformSetClipRect (surface : Option PlatformSurface) (rect : Option PlatformRect) :
    Option PlatformSurface :=
  match surface with
  | none => none
  | some s =>
    match rect with
    | some r => some { s with clipRect := r }
    | none =>
      some { s with clipRect := { x := 0, y := 0, w := toUInt16 s.width, h := toUInt16 s.height } }

/-- The function `platformGetClipRect`: the content of `*rect` after the call
(`none` for a null `rect`). -/
def platformGetClipRect (surface : Option PlatformSurface) (rect : Option PlatformRect) :
    Option PlatformRect :=
  match surface, rect with
  | some s, some _ => some s.clipRect
  | _, r => r

/-- The clip rectangle lies within `[0,width] x [0,height]`. -/
def PlatformSurface.ClipWithin (s : PlatformSurface) : Prop :=
  0 ≤ s.clipRect.x ∧ 0 ≤ s.clipRect.y ∧
    s.clipRect.x + s.clipRect.w ≤ s.width ∧ s.clipRect.y + s.clipRect.h ≤ s.height

instance (s : PlatformSurface) : Decidable s.ClipWithin := by
  unfold PlatformSurface.ClipWithin; infer_instance

/-- Rectangle `r` lies within `[0,width] x [0,height]`. -/
def PlatformRect.Within (r : PlatformRect) (width height : Int) : Prop :=
  0 ≤ r.x ∧ 0 ≤ r.y ∧ r.x + r.w ≤ width ∧ r.y + r.h ≤ height

instance (r : PlatformRect) (width height : Int) : Decidable (r.Within width height) := by
  unfold PlatformRect.Within; infer_instance

/-- A call made on a surface after its creation. -/
inductive SurfaceOp where
  | setClipRect (rect : Option PlatformRect)
  | setColorKey (r g b : Byte)
  | blitOnto (src : Option PlatformSurface) (srcRect dstRect : Option PlatformRect)
  | blitFrom (dst : Option PlatformSurface) (srcRect dstRect : Option PlatformRect)
  | fillRect (rect : Option PlatformRect) (r g b a : Byte)

/-- Effect of one call on the surface record and on memory. -/
def applyOp (st : PlatformSurface × Mem) : SurfaceOp → PlatformSurface × Mem
  | SurfaceOp.setClipRect rect => ((platformSetClipRect (some st.1) rect).getD st.1, st.2)
  | SurfaceOp.setColorKey r g b => ((platformSetColorKey (some st.1) r g b).getD st.1, st.2)
  | SurfaceOp.blitOnto src srcRect dstRect =>
    (st.1, platformBlitSurface st.2 src srcRect (some st.1) dstRect)
  | SurfaceOp.blitFrom dst srcRect dstRect =>
    (st.1, platformBlitSurface st.2 (some st.1) srcRect dst dstRect)
  | SurfaceOp.fillRect rect r g b a => (st.1, platformFillRect st.2 (some st.1) rect r g b a)

/-- Every rectangle handed to `platformSetClipRect` in the sequence lies within
`[0,width] x [0,height]`. -/
def ClipArgsWithin (width height : Int) (ops : List SurfaceOp) : Prop :=
  ∀ r, SurfaceOp.setClipRect (some r) ∈ ops → r.Within width height

/-! ## `platformMapRGB` (identical in the three back ends) -/

/-- The function `platformMapRGB`: `return (r << 16) | (g << 8) | b;`, the
operands promoted from `uint8` to `int`, the result converted to `uint32`.
The surface is not used. -/
def platformMapRGB (_surface : Option PlatformSurface) (r g b : Byte) : Nat :=
  ((r.val <<< 16) ||| (g.val <<< 8) ||| b.val) % 4294967296

/-! ## `platformPollEvent` of `platform_linux.c` -/

namespace Linux

/-- The part of an `XEvent` that `platformPollEvent` reads: the event type, the
result of `XLookupKeysym(&xev.xkey, 0)`, the member `xkey.state`, and whether
`mainWindow && (Atom)xev.xclient.data.l[0] == mainWindow->wmDeleteWindow`. -/
structure XEvent where
  type : Nat
  keysym : Nat
  state : Nat
  isDelete : Bool
deriving DecidableEq, Repr

/-- The event type `KeyPress` of `X11/X.h`. -/
def KeyPress : Nat := 2

/-- The event type `KeyRelease` of `X11/X.h`. -/
def KeyRelease : Nat := 3

/-- The event type `Expose` of `X11/X.h`. -/
def Expose : Nat := 12

/-- The event type `ClientMessage` of `X11/X.h`. -/
def ClientMessage : Nat := 33

/-- The modifier mask `Mod1Mask = 1 << 3` of `X11/X.h`. -/
def Mod1Mask : Nat := 8

/-- The key symbol `XK_space`. -/
def XK_space : Nat := 0x0020

/-- The key symbol `XK_Return`. -/
def XK_Return : Nat := 0xff0d

/-- The key symbol `XK_Escape`. -/
def XK_Escape : Nat := 0xff1b

/-- The key symbol `XK_m`. -/
def XK_m : Nat := 0x006d

/-- The key symbol `XK_M`. -/
def XK_M : Nat := 0x004d

/-- The function `platformPollEvent` of `platform_linux.c`: `display` tells
whether the display is open, `pending` is the X event queue (`XPending`,
`XNextEvent`), `event` the content of the caller's buffer.  The result is the
return value, the buffer and the remaining X events.  `KeyPress` assigns type,
key code and modifiers; `KeyRelease`, `Expose` and the delete message assign
the type only. -/
def platformPollEvent (display : Bool) (pending : List XEvent) (event : PlatformEvent) :
    Int × PlatformEvent × List XEvent :=
  if display = false then (0, event, pending)
  else
    match pending with
    | [] => (0, event, [])
    | xev :: rest =>
      -- event->type = EVENT_NONE;
      let ev0 : PlatformEvent := { event with type := PlatformEventType.EVENT_NONE }
      if xev.type = KeyPress then
        (1, { type := PlatformEventType.EVENT_KEY_DOWN
              keycode :=
                if xev.keysym = XK_space then PlatformKeyCode.KEY_SPACE
                else if xev.keysym = XK_Return then PlatformKeyCode.KEY_RETURN
                else if xev.keysym = XK_Escape then PlatformKeyCode.KEY_ESCAPE
                else if xev.keysym = XK_m ∨ xev.keysym = XK_M then PlatformKeyCode.KEY_M
                else PlatformKeyCode.KEY_UNKNOWN
              modifiers := if xev.state &&& Mod1Mask ≠ 0 then 0 ||| KEYMOD_LALT else 0 }, rest)
      else if xev.type = KeyRelease then
        (1, { ev0 with type := PlatformEventType.EVENT_KEY_UP }, rest)
      else if xev.type = Expose then
        (1, { ev0 with type := PlatformEventType.EVENT_WINDOW_REFRESH }, rest)
      else if xev.type = ClientMessage then
        if xev.isDelete then (1, { ev0 with type := PlatformEventType.EVENT_QUIT }, rest)
        else (0, ev0, rest)
      else (0, ev0, rest)

end Linux

/-- The key codes an event may carry according to the data model. -/
def PlatformKeyCode.InClosedSet (k : PlatformKeyCode) : Prop :=
  k = PlatformKeyCode.KEY_UNKNOWN ∨ k = PlatformKeyCode.KEY_SPACE ∨
    k = PlatformKeyCode.KEY_RETURN ∨ k = PlatformKeyCode.KEY_ESCAPE ∨ k = PlatformKeyCode.KEY_M

instance (k : PlatformKeyCode) : Decidable k.InClosedSet := by
  unfold PlatformKeyCode.InClosedSet; infer_instance

/-- An event buffer that holds a key-down of M with the left-Alt bit, as an
earlier poll left it. -/
def keyDownM : PlatformEvent :=
  { type := PlatformEventType.EVENT_KEY_DOWN, keycode := PlatformKeyCode.KEY_M, modifiers := 1 }

/-! ## Audio output (`platform_windows.c`, `platform_linux.c`)

The statics of each back end form a record.  Calls of the audio and thread
libraries, and the store to the flag shared with the refill thread, are
appended to a log in program order.  A function pointer is an address (`0` is
`NULL`); what a call through it does to memory is given by `run`. -/

/-- One logged step of the audio code. -/
inductive AudioStep where
  | storeRunning (v : Int)
  | callback (fn userdata : Nat) (stream len : Int)
  | waveOutUnprepareHeader (i : Nat)
  | waveOutPrepareHeader (i : Nat)
  | waveOutWrite (i : Nat)
  | waveOutReset
  | waveOutClose
  | setEvent
  | join
  | closeHandle (h : Nat)
  | snd_pcm_writei (buf size : Int)
  | snd_pcm_drain
  | snd_pcm_close
  | usleep (us : Int)
  | free (p : Int)
deriving DecidableEq, Repr

/-- The call `memset(p, v, n)`. -/
def memset (m : Mem) (p : Int) (v : Byte) (n : Int) : Mem :=
  fun a => if p ≤ a ∧ a < p + n then v else m a

/-- Array store `arr[i] = v` on a two-element array given as a map. -/
def setIdx {α : Type} (arr : Nat → α) (i : Nat) (v : α) : Nat → α :=
  fun j => if j = i then v else arr j

/-- Effect on memory of a call `fn(userdata, stream, len)` through a
`PlatformAudioCallback` pointer. -/
abbrev CallbackSemantics := Nat → Nat → Int → Int → Mem → Mem

namespace Windows

/-- The flag `WHDR_DONE` of `mmsystem.h`. -/
def WHDR_DONE : Nat := 1

/-- The flag `WHDR_PREPARED` of `mmsystem.h`. -/
def WHDR_PREPARED : Nat := 2

/-- The members of `WAVEHDR` that the code assigns or tests. -/
structure WAVEHDR where
  lpData : Int
  dwBufferLength : Int
  dwFlags : Nat
deriving DecidableEq, Repr

/-- The audio statics of `platform_windows.c`, the memory and the log. -/
structure AudioState where
  hWaveOut : Nat
  waveHeaders : Nat → WAVEHDR
  audioBuffers : Nat → Int
  audioCallback : Nat
  audioUserData : Nat
  audioBufferSize : Int
  audioEvent : Nat
  audioThread : Nat
  audioThreadRunning : Int
  mem : Mem
  steps : List AudioStep

/-- The refill of buffer `i` in `AudioThreadProc`: the body of
`if (waveHeaders[i].dwFlags & WHDR_DONE)`. -/
def refill (run : CallbackSemantics) (st : AudioState) (i : Nat) : AudioState :=
  let st1 : AudioState :=
    if st.audioCallback ≠ 0 then
      { st with
          mem := run st.audioCallback st.audioUserData (st.audioBuffers i) st.audioBufferSize st.mem
          steps := st.steps ++ [AudioStep.callback st.audioCallback st.audioUserData
            (st.audioBuffers i) st.audioBufferSize] }
    else { st with mem := memset st.mem (st.audioBuffers i) 128 st.audioBufferSize }
  { st1 with
      waveHeaders := setIdx st1.waveHeaders i
        { lpData := st1.audioBuffers i, dwBufferLength := st1.audioBufferSize, dwFlags := 0 }
      steps := st1.steps ++ [AudioStep.waveOutUnprepareHeader i,
        AudioStep.waveOutPrepareHeader i, AudioStep.waveOutWrite i] }

/-- The loop `for (int i = 0; i < 2; i++)` of `AudioThreadProc`: every buffer
flagged done is refilled. -/
def refillDone (run : CallbackSemantics) (st : AudioState) : AudioState :=
  [0, 1].foldl
    (fun s i => if (s.waveHeaders i).dwFlags &&& WHDR_DONE ≠ 0 then refill run s i else s) st

/-- The function `platformOpenAudio` of `platform_windows.c`: `result` is what
`waveOutOpen` returns (0 is `MMSYSERR_NOERROR`) and `device` the handle it
stores on success, `event` and `thread` are the handles `CreateEvent` and
`CreateThread` return, `bufs` the pointers `malloc` returns. -/
def platformOpenAudio (st : AudioState) (spec : PlatformAudioSpec) (result device : Nat)
    (event thread : Nat) (bufs : Nat → Int) : Int × AudioState :=
  if result ≠ 0 then (-1, st)
  else
    let size : Int := (spec.samples : Int) * (spec.channels : Int)
    let st1 : AudioState :=
      { st with hWaveOut := device, audioCallback := spec.callback,
                audioUserData := spec.userdata, audioBufferSize := size, audioEvent := event }
    let st2 : AudioState := [0, 1].foldl
      (fun s i =>
        { s with
            audioBuffers := setIdx s.audioBuffers i (bufs i)
            mem := memset s.mem (bufs i) 128 size
            waveHeaders := setIdx s.waveHeaders i
              { lpData := bufs i, dwBufferLength := size, dwFlags := 0 }
            steps := s.steps ++ [AudioStep.waveOutPrepareHeader i, AudioStep.waveOutWrite i] })
      st1
    (if thread ≠ 0 then 0 else -1,
      { st2 with audioThreadRunning := 1, audioThread := thread
                 steps := st2.steps ++ [AudioStep.storeRunning 1] })

/-- The body of the loop of `platformCloseAudio` for buffer `i`. -/
def closeBuffer (st : AudioState) (i : Nat) : AudioState :=
  let st1 : AudioState :=
    if (st.waveHeaders i).dwFlags &&& WHDR_PREPARED ≠ 0 then
      { st with steps := st.steps ++ [AudioStep.waveOutUnprepareHeader i] }
    else st
  if st1.audioBuffers i ≠ 0 then
    { st1 with audioBuffers := setIdx st1.audioBuffers i 0
               steps := st1.steps ++ [AudioStep.free (st1.audioBuffers i)] }
  else st1

/-- The first block of `platformCloseAudio`: `if (audioThreadRunning) { ... }`,
on the assumption that the wait for the thread returns. -/
def stopThread (st : AudioState) : AudioState :=
  if st.audioThreadRunning ≠ 0 then
    { st with audioThreadRunning := 0, audioThread := 0
              steps := st.steps ++ [AudioStep.storeRunning 0, AudioStep.setEvent,
                AudioStep.join, AudioStep.closeHandle st.audioThread] }
  else st

/-- The second block of `platformCloseAudio`: `if (hWaveOut) { ... }`. -/
def closeDevice (st : AudioState) : AudioState :=
  if st.hWaveOut ≠ 0 then
    let st3 := [0, 1].foldl closeBuffer { st with steps := st.steps ++ [AudioStep.waveOutReset] }
    { st3 with hWaveOut := 0, steps := st3.steps ++ [AudioStep.waveOutClose] }
  else st

/-- The third block of `platformCloseAudio`: `if (audioEvent) { ... }`. -/
def closeEvent (st : AudioState) : AudioState :=
  if st.audioEvent ≠ 0 then
    { st with audioEvent := 0, steps := st.steps ++ [AudioStep.closeHandle st.audioEvent] }
  else st

/-- The function `platformCloseAudio` of `platform_windows.c`: its three
blocks in sequence. -/
def platformCloseAudio (st : AudioState) : AudioState :=
  closeEvent (closeDevice (stopThread st))

end Windows

namespace Linux

/-- The audio statics of `platform_linux.c`, the memory and the log. -/
structure AudioState where
  pcmHandle : Nat
  audioCallback : Nat
  audioUserData : Nat
  audioBuffer : Int
  audioBufferSize : Int
  audioThreadRunning : Int
  mem : Mem
  steps : List AudioStep

/-- One iteration of the loop `while (audioThreadRunning)` of
`audioThreadFunc`, entered with the flag set. -/
def audioThreadIteration (run : CallbackSemantics) (st : AudioState) : AudioState :=
  if st.audioCallback ≠ 0 then
    { st with
        mem := run st.audioCallback st.audioUserData st.audioBuffer st.audioBufferSize st.mem
        steps := st.steps ++ [AudioStep.callback st.audioCallback st.audioUserData
          st.audioBuffer st.audioBufferSize,
          AudioStep.snd_pcm_writei st.audioBuffer st.audioBufferSize] }
  else { st with steps := st.steps ++ [AudioStep.usleep 10000] }

/-- The function `platformOpenAudio` of `platform_linux.c`: `err1` is what
`snd_pcm_open` returns and `handle` the handle it stores on success, `err2` what
`snd_pcm_hw_params` returns, `buf` the pointer `malloc` returns. -/
def platformOpenAudio (st : AudioState) (spec : PlatformAudioSpec) (err1 : Int) (handle : Nat)
    (err2 : Int) (buf : Int) : Int × AudioState :=
  if err1 < 0 then (-1, st)
  else if err2 < 0 then
    (-1, { st with pcmHandle := handle, steps := st.steps ++ [AudioStep.snd_pcm_close] })
  else
    (0, { st with pcmHandle := handle, audioCallback := spec.callback,
                  audioUserData := spec.userdata,
                  audioBufferSize := (spec.samples : Int) * (spec.channels : Int),
                  audioBuffer := buf, audioThreadRunning := 1,
                  steps := st.steps ++ [AudioStep.storeRunning 1] })

/-- The function `platformCloseAudio` of `platform_linux.c`, on the assumption
that `pthread_join` returns. -/
def platformCloseAudio (st : AudioState) : AudioState :=
  let st1 : AudioState :=
    if st.audioThreadRunning ≠ 0 then
      { st with audioThreadRunning := 0
                steps := st.steps ++ [AudioStep.storeRunning 0, AudioStep.join] }
    else st
  let st2 : AudioState :=
    if st1.pcmHandle ≠ 0 then
      { st1 with pcmHandle := 0
                 steps := st1.steps ++ [AudioStep.snd_pcm_drain, AudioStep.snd_pcm_close] }
    else st1
  if st2.audioBuffer ≠ 0 then
    { st2 with audioBuffer := 0, steps := st2.steps ++ [AudioStep.free st2.audioBuffer] }
  else st2

end Linux

/-! ## Interleaving of `platformCloseAudio` with the refill thread

The thread that calls `platformCloseAudio` performs the logged steps of the
function one at a time; between any two of them the refill thread (and, on
Windows, the device) may take steps.  The join step can be taken only once the
refill thread has returned. -/

/-- The variables the two threads and the device share: `audioThreadRunning`,
the state of the auto-reset event `audioEvent`, the `WHDR_DONE` bit of the two
headers, and the buffers released so far. -/
structure Shared where
  running : Int
  event : Bool
  doneFlag : Nat → Bool
  freed : List Int

/-- Who takes the next step. -/
inductive Actor where
  | closer
  | refiller
  | device (i : Nat)
deriving DecidableEq, Repr

/-- The two threads: the steps `platformCloseAudio` still has to perform, the
position of the refill thread, the shared variables, and whether the refill
thread has touched a buffer that was already released. -/
structure AudioSys (Pc : Type) where
  closer : List AudioStep
  pc : Pc
  sh : Shared
  violation : Bool

/-- One step of the thread in `platformCloseAudio`; `finished` tells whether
the refill thread has returned.  `none`: the thread is blocked or done. -/
def closeStep (finished : Bool) (sh : Shared) : List AudioStep → Option (Shared × List AudioStep)
  | [] => none
  | AudioStep.join :: rest => if finished then some (sh, rest) else none
  | AudioStep.storeRunning v :: rest => some ({ sh with running := v }, rest)
  | AudioStep.setEvent :: rest => some ({ sh with event := true }, rest)
  | AudioStep.free p :: rest => some ({ sh with freed := p :: sh.freed }, rest)
  | _ :: rest => some (sh, rest)

/-- No `free` occurs in the log before the first occurrence of step `a` (and
none at all when `a` does not occur). -/
def FreeAfter (a : AudioStep) : List AudioStep → Bool
  | [] => true
  | x :: rest =>
    if x = a then true
    else
      match x with
      | AudioStep.free _ => false
      | _ => FreeAfter a rest

/-- The refill thread touches buffer `touched` in a state where the buffers
`freed` are released. -/
def touchesFreed (touched : Option Int) (freed : List Int) : Bool :=
  match touched with
  | some p => decide (p ∈ freed)
  | none => false

namespace Windows

/-- Positions in `AudioThreadProc`: the loop test, the wait for `audioEvent`,
the second test of the flag, the test of header `i`, the fill of buffer `i`
(callback or `memset`), its resubmission, and the return. -/
inductive ThreadPc where
  | test
  | wait
  | recheck
  | scan (i : Nat)
  | fill (i : Nat)
  | resubmit (i : Nat)
  | done
deriving DecidableEq, Repr

/-- One step of `AudioThreadProc`: the shared variables after it, the next
position, and the buffer the step reads or writes.  `none`: blocked in the
wait, or returned. -/
def threadStep (buffers : Nat → Int) (sh : Shared) :
    ThreadPc → Option (Shared × ThreadPc × Option Int)
  | ThreadPc.test =>
    some (sh, if sh.running ≠ 0 then ThreadPc.wait else ThreadPc.done, none)
  | ThreadPc.wait =>
    if sh.event then some ({ sh with event := false }, ThreadPc.recheck, none) else none
  | ThreadPc.recheck =>
    some (sh, if sh.running = 0 then ThreadPc.done else ThreadPc.scan 0, none)
  | ThreadPc.scan i =>
    if i < 2 then
      some (sh, if sh.doneFlag i then ThreadPc.fill i else ThreadPc.scan (i + 1), none)
    else some (sh, ThreadPc.test, none)
  | ThreadPc.fill i => some (sh, ThreadPc.resubmit i, some (buffers i))
  | ThreadPc.resubmit i =>
    some ({ sh with doneFlag := setIdx sh.doneFlag i false }, ThreadPc.scan (i + 1),
      some (buffers i))
  | ThreadPc.done => none

/-- One step of the system: the chosen actor moves if it can.  The device
finishing buffer `i` sets its `WHDR_DONE` bit and signals the event
(`waveOutProc`). -/
def sysStep (buffers : Nat → Int) (s : AudioSys ThreadPc) : Actor → AudioSys ThreadPc
  | Actor.closer =>
    match closeStep (decide (s.pc = ThreadPc.done)) s.sh s.closer with
    | some r => { s with sh := r.1, closer := r.2 }
    | none => s
  | Actor.refiller =>
    match threadStep buffers s.sh s.pc with
    | some r =>
      { s with sh := r.1, pc := r.2.1,
               violation := s.violation || touchesFreed r.2.2 s.sh.freed }
    | none => s
  | Actor.device i =>
    { s with sh := { s.sh with doneFlag := setIdx s.sh.doneFlag i true, event := true } }

/-- The steps of one call of `platformCloseAudio` in state `st`. -/
def closeLog (st : AudioState) : List AudioStep :=
  (platformCloseAudio { st with steps := [] }).steps

/-- The system at the call of `platformCloseAudio`: the refill thread is at
position `pc0`, the event in state `event0`. -/
def closeSys (st : AudioState) (pc0 : ThreadPc) (event0 : Bool) : AudioSys ThreadPc :=
  { closer := closeLog st, pc := pc0,
    sh := { running := st.audioThreadRunning, event := event0,
            doneFlag := fun i => decide ((st.waveHeaders i).dwFlags &&& WHDR_DONE ≠ 0),
            freed := [] },
    violation := false }

end Windows

namespace Linux

/-- Positions in `audioThreadFunc`: the loop test, the test of the callback,
the call of the callback, `snd_pcm_writei`, `usleep`, and the return. -/
inductive ThreadPc where
  | test
  | testCallback
  | call
  | write
  | sleep
  | done
deriving DecidableEq, Repr

/-- One step of `audioThreadFunc`: the shared variables after it, the next
position, and the buffer the step reads or writes. -/
def threadStep (callback : Nat) (buffer : Int) (sh : Shared) :
    ThreadPc → Option (Shared × ThreadPc × Option Int)
  | ThreadPc.test =>
    some (sh, if sh.running ≠ 0 then ThreadPc.testCallback else ThreadPc.done, none)
  | ThreadPc.testCallback =>
    some (sh, if callback ≠ 0 then ThreadPc.call else ThreadPc.sleep, none)
  | ThreadPc.call => some (sh, ThreadPc.write, some buffer)
  | ThreadPc.write => some (sh, ThreadPc.test, some buffer)
  | ThreadPc.sleep => some (sh, ThreadPc.test, none)
  | ThreadPc.done => none

/-- One step of the system: the chosen actor moves if it can.  The device
shares no variable with the two threads. -/
def sysStep (callback : Nat) (buffer : Int) (s : AudioSys ThreadPc) :
    Actor → AudioSys ThreadPc
  | Actor.closer =>
    match closeStep (decide (s.pc = ThreadPc.done)) s.sh s.closer with
    | some r => { s with sh := r.1, closer := r.2 }
    | none => s
  | Actor.refiller =>
    match threadStep callback buffer s.sh s.pc with
    | some r =>
      { s with sh := r.1, pc := r.2.1,
               violation := s.violation || touchesFreed r.2.2 s.sh.freed }
    | none => s
  | Actor.device _ => s

/-- The steps of one call of `platformCloseAudio` in state `st`. -/
def closeLog (st : AudioState) : List AudioStep :=
  (platformCloseAudio { st with steps := [] }).steps

/-- The system at the call of `platformCloseAudio`: the refill thread is at
position `pc0`. -/
def closeSys (st : AudioState) (pc0 : ThreadPc) : AudioSys ThreadPc :=
  { closer := closeLog st, pc := pc0,
    sh := { running := st.audioThreadRunning, event := false, doneFlag := fun _ => false,
            freed := [] },
    violation := false }

end Linux

/-! ## Hot keys (`events.c`) -/

/-- The calls `eventsProcessEvents` makes into the graphics module, and
`exit`. -/
inductive EventCall where
  | grToggleFullScreen
  | grRefreshDisplay
  | graphicsEnd
  | exit (status : Int)
deriving DecidableEq, Repr

/-- The statics `paused`, `maxSpeed`, `oneFrame` of `events.c`, the global
`evHotKeysEnabled`, the calls made so far, and whether `exit` was called. -/
structure EventsState where
  paused : Int
  maxSpeed : Int
  oneFrame : Int
  evHotKeysEnabled : Int
  calls : List EventCall
  exited : Bool
deriving DecidableEq, Repr

/-- The C operator `!` on an `int`. -/
def lnot (v : Int) : Int := if v = 0 then 1 else 0

/-- The body of the loop of `eventsProcessEvents`: the `switch` on the type of
the polled event. -/
def processEvent (st : EventsState) (event : PlatformEvent) : EventsState :=
  match event.type with
  | PlatformEventType.EVENT_KEY_DOWN =>
    if st.evHotKeysEnabled ≠ 0 then
      match event.keycode with
      | PlatformKeyCode.KEY_SPACE => { st with paused := lnot st.paused }
      | PlatformKeyCode.KEY_M => { st with maxSpeed := lnot st.maxSpeed }
      | PlatformKeyCode.KEY_RETURN =>
        if event.modifiers &&& KEYMOD_LALT ≠ 0 then
          { st with calls := st.calls ++ [EventCall.grToggleFullScreen], oneFrame := 1 }
        else { st with oneFrame := 1 }
      | PlatformKeyCode.KEY_ESCAPE =>
        { st with calls := st.calls ++ [EventCall.graphicsEnd, EventCall.exit 255],
                  exited := true }
      | _ => st
    else
      { st with calls := st.calls ++ [EventCall.graphicsEnd, EventCall.exit 255],
                exited := true }
  | PlatformEventType.EVENT_WINDOW_REFRESH =>
    { st with calls := st.calls ++ [EventCall.grRefreshDisplay] }
  | PlatformEventType.EVENT_QUIT =>
    { st with calls := st.calls ++ [EventCall.graphicsEnd, EventCall.exit 255], exited := true }
  | _ => st

/-- The function `eventsProcessEvents`: `polled` are the events the successive
calls of `platformPollEvent` deliver until one returns 0; processing stops at
`exit`. -/
def eventsProcessEvents (st : EventsState) (polled : List PlatformEvent) : EventsState :=
  polled.foldl (fun s e => if s.exited then s else processEvent s e) st

/-- The initial values of the statics of `events.c`, with the value
`hotkeys` of `evHotKeysEnabled`. -/
def eventsInitial (hotkeys : Int) : EventsState :=
  { paused := 0, maxSpeed := 0, oneFrame := 0, evHotKeysEnabled := hotkeys, calls := [],
    exited := false }

/-- A key event of the given type and key code with modifier mask `mods`. -/
def keyEvent (t : PlatformEventType) (k : PlatformKeyCode) (mods : Nat) : PlatformEvent :=
  { type := t, keycode := k, modifiers := mods }

/-! ## `parseArgs` (`jc_reborn.c`) -/

/-- How far `parseArgs` has come: still running, returned to `main`, or left
the process through `usage()`, `version()`, `scrConfig()` or `exit(1)`. -/
inductive ParseOutcome where
  | running
  | returned
  | usage
  | version
  | scrConfig
  | exit1
deriving DecidableEq, Repr

/-- The statics and globals `parseArgs` assigns, its local `numExpectedArgs`,
and the stores `args[numArgs++] = argv[i]` in order, each with the index it
used.  The array `args` has the 3 elements 0, 1, 2. -/
structure ParseState where
  argDump : Int
  argBench : Int
  argTtm : Int
  argAds : Int
  argPlayAll : Int
  argIsland : Int
  argScrConfig : Int
  argScrPreview : Int
  grWindowed : Int
  soundDisabled : Int
  debugMode : Int
  evHotKeysEnabled : Int
  evMouseQuitEnabled : Int
  numArgs : Int
  numExpectedArgs : Int
  stores : List (Int × String)
  outcome : ParseOutcome
deriving DecidableEq, Repr

/-- The state at the call of `parseArgs` from `main`: all statics 0. -/
def parseInitial : ParseState :=
  { argDump := 0, argBench := 0, argTtm := 0, argAds := 0, argPlayAll := 0, argIsland := 0,
    argScrConfig := 0, argScrPreview := 0, grWindowed := 0, soundDisabled := 0, debugMode := 0,
    evHotKeysEnabled := 0, evMouseQuitEnabled := 0, numArgs := 0, numExpectedArgs := 0,
    stores := [], outcome := ParseOutcome.running }

/-- The body of the loop of `parseArgs` for the argument `arg = argv[i]`;
`win32` tells whether `__WIN32__` is defined.  Nothing happens once the
process has exited. -/
def parseArg (win32 : Bool) (st : ParseState) (arg : String) : ParseState :=
  if st.outcome ≠ ParseOutcome.running then st
  else if st.numExpectedArgs ≠ 0 then
    { st with stores := st.stores ++ [(st.numArgs, arg)], numArgs := st.numArgs + 1,
              numExpectedArgs := st.numExpectedArgs - 1 }
  else if arg = "help" then { st with outcome := ParseOutcome.usage }
  else if arg = "version" then { st with outcome := ParseOutcome.version }
  else if arg = "dump" then { st with argDump := 1 }
  else if arg = "bench" then { st with argBench := 1 }
  else if arg = "ttm" then { st with argTtm := 1, numExpectedArgs := 1 }
  else if arg = "ads" then { st with argAds := 1, numExpectedArgs := 2 }
  else if arg = "window" then { st with grWindowed := 1 }
  else if arg = "nosound" then { st with soundDisabled := 1 }
  else if arg = "island" then { st with argIsland := 1 }
  else if arg = "debug" then { st with debugMode := 1 }
  else if arg = "hotkeys" then { st with evHotKeysEnabled := 1 }
  else if win32 ∧ (arg.take 3).toLower = "/c:" then { st with argScrConfig := 1 }
  else if win32 ∧ (arg.take 2).toLower = "/p" then
    { st with argScrPreview := 1, numExpectedArgs := 1 }
  else if win32 ∧ (arg.take 2).toLower = "/s" then { st with evMouseQuitEnabled := 1 }
  else st

/-- The statements of `parseArgs` after the loop. -/
def parseFinish (win32 : Bool) (st : ParseState) : ParseState :=
  if st.outcome ≠ ParseOutcome.running then st
  else if st.numExpectedArgs ≠ 0 then { st with outcome := ParseOutcome.usage }
  else if st.argDump + st.argBench + st.argTtm + st.argAds > 1 then
    { st with outcome := ParseOutcome.usage }
  else
    let st1 : ParseState :=
      if st.argDump + st.argBench + st.argTtm + st.argAds = 0 then { st with argPlayAll := 1 }
      else st
    if win32 ∧ st1.argScrConfig ≠ 0 then { st1 with outcome := ParseOutcome.scrConfig }
    else if win32 ∧ st1.argScrPreview ≠ 0 then { st1 with outcome := ParseOutcome.exit1 }
    else { st1 with outcome := ParseOutcome.returned }

/-- The function `parseArgs`: the loop `for (int i = 1; i < argc; i++)` over
`argv[1..]`, then the final checks. -/
def parseArgs (win32 : Bool) (argv : List String) : ParseState :=
  parseFinish win32 ((argv.drop 1).foldl (parseArg win32) parseInitial)

/-! ## Configuration file (`config.c`)

Text is a list of character codes.  The file behind `cfgFullPath()` is an
`Option`: `none` when `fopen` for reading fails.  Values of type `int` are
unbounded integers; `printf("%d")` and `atoi` are modelled on them. -/

/-- The members of `struct TConfig` that `config.c` reads and writes. -/
structure TConfig where
  currentDay : Int
  date : Int
deriving DecidableEq, Repr

/-- The characters of a C string or of a text file, as codes. -/
abbrev CText := List Nat

/-- The codes of a string literal of the source. -/
def cstr (s : String) : CText := s.toList.map Char.toNat

/-- The constant `BUFFER_LEN`. -/
def BUFFER_LEN : Nat := 100

/-- The decimal digits of `n`, most significant first; `fuel` bounds their
number. -/
def decimalAux : Nat → Nat → CText
  | 0, _ => []
  | fuel + 1, n => if n < 10 then [48 + n] else decimalAux fuel (n / 10) ++ [48 + n % 10]

/-- The decimal digits of `n`. -/
def decimal (n : Nat) : CText := decimalAux (n + 1) n

/-- What `fprintf(f, "%d", v)` writes. -/
def printInt (v : Int) : CText :=
  if v < 0 then 45 :: decimal v.natAbs else decimal v.natAbs

/-- The text `cfgFileWrite` writes with its two `fprintf` calls. -/
def cfgText (cfg : TConfig) : CText :=
  cstr "currentDay=" ++ printInt cfg.currentDay ++ [10]
    ++ (cstr "date=" ++ printInt cfg.date ++ [10])

/-- The function `cfgFileWrite`: `file` is the configuration file before the
call, `canOpen` tells whether `fopen(.., "w")` succeeds; the result is the
file after the call. -/
def cfgFileWrite (canOpen : Bool) (file : Option CText) (cfg : TConfig) : Option CText :=
  if canOpen then some (cfgText cfg) else file

/-- The digit loop of `atoi`. -/
def atoiDigits (acc : Int) : CText → Int
  | [] => acc
  | c :: rest => if 48 ≤ c ∧ c ≤ 57 then atoiDigits (acc * 10 + ((c : Int) - 48)) rest else acc

/-- The white space `atoi` skips (`isspace`). -/
def skipSpace : CText → CText
  | [] => []
  | c :: rest => if c = 32 ∨ (9 ≤ c ∧ c ≤ 13) then skipSpace rest else c :: rest

/-- The function `atoi`: white space, an optional sign, decimal digits. -/
def atoi (s : CText) : Int :=
  let t := skipSpace s
  if t.head? = some 45 then - atoiDigits 0 t.tail
  else if t.head? = some 43 then atoiDigits 0 t.tail
  else atoiDigits 0 t

/-- An open stream: the characters not yet read and the end-of-file
indicator. -/
structure CFile where
  rest : CText
  eof : Bool
deriving DecidableEq, Repr

/-- The reading loop of `fgets`: at most `k` characters, stopping after a
newline.  The result is the characters read, the rest of the file, and whether
the end of the file was hit. -/
def fgetsAux : Nat → CText → CText → CText × CText × Bool
  | 0, acc, rest => (acc, rest, false)
  | _ + 1, acc, [] => (acc, [], true)
  | k + 1, acc, c :: rest =>
    if c = 10 then (acc ++ [c], rest, false) else fgetsAux k (acc ++ [c]) rest

/-- The call `fgets(buf, n, f)`: the content of `buf` and the stream after the
call.  When the end of the file is hit before any character is read, `buf` is
left as it is. -/
def fgets (buf : CText) (n : Nat) (f : CFile) : CText × CFile :=
  let r := fgetsAux (n - 1) [] f.rest
  if r.1 = [] ∧ r.2.2 = true then (buf, { rest := r.2.1, eof := true })
  else (r.1, { rest := r.2.1, eof := f.eof || r.2.2 })

/-- The two tests of `cfgFileRead` on a line: `strstr(buf, key) == buf` holds
exactly when `buf` starts with `key`. -/
def cfgLine (cfg : TConfig) (buf : CText) : TConfig :=
  let cfg1 : TConfig :=
    if buf.take 11 = cstr "currentDay=" then { cfg with currentDay := atoi (buf.drop 11) }
    else cfg
  if buf.take 5 = cstr "date=" then { cfg1 with date := atoi (buf.drop 5) } else cfg1

/-- The loop `while (!feof(f))` of `cfgFileRead`; `none` when `fuel`
iterations do not reach the end of the file. -/
def readLoop : Nat → TConfig → CText → CFile → Option TConfig
  | 0, _, _, _ => none
  | fuel + 1, cfg, buf, f =>
    if f.eof then some cfg
    else
      let r := fgets buf BUFFER_LEN f
      if r.2.eof then readLoop fuel cfg r.1 r.2
      else readLoop fuel (cfgLine cfg r.1) r.1 r.2

/-- The function `cfgFileRead`: `junk` is the indeterminate initial content of
`buf`.  Every iteration reads a character or hits the end of the file, so
`length + 2` iterations suffice. -/
def cfgFileRead (file : Option CText) (junk : CText) : Option TConfig :=
  match file with
  | none => some { currentDay := 0, date := 0 }
  | some text =>
    readLoop (text.length + 2) { currentDay := 0, date := 0 } junk { rest := text, eof := false }

/-! ## Predicates used in the statements -/

/-- Address `b` belongs to some pixel inside the raw bounds of the surface. -/
def PlatformSurface.Covers (d : PlatformSurface) (b : Int) : Prop :=
  ∃ px py, d.InBounds px py ∧ d.PixelByte px py b

/-- Memory `m1` differs from `m` at most on the in-bounds pixels of `d`. -/
def FrameOutside (d : PlatformSurface) (m m1 : Mem) : Prop :=
  ∀ b, ¬ d.Covers b → m1 b = m b

/-- Pixel `(dx, dy)` of `d` holds in `m1` the bytes it held in `m`. -/
def PixelKept (d : PlatformSurface) (dx dy : Int) (m m1 : Mem) : Prop :=
  ∀ a, d.PixelByte dx dy a → m1 a = m a

/-- Pixel `(dx, dy)` of `d` holds in `m1` the 4 bytes pixel `(sx, sy)` of `s`
held in `m`. -/
def PixelCopied (s d : PlatformSurface) (sx sy dx dy : Int) (m m1 : Mem) : Prop :=
  ∀ k, 0 ≤ k → k < 4 → m1 (d.pixelAddr dx dy + k) = m (s.pixelAddr sx sy + k)

/-- The source pixel at `(sx, sy)` matches the color key of `s` in memory `m`:
the test `srcPixel[0] == colorKeyB && srcPixel[1] == colorKeyG &&
srcPixel[2] == colorKeyR` under `hasColorKey`. -/
def Keyed (s : PlatformSurface) (sx sy : Int) (m : Mem) : Prop :=
  s.hasColorKey ≠ 0 ∧ m (s.pixelAddr sx sy) = s.colorKeyB ∧
    m (s.pixelAddr sx sy + 1) = s.colorKeyG ∧ m (s.pixelAddr sx sy + 2) = s.colorKeyR

instance (s : PlatformSurface) (sx sy : Int) (m : Mem) : Decidable (Keyed s sx sy m) := by
  unfold Keyed; infer_instance

/-- The `x` of an optional rectangle, `rect ? rect->x : 0`. -/
def rectX (r : Option PlatformRect) : Int :=
  match r with | some q => q.x | none => 0

/-- The `y` of an optional rectangle, `rect ? rect->y : 0`. -/
def rectY (r : Option PlatformRect) : Int :=
  match r with | some q => q.y | none => 0

/-- Pixel `(px, py)` of `s` holds the memory bytes (b, g, r, a) in `m`. -/
def Filled (s : PlatformSurface) (px py : Int) (r g b a : Byte) (m : Mem) : Prop :=
  m (s.pixelAddr px py) = b ∧ m (s.pixelAddr px py + 1) = g ∧
    m (s.pixelAddr px py + 2) = r ∧ m (s.pixelAddr px py + 3) = a

instance (s : PlatformSurface) (px py : Int) (r g b a : Byte) (m : Mem) :
    Decidable (Filled s px py r g b a m) := by
  unfold Filled; infer_instance

/-- The area `platformFillRect` is asked to fill: the rectangle, or the whole
plane when the rectangle is null (the raw bounds are intersected separately). -/
def InFillRect (rect : Option PlatformRect) (px py : Int) : Prop :=
  match rect with
  | some q => q.Contains px py
  | none => True

instance (rect : Option PlatformRect) (px py : Int) : Decidable (InFillRect rect px py) := by
  unfold InFillRect; cases rect <;> infer_instance

/-! ## Concrete surfaces and memories used to instantiate the theorems -/

/-- A 2x2 source surface at address 2000 with color key (r, g, b) = (3, 2, 1). -/
def demoSrc : PlatformSurface :=
  { width := 2, height := 2, pitch := 8, bytesPerPixel := 4, pixels := 2000,
    hasColorKey := 1, colorKeyR := 3, colorKeyG := 2, colorKeyB := 1,
    clipRect := ⟨0, 0, 2, 2⟩, ownPixels := 1 }

/-- A 2x2 destination surface at address 1000 whose clip rectangle is the left
column. -/
def demoDst : PlatformSurface :=
  { width := 2, height := 2, pitch := 8, bytesPerPixel := 4, pixels := 1000,
    hasColorKey := 0, colorKeyR := 0, colorKeyG := 0, colorKeyB := 0,
    clipRect := ⟨0, 0, 1, 2⟩, ownPixels := 1 }

/-- Memory in which pixel (0,0) of `demoSrc` is the key color (bytes 1,2,3 and
alpha 9), its other pixels are 7,7,7,7 and everything else is 0. -/
def demoMem : Mem := fun a =>
  if a = 2000 then 1 else if a = 2001 then 2 else if a = 2002 then 3
  else if a = 2003 then 9 else if 2004 ≤ a ∧ a < 2016 then 7 else 0

/-- A 2x2 surface at address 1000 with 8-byte rows. -/
def fillSurf : PlatformSurface :=
  { width := 2, height := 2, pitch := 8, bytesPerPixel := 4, pixels := 1000,
    hasColorKey := 0, colorKeyR := 0, colorKeyG := 0, colorKeyB := 0,
    clipRect := ⟨0, 0, 1, 1⟩, ownPixels := 1 }

/-- A 1x3 surface at address 1000 whose rows are 5 bytes apart, as
`platformCreateSurfaceFrom(buf, 1, 3, 5)` makes it over a 15-byte buffer. -/
def oddPitchSurf : PlatformSurface :=
  { width := 1, height := 3, pitch := 5, bytesPerPixel := 4, pixels := 1000,
    hasColorKey := 0, colorKeyR := 0, colorKeyG := 0, colorKeyB := 0,
    clipRect := ⟨0, 0, 1, 3⟩, ownPixels := 0 }

/-- Memory that is 0 everywhere. -/
def zeroMem : Mem := fun _ => 0

/-- A queue with no pending event whose slots all hold an `EVENT_NONE`. -/
def emptyQueue : EventQueue :=
  { pendingEvents := fun _ =>
      { type := PlatformEventType.EVENT_NONE, keycode := PlatformKeyCode.KEY_UNKNOWN,
        modifiers := 0 },
    pendingEventCount := 0 }

/-- An event buffer of the caller, holding `EVENT_NONE`. -/
def noEvent : PlatformEvent :=
  { type := PlatformEventType.EVENT_NONE, keycode := PlatformKeyCode.KEY_UNKNOWN, modifiers := 0 }

/-- The web producer run on a sequence of keyboard events. -/
def Web.produce (q : EventQueue) (inputs : List (Int × Web.EmscriptenKeyboardEvent)) :
    EventQueue :=
  inputs.foldl (fun q i => (Web.keyCallback q i.1 i.2).1) q

/-- The Windows producer run on a sequence of messages. -/
def Windows.produce (q : EventQueue) (msgs : List Windows.Msg) : EventQueue :=
  msgs.foldl Windows.WindowProc q

/-- A queue holding 32 events. -/
def fullQueue : EventQueue :=
  { pendingEvents := emptyQueue.pendingEvents, pendingEventCount := 32 }

/-- A canonical header: 8000 Hz at offset 24, format tag 1 at offset 34 and
data length `len` (below 256) at offset 40; the other bytes are 0. -/
def demoHeader (len : Byte) : List Byte :=
  List.replicate 24 0 ++ [0x40, 0x1F, 0, 0] ++ List.replicate 6 0 ++ [1, 0]
    ++ List.replicate 4 0 ++ [len, 0, 0, 0]

/-- A file system with the single file `name`. -/
def oneFile (name : String) (data : List Byte) : String → Option (List Byte) :=
  fun n => if n = name then some data else none

/-- A caller state: one live block, and values in all three outputs. -/
def demoState : WavState :=
  { heap := { blocks := [(5, [1, 2, 3])] }, lastError := "",
    spec := { freq := 22050, format := 8, channels := 1, samples := 512,
              callback := 77, userdata := 99 },
    audio_buf := 5, audio_len := 100 }

/-- A callback that stores 7 in every byte of the stream. -/
def fillSeven : CallbackSemantics := fun _ _ stream len m => memset m stream 7 len

/-- Windows audio statics after an open without callback: two 4-byte buffers
at 1000 and 2000, buffer 0 flagged done, the thread running. -/
def winAudio : Windows.AudioState :=
  { hWaveOut := 5, waveHeaders := fun i => ⟨if i = 0 then 1000 else 2000, 4, if i = 0 then 3 else 2⟩,
    audioBuffers := fun i => if i = 0 then 1000 else 2000,
    audioCallback := 0, audioUserData := 0, audioBufferSize := 4, audioEvent := 6,
    audioThread := 7, audioThreadRunning := 1, mem := zeroMem, steps := [] }

/-- Linux audio statics after an open without callback: one 4-byte buffer at
1000, the thread running. -/
def linuxAudio : Linux.AudioState :=
  { pcmHandle := 5, audioCallback := 0, audioUserData := 0, audioBuffer := 1000,
    audioBufferSize := 4, audioThreadRunning := 1, mem := zeroMem, steps := [] }

/-- A schedule in which `platformCloseAudio` starts while the refill thread is
in the callback: the closing thread clears the flag and tries to join, the
refill thread finishes its iteration and returns, then the closing thread
joins, drains, closes and releases the buffer. -/
def closeRace : List Actor :=
  [Actor.closer, Actor.closer, Actor.refiller, Actor.closer, Actor.refiller, Actor.refiller,
   Actor.closer, Actor.closer, Actor.closer, Actor.closer]

/-- A schedule in which the Windows `platformCloseAudio` starts while the
refill thread is in the fill of buffer 0: the closing thread clears the flag,
signals the event and waits; the refill thread resubmits buffer 0, the device
finishes buffer 1, the refill thread refills it, reads the cleared flag and
returns; then the closing thread performs its remaining nine steps. -/
def closeRaceWindows : List Actor :=
  [Actor.closer, Actor.closer, Actor.closer, Actor.refiller, Actor.refiller, Actor.device 1,
   Actor.refiller, Actor.refiller, Actor.refiller, Actor.refiller, Actor.refiller,
   Actor.closer, Actor.closer, Actor.closer, Actor.closer, Actor.closer, Actor.closer,
   Actor.closer, Actor.closer, Actor.closer]

/-! ## The clamp of the blit in the words of the specification -/

/-- The clamp of one axis as the specification words it: when the destination
origin `dstO` falls before the clip origin `clipO`, the source origin is
advanced and the length shrunk by the same amount (and the destination origin
becomes the clip origin); when the destination end then exceeds the clip end,
only the length is shrunk, to end at the clip end.  The result is source
origin, length, destination origin. -/
def clampAxis (srcO len dstO clipO clipLen : Int) : Int × Int × Int :=
  let shift : Int := if dstO < clipO then clipO - dstO else 0
  let len1 := len - shift
  let len2 := if (dstO + shift) + len1 > clipO + clipLen
    then clipO + clipLen - (dstO + shift) else len1
  (srcO + shift, len2, dstO + shift)

/-- The symmetric adjustment of the specification on both axes, with the
default rectangles of the blit. -/
def symmetricClamp (src : PlatformSurface) (srcRect : Option PlatformRect)
    (dst : PlatformSurface) (dstRect : Option PlatformRect) : BlitRegion :=
  let w0 : Int := match srcRect with | some r => r.w | none => src.width
  let h0 : Int := match srcRect with | some r => r.h | none => src.height
  let X := clampAxis (rectX srcRect) w0 (rectX dstRect) dst.clipRect.x dst.clipRect.w
  let Y := clampAxis (rectY srcRect) h0 (rectY dstRect) dst.clipRect.y dst.clipRect.h
  { srcX := X.1, srcY := Y.1, srcW := X.2.1, srcH := Y.2.1, dstX := X.2.2, dstY := Y.2.2 }

/-- A 44-byte header with the byte `b` four times at offsets 24..27 (the
sample rate field) and all other bytes 0, the data length included. -/
def freqHeader (b : Byte) : List Byte :=
  List.replicate 24 0 ++ [b, b, b, b] ++ List.replicate 16 0

/-- A 44-byte header with the bytes `lo`, `hi` at offsets 22 and 23 (the
channel field) and all other bytes 0, the data length included. -/
def channelsHeader (lo hi : Byte) : List Byte :=
  List.replicate 22 0 ++ [lo, hi] ++ List.replicate 20 0

/-! ## Basic lemmas on loops and memory -/

theorem mem_loopRange (lo hi i : Int) : i ∈ loopRange lo hi ↔ lo ≤ i ∧ i < hi := by
  unfold loopRange
  simp only [List.mem_map, List.mem_range]
  constructor
  · rintro ⟨k, hk, rfl⟩
    omega
  · rintro ⟨h1, h2⟩
    refine ⟨(i - lo).toNat, ?_, ?_⟩ <;> omega

/-- A fold of memory transformers leaves address `a` alone when every step
does. -/
theorem foldl_frame {α : Type} (f : Mem → α → Mem) (a : Int) (l : List α) :
    (∀ i ∈ l, ∀ m, f m i a = m a) → ∀ m, l.foldl f m a = m a := by
  induction l with
  | nil => intro _ m; rfl
  | cons i l ih =>
    intro h m
    rw [List.foldl_cons, ih (fun j hj => h j (List.mem_cons_of_mem _ hj)),
      h i (List.mem_cons_self _ _)]

/-! ## Frame lemmas of the blit -/

/-- One step of the blit changes a byte only inside the destination pixel it
addresses, and that pixel is inside the raw bounds of the destination. -/
theorem blitPixel_changed (src dst : PlatformSurface) (R : BlitRegion) (y x : Int)
    (m : Mem) (a : Int) (h : blitPixel src dst R y x m a ≠ m a) :
    dst.InBounds (R.dstX + x) (R.dstY + y) ∧ dst.PixelByte (R.dstX + x) (R.dstY + y) a := by
  unfold blitPixel at h
  simp only at h
  split_ifs at h with h1 h2 h3
  · exact absurd rfl h
  · exact absurd rfl h
  · exact absurd rfl h
  · have hb : dst.InBounds (R.dstX + x) (R.dstY + y) := by
      unfold PlatformSurface.InBounds; omega
    refine ⟨hb, ?_⟩
    unfold PlatformSurface.PixelByte PlatformSurface.pixelAddr
    by_contra hc
    apply h
    unfold memcpy
    rw [if_neg hc]

/-- After the clamp every offset of the copy region lands inside the clip
rectangle of the destination. -/
theorem blitClamp_inClip (src : PlatformSurface) (srcRect : Option PlatformRect)
    (dst : PlatformSurface) (dstRect : Option PlatformRect) (x y : Int)
    (hx0 : 0 ≤ x) (hx : x < (blitClamp src srcRect dst dstRect).srcW)
    (hy0 : 0 ≤ y) (hy : y < (blitClamp src srcRect dst dstRect).srcH) :
    dst.InClip ((blitClamp src srcRect dst dstRect).dstX + x)
      ((blitClamp src srcRect dst dstRect).dstY + y) := by
  unfold blitClamp at hx hy ⊢
  unfold PlatformSurface.InClip
  simp only at hx hy ⊢
  refine ⟨?_, ?_, ?_, ?_⟩
  · split_ifs <;> omega
  · split_ifs at hx ⊢ <;> omega
  · split_ifs <;> omega
  · split_ifs at hy ⊢ <;> omega

/-- The set of bytes the two loops of the blit may change, for any region. -/
theorem blitLoop_changed (src dst : PlatformSurface) (R : BlitRegion) (m : Mem) (a : Int)
    (h : blitLoop src dst R m a ≠ m a) :
    ∃ x y, 0 ≤ x ∧ x < R.srcW ∧ 0 ≤ y ∧ y < R.srcH ∧
      dst.InBounds (R.dstX + x) (R.dstY + y) ∧ dst.PixelByte (R.dstX + x) (R.dstY + y) a := by
  by_contra hc
  apply h
  unfold blitLoop
  apply foldl_frame
  intro y hy m1
  unfold blitRow
  apply foldl_frame
  intro x hx m2
  by_contra hne
  rw [mem_loopRange] at hx hy
  exact hc ⟨x, y, hx.1, hx.2, hy.1, hy.2, blitPixel_changed src dst R y x m2 a hne⟩

/-- Every byte changed by `platformBlitSurface` belongs to a destination pixel
inside the raw bounds and inside the clip rectangle. -/
theorem platformBlitSurface_changed (m : Mem) (src : Option PlatformSurface)
    (srcRect : Option PlatformRect) (dst : Option PlatformSurface)
    (dstRect : Option PlatformRect) (a : Int)
    (h : platformBlitSurface m src srcRect dst dstRect a ≠ m a) :
    ∃ d, dst = some d ∧ ∃ dx dy, d.InBounds dx dy ∧ d.InClip dx dy ∧ d.PixelByte dx dy a := by
  unfold platformBlitSurface at h
  split at h
  · rename_i s d
    simp only at h
    split_ifs at h with h1 h2
    · exact absurd rfl h
    · exact absurd rfl h
    · obtain ⟨x, y, hx0, hx, hy0, hy, hb, hp⟩ := blitLoop_changed s d _ m a h
      exact ⟨d, rfl, _, _, hb, blitClamp_inClip s srcRect d dstRect x y hx0 hx hy0 hy, hp⟩
  · exact absurd rfl h

/-- Two pixels with columns in `[0, width)` that share a byte coincide, on any
rows. -/
theorem pixel_disjoint_cols (s : PlatformSurface) (hw : s.WellFormed) (x1 y1 x2 y2 a : Int)
    (h1 : 0 ≤ x1 ∧ x1 < s.width) (h2 : 0 ≤ x2 ∧ x2 < s.width)
    (p1 : s.PixelByte x1 y1 a) (p2 : s.PixelByte x2 y2 a) : x1 = x2 ∧ y1 = y2 := by
  obtain ⟨hbpp, hw0, hh0, hp⟩ := hw
  unfold PlatformSurface.PixelByte PlatformSurface.pixelAddr at p1 p2
  rw [hbpp] at p1 p2
  have hy : y1 = y2 := by
    rcases lt_trichotomy y1 y2 with hlt | heq | hgt
    · exfalso
      have : (y2 - y1 - 1) * s.pitch ≥ 0 := mul_nonneg (by omega) (by omega)
      nlinarith
    · exact heq
    · exfalso
      have : (y1 - y2 - 1) * s.pitch ≥ 0 := mul_nonneg (by omega) (by omega)
      nlinarith
  subst hy
  exact ⟨by omega, rfl⟩

/-- In a well-formed surface two pixels inside the raw bounds that share a byte
are the same pixel. -/
theorem pixel_disjoint (s : PlatformSurface) (hw : s.WellFormed) (x1 y1 x2 y2 a : Int)
    (h1 : s.InBounds x1 y1) (h2 : s.InBounds x2 y2)
    (p1 : s.PixelByte x1 y1 a) (p2 : s.PixelByte x2 y2 a) : x1 = x2 ∧ y1 = y2 :=
  pixel_disjoint_cols s hw x1 y1 x2 y2 a ⟨h1.1, h1.2.1⟩ ⟨h2.1, h2.2.1⟩ p1 p2

/-- A fold preserves an invariant that every step preserves. -/
theorem foldl_invariant {σ α : Type} (f : σ → α → σ) (P : σ → Prop) (l : List α) :
    (∀ i ∈ l, ∀ m, P m → P (f m i)) → ∀ m, P m → P (l.foldl f m) := by
  induction l with
  | nil => intro _ m hm; exact hm
  | cons i l ih =>
    intro h m hm
    rw [List.foldl_cons]
    exact ih (fun j hj => h j (List.mem_cons_of_mem _ hj)) _ (h i (List.mem_cons_self _ _) m hm)

/-- A fold establishes `Q` when one of its steps does and all steps keep it,
under an invariant `P`. -/
theorem foldl_establish {α : Type} (f : Mem → α → Mem) (P Q : Mem → Prop) (i0 : α)
    (l : List α) (hP : ∀ i ∈ l, ∀ m, P m → P (f m i))
    (hQ0 : ∀ m, P m → Q (f m i0))
    (hQ : ∀ i ∈ l, ∀ m, P m → Q m → Q (f m i)) :
    ∀ m, P m → (Q m ∨ i0 ∈ l) → Q (l.foldl f m) := by
  induction l with
  | nil =>
    intro m _ h
    rcases h with h | h
    · exact h
    · exact absurd h (List.not_mem_nil _)
  | cons j l ih =>
    intro m hm h
    rw [List.foldl_cons]
    apply ih (fun i hi => hP i (List.mem_cons_of_mem _ hi))
      (fun i hi => hQ i (List.mem_cons_of_mem _ hi)) _ (hP j (List.mem_cons_self _ _) m hm)
    rcases h with h | h
    · exact Or.inl (hQ j (List.mem_cons_self _ _) m hm h)
    · rcases List.mem_cons.mp h with h | h
      · subst h
        exact Or.inl (hQ0 m hm)
      · exact Or.inr h

/-- The bytes of an in-bounds pixel of a well-formed surface lie inside the
buffer `[pixels, pixels + pitch * height)`. -/
theorem pixel_in_extent (s : PlatformSurface) (hw : s.WellFormed) (x y a : Int)
    (hb : s.InBounds x y) (hp : s.PixelByte x y a) :
    s.pixels ≤ a ∧ a < s.pixels + s.pitch * s.height := by
  obtain ⟨hbpp, hw0, hh0, hpitch⟩ := hw
  unfold PlatformSurface.InBounds at hb
  unfold PlatformSurface.PixelByte PlatformSurface.pixelAddr at hp
  rw [hbpp] at hp
  have h1 : 0 ≤ y * s.pitch := mul_nonneg (by omega) (by omega)
  have h2 : 0 ≤ (s.height - 1 - y) * s.pitch := mul_nonneg (by omega) (by omega)
  constructor
  · omega
  · nlinarith

/-- Distinct surfaces share no pixel byte. -/
theorem distinct_not_covers (s d : PlatformSurface) (hs : s.WellFormed) (hd : d.WellFormed)
    (hdist : Distinct s d) (x y b : Int) (hb : s.InBounds x y) (hp : s.PixelByte x y b) :
    ¬ d.Covers b := by
  rintro ⟨px, py, hb2, hp2⟩
  have e1 := pixel_in_extent s hs x y b hb hp
  have e2 := pixel_in_extent d hd px py b hb2 hp2
  unfold Distinct at hdist
  omega

theorem blitPixel_frame (src dst : PlatformSurface) (R : BlitRegion) (m : Mem) (y x : Int)
    (m1 : Mem) (h : FrameOutside dst m m1) : FrameOutside dst m (blitPixel src dst R y x m1) := by
  intro b hb
  rw [← h b hb]
  by_contra hc
  exact hb ⟨_, _, blitPixel_changed src dst R y x m1 b hc⟩

theorem blitRow_frame (src dst : PlatformSurface) (R : BlitRegion) (m : Mem) (y : Int)
    (m1 : Mem) (h : FrameOutside dst m m1) : FrameOutside dst m (blitRow src dst R m1 y) := by
  unfold blitRow
  exact foldl_invariant _ (FrameOutside dst m) _
    (fun x _ m2 h2 => blitPixel_frame src dst R m y x m2 h2) m1 h

/-- While only pixels of `d` have changed, the pixels of a distinct surface
`s` read as before. -/
theorem src_stable (s d : PlatformSurface) (hs : s.WellFormed) (hd : d.WellFormed)
    (hdist : Distinct s d) (m m1 : Mem) (hf : FrameOutside d m m1) (sx sy : Int)
    (hb : s.InBounds sx sy) (k : Int) (hk0 : 0 ≤ k) (hk : k < 4) :
    m1 (s.pixelAddr sx sy + k) = m (s.pixelAddr sx sy + k) := by
  apply hf
  apply distinct_not_covers s d hs hd hdist sx sy _ hb
  unfold PlatformSurface.PixelByte
  omega

theorem keyed_stable (s d : PlatformSurface) (hs : s.WellFormed) (hd : d.WellFormed)
    (hdist : Distinct s d) (m m1 : Mem) (hf : FrameOutside d m m1) (sx sy : Int)
    (hb : s.InBounds sx sy) : Keyed s sx sy m1 ↔ Keyed s sx sy m := by
  have e0 := src_stable s d hs hd hdist m m1 hf sx sy hb 0 (by omega) (by omega)
  have e1 := src_stable s d hs hd hdist m m1 hf sx sy hb 1 (by omega) (by omega)
  have e2 := src_stable s d hs hd hdist m m1 hf sx sy hb 2 (by omega) (by omega)
  rw [add_zero] at e0
  unfold Keyed
  rw [e0, e1, e2]

/-- A step whose source pixel matches the key returns the memory as it is. -/
theorem blitPixel_keyed (s d : PlatformSurface) (R : BlitRegion) (y x : Int) (m1 : Mem)
    (hk : Keyed s (R.srcX + x) (R.srcY + y) m1) : blitPixel s d R y x m1 = m1 := by
  unfold Keyed PlatformSurface.pixelAddr at hk
  unfold blitPixel
  simp only
  split_ifs <;> rfl

/-- A step whose source and destination pixels are in bounds and whose source
pixel does not match the key is the 4-byte copy. -/
theorem blitPixel_copy (s d : PlatformSurface) (R : BlitRegion) (y x : Int) (m1 : Mem)
    (hsb : s.InBounds (R.srcX + x) (R.srcY + y)) (hdb : d.InBounds (R.dstX + x) (R.dstY + y))
    (hk : ¬ Keyed s (R.srcX + x) (R.srcY + y) m1) :
    blitPixel s d R y x m1 =
      memcpy m1 (d.pixelAddr (R.dstX + x) (R.dstY + y)) (s.pixelAddr (R.srcX + x) (R.srcY + y)) 4 := by
  unfold Keyed PlatformSurface.pixelAddr at hk
  unfold PlatformSurface.InBounds at hsb hdb
  unfold blitPixel PlatformSurface.pixelAddr
  simp only
  split_ifs with h1 h2
  · omega
  · omega
  · rfl

theorem blitPixel_keeps_keyed (s d : PlatformSurface) (R : BlitRegion) (m : Mem)
    (hs : s.WellFormed) (hd : d.WellFormed) (hdist : Distinct s d) (x y : Int)
    (hsb : s.InBounds (R.srcX + x) (R.srcY + y)) (hdb : d.InBounds (R.dstX + x) (R.dstY + y))
    (hk : Keyed s (R.srcX + x) (R.srcY + y) m) (y1 x1 : Int) (m1 : Mem)
    (hf : FrameOutside d m m1) (hq : PixelKept d (R.dstX + x) (R.dstY + y) m m1) :
    PixelKept d (R.dstX + x) (R.dstY + y) m (blitPixel s d R y1 x1 m1) := by
  intro a ha
  by_cases hc : blitPixel s d R y1 x1 m1 a = m1 a
  · rw [hc]; exact hq a ha
  · exfalso
    obtain ⟨hb1, hp1⟩ := blitPixel_changed s d R y1 x1 m1 a hc
    obtain ⟨ex, ey⟩ := pixel_disjoint d hd _ _ _ _ a hb1 hdb hp1 ha
    have hx : x1 = x := by omega
    have hy : y1 = y := by omega
    subst hx hy
    apply hc
    rw [blitPixel_keyed s d R y1 x1 m1
      ((keyed_stable s d hs hd hdist m m1 hf _ _ hsb).mpr hk)]

theorem blitPixel_keeps_copied (s d : PlatformSurface) (R : BlitRegion) (m : Mem)
    (hs : s.WellFormed) (hd : d.WellFormed) (hdist : Distinct s d) (x y : Int)
    (hsb : s.InBounds (R.srcX + x) (R.srcY + y)) (hdb : d.InBounds (R.dstX + x) (R.dstY + y))
    (y1 x1 : Int) (m1 : Mem) (hf : FrameOutside d m m1)
    (hq : PixelCopied s d (R.srcX + x) (R.srcY + y) (R.dstX + x) (R.dstY + y) m m1) :
    PixelCopied s d (R.srcX + x) (R.srcY + y) (R.dstX + x) (R.dstY + y) m
      (blitPixel s d R y1 x1 m1) := by
  intro k hk0 hk
  by_cases hc : blitPixel s d R y1 x1 m1 (d.pixelAddr (R.dstX + x) (R.dstY + y) + k)
      = m1 (d.pixelAddr (R.dstX + x) (R.dstY + y) + k)
  · rw [hc]; exact hq k hk0 hk
  · obtain ⟨hb1, hp1⟩ := blitPixel_changed s d R y1 x1 m1 _ hc
    have ha : d.PixelByte (R.dstX + x) (R.dstY + y) (d.pixelAddr (R.dstX + x) (R.dstY + y) + k) := by
      unfold PlatformSurface.PixelByte; omega
    obtain ⟨ex, ey⟩ := pixel_disjoint d hd _ _ _ _ _ hb1 hdb hp1 ha
    have hx : x1 = x := by omega
    have hy : y1 = y := by omega
    subst hx hy
    by_cases hkey : Keyed s (R.srcX + x1) (R.srcY + y1) m1
    · rw [blitPixel_keyed s d R y1 x1 m1 hkey]; exact hq k hk0 hk
    · rw [blitPixel_copy s d R y1 x1 m1 hsb hdb hkey]
      unfold memcpy
      rw [if_pos (by omega)]
      rw [show s.pixelAddr (R.srcX + x1) (R.srcY + y1)
          + (d.pixelAddr (R.dstX + x1) (R.dstY + y1) + k - d.pixelAddr (R.dstX + x1) (R.dstY + y1))
          = s.pixelAddr (R.srcX + x1) (R.srcY + y1) + k by ring]
      exact src_stable s d hs hd hdist m m1 hf _ _ hsb k hk0 hk

theorem blitPixel_copies (s d : PlatformSurface) (R : BlitRegion) (m : Mem)
    (hs : s.WellFormed) (hd : d.WellFormed) (hdist : Distinct s d) (x y : Int)
    (hsb : s.InBounds (R.srcX + x) (R.srcY + y)) (hdb : d.InBounds (R.dstX + x) (R.dstY + y))
    (hk : ¬ Keyed s (R.srcX + x) (R.srcY + y) m) (m1 : Mem) (hf : FrameOutside d m m1) :
    PixelCopied s d (R.srcX + x) (R.srcY + y) (R.dstX + x) (R.dstY + y) m
      (blitPixel s d R y x m1) := by
  intro k hk0 hk4
  have hkey : ¬ Keyed s (R.srcX + x) (R.srcY + y) m1 :=
    fun h => hk ((keyed_stable s d hs hd hdist m m1 hf _ _ hsb).mp h)
  rw [blitPixel_copy s d R y x m1 hsb hdb hkey]
  unfold memcpy
  rw [if_pos (by omega)]
  rw [show s.pixelAddr (R.srcX + x) (R.srcY + y)
      + (d.pixelAddr (R.dstX + x) (R.dstY + y) + k - d.pixelAddr (R.dstX + x) (R.dstY + y))
      = s.pixelAddr (R.srcX + x) (R.srcY + y) + k by ring]
  exact src_stable s d hs hd hdist m m1 hf _ _ hsb k hk0 hk4

theorem blitLoop_frame (s d : PlatformSurface) (R : BlitRegion) (m : Mem) :
    FrameOutside d m (blitLoop s d R m) := by
  unfold blitLoop
  exact foldl_invariant _ (FrameOutside d m) _
    (fun y _ m1 h1 => blitRow_frame s d R m y m1 h1) m (fun _ _ => rfl)

theorem blitLoop_keeps_keyed (s d : PlatformSurface) (R : BlitRegion) (m : Mem)
    (hs : s.WellFormed) (hd : d.WellFormed) (hdist : Distinct s d) (x y : Int)
    (hsb : s.InBounds (R.srcX + x) (R.srcY + y)) (hdb : d.InBounds (R.dstX + x) (R.dstY + y))
    (hk : Keyed s (R.srcX + x) (R.srcY + y) m) :
    PixelKept d (R.dstX + x) (R.dstY + y) m (blitLoop s d R m) := by
  have key : FrameOutside d m (blitLoop s d R m) ∧
      PixelKept d (R.dstX + x) (R.dstY + y) m (blitLoop s d R m) := by
    unfold blitLoop
    apply foldl_invariant _
      (fun m1 => FrameOutside d m m1 ∧ PixelKept d (R.dstX + x) (R.dstY + y) m m1)
    · intro y1 _ m1 h1
      unfold blitRow
      apply foldl_invariant _
        (fun m1 => FrameOutside d m m1 ∧ PixelKept d (R.dstX + x) (R.dstY + y) m m1)
      · intro x1 _ m2 h2
        exact ⟨blitPixel_frame s d R m y1 x1 m2 h2.1,
          blitPixel_keeps_keyed s d R m hs hd hdist x y hsb hdb hk y1 x1 m2 h2.1 h2.2⟩
      · exact h1
    · exact ⟨fun _ _ => rfl, fun _ _ => rfl⟩
  exact key.2

theorem blitRow_keeps_copied (s d : PlatformSurface) (R : BlitRegion) (m : Mem)
    (hs : s.WellFormed) (hd : d.WellFormed) (hdist : Distinct s d) (x y : Int)
    (hsb : s.InBounds (R.srcX + x) (R.srcY + y)) (hdb : d.InBounds (R.dstX + x) (R.dstY + y))
    (y1 : Int) (m1 : Mem) (hf : FrameOutside d m m1)
    (hq : PixelCopied s d (R.srcX + x) (R.srcY + y) (R.dstX + x) (R.dstY + y) m m1) :
    PixelCopied s d (R.srcX + x) (R.srcY + y) (R.dstX + x) (R.dstY + y) m
      (blitRow s d R m1 y1) := by
  have key : FrameOutside d m (blitRow s d R m1 y1) ∧
      PixelCopied s d (R.srcX + x) (R.srcY + y) (R.dstX + x) (R.dstY + y) m
        (blitRow s d R m1 y1) := by
    unfold blitRow
    apply foldl_invariant _ (fun m2 => FrameOutside d m m2 ∧
      PixelCopied s d (R.srcX + x) (R.srcY + y) (R.dstX + x) (R.dstY + y) m m2)
    · intro x1 _ m2 h2
      exact ⟨blitPixel_frame s d R m y1 x1 m2 h2.1,
        blitPixel_keeps_copied s d R m hs hd hdist x y hsb hdb y1 x1 m2 h2.1 h2.2⟩
    · exact ⟨hf, hq⟩
  exact key.2

theorem blitLoop_copies (s d : PlatformSurface) (R : BlitRegion) (m : Mem)
    (hs : s.WellFormed) (hd : d.WellFormed) (hdist : Distinct s d) (x y : Int)
    (hx0 : 0 ≤ x) (hx : x < R.srcW) (hy0 : 0 ≤ y) (hy : y < R.srcH)
    (hsb : s.InBounds (R.srcX + x) (R.srcY + y)) (hdb : d.InBounds (R.dstX + x) (R.dstY + y))
    (hk : ¬ Keyed s (R.srcX + x) (R.srcY + y) m) :
    PixelCopied s d (R.srcX + x) (R.srcY + y) (R.dstX + x) (R.dstY + y) m
      (blitLoop s d R m) := by
  unfold blitLoop
  apply foldl_establish (blitRow s d R) (FrameOutside d m)
    (PixelCopied s d (R.srcX + x) (R.srcY + y) (R.dstX + x) (R.dstY + y) m) y
  · exact fun y1 _ m1 h1 => blitRow_frame s d R m y1 m1 h1
  · intro m1 h1
    unfold blitRow
    apply foldl_establish (fun m2 x1 => blitPixel s d R y x1 m2) (FrameOutside d m)
      (PixelCopied s d (R.srcX + x) (R.srcY + y) (R.dstX + x) (R.dstY + y) m) x
    · exact fun x1 _ m2 h2 => blitPixel_frame s d R m y x1 m2 h2
    · exact fun m2 h2 => blitPixel_copies s d R m hs hd hdist x y hsb hdb hk m2 h2
    · exact fun x1 _ m2 h2 q2 =>
        blitPixel_keeps_copied s d R m hs hd hdist x y hsb hdb y x1 m2 h2 q2
    · exact h1
    · exact Or.inr ((mem_loopRange 0 R.srcW x).mpr ⟨hx0, hx⟩)
  · exact fun y1 _ m1 h1 q1 => blitRow_keeps_copied s d R m hs hd hdist x y hsb hdb y1 m1 h1 q1
  · exact fun _ _ => rfl
  · exact Or.inr ((mem_loopRange 0 R.srcH y).mpr ⟨hy0, hy⟩)

/-- The clamp moves source and destination origin by the same amount. -/
theorem blitClamp_offset (s : PlatformSurface) (srcRect : Option PlatformRect)
    (d : PlatformSurface) (dstRect : Option PlatformRect) :
    (blitClamp s srcRect d dstRect).srcX - (blitClamp s srcRect d dstRect).dstX
        = rectX srcRect - rectX dstRect ∧
    (blitClamp s srcRect d dstRect).srcY - (blitClamp s srcRect d dstRect).dstY
        = rectY srcRect - rectY dstRect := by
  unfold blitClamp rectX rectY
  simp only
  constructor <;> split_ifs <;> omega

/-! ## Claims on `platformBlitSurface` -/

/-- C1. `platformBlitSurface` changes no destination byte outside the raw bounds
or outside the clip rectangle of the destination: every byte of memory that
differs after the call belongs to a destination pixel `(dx, dy)` lying both in
`[0,width) x [0,height)` and in the clip rectangle (whatever the surfaces, the
rectangles, and also when source and destination overlap); hence, on a
destination laid out as the data model says, every pixel of the raw bounds
outside the clip rectangle is byte-identical before and after the call. -/
theorem platformBlitSurface_inside_bounds_and_clip (m : Mem)
    (src : Option PlatformSurface) (srcRect : Option PlatformRect)
    (dst : Option PlatformSurface) (dstRect : Option PlatformRect) :
    (∀ a, platformBlitSurface m src srcRect dst dstRect a ≠ m a →
      ∃ d, dst = some d ∧ ∃ dx dy, d.InBounds dx dy ∧ d.InClip dx dy ∧ d.PixelByte dx dy a) ∧
    (∀ d, dst = some d → d.WellFormed → ∀ px py, d.InBounds px py → ¬ d.InClip px py →
      PixelKept d px py m (platformBlitSurface m src srcRect dst dstRect)) := by
  refine ⟨fun a h => platformBlitSurface_changed m src srcRect dst dstRect a h, ?_⟩
  intro d hd hw px py hb hc a ha
  by_contra hne
  obtain ⟨d1, e1, dx, dy, hb1, hc1, hp1⟩ :=
    platformBlitSurface_changed m src srcRect dst dstRect a hne
  rw [hd] at e1
  cases e1
  obtain ⟨ex, ey⟩ := pixel_disjoint d hw dx dy px py a hb1 hb hp1 ha
  subst ex ey
  exact hc hc1

/-- Witness of C1: blitting `demoSrc` onto `demoDst` changes byte 1008, which is
in pixel (0,1) inside the clip rectangle, and keeps pixel (1,0), which is
outside of it. -/
theorem platformBlitSurface_inside_bounds_and_clip_witness :
    (∃ d, some demoDst = some d ∧
      ∃ dx dy, d.InBounds dx dy ∧ d.InClip dx dy ∧ d.PixelByte dx dy 1008) ∧
    PixelKept demoDst 1 0 demoMem
      (platformBlitSurface demoMem (some demoSrc) none (some demoDst) none) :=
  ⟨(platformBlitSurface_inside_bounds_and_clip demoMem (some demoSrc) none
      (some demoDst) none).1 1008 (by decide),
   (platformBlitSurface_inside_bounds_and_clip demoMem (some demoSrc) none
      (some demoDst) none).2 demoDst rfl (by decide) 1 0 (by decide) (by decide)⟩

/-- C2. With an active color key on the source, a destination pixel `(dx, dy)`
whose corresponding source pixel, at `(dx - dstRect.x + srcRect.x,
dy - dstRect.y + srcRect.y)`, holds the key bytes (B, G, R) in its first three
bytes, whatever its alpha byte, is byte-identical after the blit, for distinct
surfaces laid out as the data model says. -/
theorem platformBlitSurface_colorkey_keeps (m : Mem) (s d : PlatformSurface)
    (srcRect dstRect : Option PlatformRect)
    (hs : s.WellFormed) (hd : d.WellFormed) (hdist : Distinct s d) (dx dy : Int)
    (hdb : d.InBounds dx dy)
    (hsb : s.InBounds (dx - rectX dstRect + rectX srcRect) (dy - rectY dstRect + rectY srcRect))
    (hk : Keyed s (dx - rectX dstRect + rectX srcRect) (dy - rectY dstRect + rectY srcRect) m) :
    PixelKept d dx dy m (platformBlitSurface m (some s) srcRect (some d) dstRect) := by
  unfold platformBlitSurface
  simp only
  split_ifs with h1 h2
  · exact fun _ _ => rfl
  · exact fun _ _ => rfl
  · obtain ⟨ox, oy⟩ := blitClamp_offset s srcRect d dstRect
    have ex : dx - rectX dstRect + rectX srcRect
        = (blitClamp s srcRect d dstRect).srcX + (dx - (blitClamp s srcRect d dstRect).dstX) := by
      omega
    have ey : dy - rectY dstRect + rectY srcRect
        = (blitClamp s srcRect d dstRect).srcY + (dy - (blitClamp s srcRect d dstRect).dstY) := by
      omega
    rw [ex, ey] at hsb hk
    have hdx : dx = (blitClamp s srcRect d dstRect).dstX
        + (dx - (blitClamp s srcRect d dstRect).dstX) := by omega
    have hdy : dy = (blitClamp s srcRect d dstRect).dstY
        + (dy - (blitClamp s srcRect d dstRect).dstY) := by omega
    rw [hdx, hdy] at hdb
    have := blitLoop_keeps_keyed s d (blitClamp s srcRect d dstRect) m hs hd hdist _ _ hsb hdb hk
    rw [← hdx, ← hdy] at this
    exact this

/-- Witness of C2: pixel (0,0) of `demoSrc` is the key color with alpha 9, and
pixel (0,0) of `demoDst` is kept by the blit. -/
theorem platformBlitSurface_colorkey_keeps_witness :
    Keyed demoSrc 0 0 demoMem ∧
    PixelKept demoDst 0 0 demoMem
      (platformBlitSurface demoMem (some demoSrc) none (some demoDst) none) :=
  ⟨by decide,
   platformBlitSurface_colorkey_keeps demoMem demoSrc demoDst none none
    (by decide) (by decide) (by decide) 0 0 (by decide) (by decide) (by decide)⟩

/-- C3. For a blit between two distinct surfaces with pixel buffers, 4 bytes per
pixel and pitch at least `width * 4`, the rectangles defaulting to the full
bounds: at every offset `(x, y)` of the clamped copy region whose source
coordinate is inside the source bounds and whose destination coordinate is
inside the destination bounds, when the source pixel does not match an active
color key, the 4 bytes of the destination pixel after the call are the 4 bytes
of the source pixel. -/
theorem platformBlitSurface_copies (m : Mem) (s d : PlatformSurface)
    (srcRect dstRect : Option PlatformRect)
    (hs : s.WellFormed) (hd : d.WellFormed) (hdist : Distinct s d)
    (hsp : s.pixels ≠ 0) (hdp : d.pixels ≠ 0) (x y : Int)
    (hx0 : 0 ≤ x) (hx : x < (blitClamp s srcRect d dstRect).srcW)
    (hy0 : 0 ≤ y) (hy : y < (blitClamp s srcRect d dstRect).srcH)
    (hsb : s.InBounds ((blitClamp s srcRect d dstRect).srcX + x)
      ((blitClamp s srcRect d dstRect).srcY + y))
    (hdb : d.InBounds ((blitClamp s srcRect d dstRect).dstX + x)
      ((blitClamp s srcRect d dstRect).dstY + y))
    (hk : ¬ Keyed s ((blitClamp s srcRect d dstRect).srcX + x)
      ((blitClamp s srcRect d dstRect).srcY + y) m) :
    PixelCopied s d ((blitClamp s srcRect d dstRect).srcX + x)
      ((blitClamp s srcRect d dstRect).srcY + y)
      ((blitClamp s srcRect d dstRect).dstX + x)
      ((blitClamp s srcRect d dstRect).dstY + y) m
      (platformBlitSurface m (some s) srcRect (some d) dstRect) := by
  unfold platformBlitSurface
  simp only
  rw [if_neg (by tauto), if_neg (by omega)]
  exact blitLoop_copies s d _ m hs hd hdist x y hx0 hx hy0 hy hsb hdb hk

/-- Witness of C3: offset (0,1) of the blit of `demoSrc` onto `demoDst`. -/
theorem platformBlitSurface_copies_witness :
    ¬ Keyed demoSrc 0 1 demoMem ∧
    PixelCopied demoSrc demoDst 0 1 0 1 demoMem
      (platformBlitSurface demoMem (some demoSrc) none (some demoDst) none) :=
  ⟨by decide,
   platformBlitSurface_copies demoMem demoSrc demoDst none none
    (by decide) (by decide) (by decide) (by decide) (by decide) 0 1
    (by decide) (by decide) (by decide) (by decide) (by decide) (by decide) (by decide)⟩

/-! ## `platformFillRect` -/

/-- The four stores of one fill step set the addressed pixel to (b, g, r, a). -/
theorem fillPixel_at (s : PlatformSurface) (r g b a : Byte)
    (py px : Int) (m : Mem) : Filled s px py r g b a (fillPixel s r g b a py px m) := by
  unfold Filled fillPixel PlatformSurface.pixelAddr
  simp only [Mem.write]
  refine ⟨?_, ?_, ?_, ?_⟩ <;> simp

/-- One fill step changes only the 4 bytes it addresses. -/
theorem fillPixel_other (s : PlatformSurface) (r g b a : Byte) (py px : Int) (m : Mem)
    (c : Int) (h : ¬ s.PixelByte px py c) : fillPixel s r g b a py px m c = m c := by
  unfold PlatformSurface.PixelByte PlatformSurface.pixelAddr at h
  unfold fillPixel
  simp only [Mem.write]
  rw [if_neg (by omega), if_neg (by omega), if_neg (by omega), if_neg (by omega)]

/-- A fill step at a column in `[0, width)` keeps an already filled in-bounds
pixel filled. -/
theorem fillPixel_keeps (s : PlatformSurface) (hw : s.WellFormed) (r g b a : Byte)
    (px py : Int) (hpx : 0 ≤ px ∧ px < s.width) (py1 px1 : Int)
    (hpx1 : 0 ≤ px1 ∧ px1 < s.width) (m : Mem) (hq : Filled s px py r g b a m) :
    Filled s px py r g b a (fillPixel s r g b a py1 px1 m) := by
  by_cases hsame : px1 = px ∧ py1 = py
  · rw [hsame.1, hsame.2]
    exact fillPixel_at s r g b a py px m
  · have hdis : ∀ k, 0 ≤ k → k < 4 → ¬ s.PixelByte px1 py1 (s.pixelAddr px py + k) := by
      intro k hk0 hk hc
      apply hsame
      exact pixel_disjoint_cols s hw px1 py1 px py _ hpx1 hpx hc
        (by unfold PlatformSurface.PixelByte; omega)
    unfold Filled at hq ⊢
    have e0 := fillPixel_other s r g b a py1 px1 m _ (hdis 0 (by omega) (by omega))
    rw [add_zero] at e0
    rw [e0, fillPixel_other s r g b a py1 px1 m _ (hdis 1 (by omega) (by omega)),
      fillPixel_other s r g b a py1 px1 m _ (hdis 2 (by omega) (by omega)),
      fillPixel_other s r g b a py1 px1 m _ (hdis 3 (by omega) (by omega))]
    exact hq

/-- The two loops of `platformFillRect` run on `x, y, w, h` with `0 ≤ x` set
every in-bounds pixel of `[x, x+w) x [y, y+h)` to (b, g, r, a). -/
theorem fillLoop_fills (m : Mem) (s : PlatformSurface) (x y w h : Int) (r g b a : Byte)
    (hw : s.WellFormed) (hx : 0 ≤ x) (px py : Int)
    (hpx : x ≤ px ∧ px < x + w) (hpy : y ≤ py ∧ py < y + h) (hb : s.InBounds px py) :
    Filled s px py r g b a
      ((loopRange y (min (y + h) s.height)).foldl (fillRow s x w r g b a) m) := by
  unfold PlatformSurface.InBounds at hb
  have hcols : ∀ px1, px1 ∈ loopRange x (min (x + w) s.width) → 0 ≤ px1 ∧ px1 < s.width := by
    intro px1 h1
    rw [mem_loopRange] at h1
    omega
  have hmemx : px ∈ loopRange x (min (x + w) s.width) := by
    rw [mem_loopRange]; omega
  have hmemy : py ∈ loopRange y (min (y + h) s.height) := by
    rw [mem_loopRange]; omega
  apply foldl_establish _ (fun _ => True) (Filled s px py r g b a) py
  · exact fun _ _ _ _ => trivial
  · intro m1 _
    unfold fillRow
    apply foldl_establish _ (fun _ => True) (Filled s px py r g b a) px
    · exact fun _ _ _ _ => trivial
    · exact fun m2 _ => fillPixel_at s r g b a py px m2
    · exact fun px1 h1 m2 _ q2 =>
        fillPixel_keeps s hw r g b a px py ⟨hb.1, hb.2.1⟩ py px1 (hcols px1 h1) m2 q2
    · trivial
    · exact Or.inr hmemx
  · intro py1 _ m1 _ q1
    unfold fillRow
    have key : True ∧ Filled s px py r g b a
        ((loopRange x (min (x + w) s.width)).foldl
          (fun m px1 => fillPixel s r g b a py1 px1 m) m1) := by
      apply foldl_invariant _ (fun m2 => True ∧ Filled s px py r g b a m2)
      · exact fun px1 h1 m2 q2 =>
          ⟨trivial, fillPixel_keeps s hw r g b a px py ⟨hb.1, hb.2.1⟩ py1 px1 (hcols px1 h1) m2 q2.2⟩
      · exact ⟨trivial, q1⟩
    exact key.2
  · trivial
  · exact Or.inr hmemy

/-- What `platformFillRect` achieves when the rectangle does not start left of
the surface: on a surface with a pixel buffer laid out as the data model says,
every pixel of the rectangle intersected with the raw bounds (of the whole
surface for a null rectangle) holds (b, g, r, a) afterwards, whatever the clip
rectangle of the surface. -/
theorem platformFillRect_fills (m : Mem) (s : PlatformSurface) (rect : Option PlatformRect)
    (r g b a : Byte) (hw : s.WellFormed) (hp : s.pixels ≠ 0) (hx : 0 ≤ rectX rect)
    (px py : Int) (hin : InFillRect rect px py) (hb : s.InBounds px py) :
    Filled s px py r g b a (platformFillRect m (some s) rect r g b a) := by
  unfold platformFillRect
  simp only
  rw [if_neg hp]
  cases rect with
  | none =>
    have hb1 := hb
    unfold PlatformSurface.InBounds at hb1
    exact fillLoop_fills m s 0 0 s.width s.height r g b a hw (le_refl 0) px py
      (by omega) (by omega) hb
  | some q =>
    simp only [InFillRect, PlatformRect.Contains] at hin
    exact fillLoop_fills m s q.x q.y q.w q.h r g b a hw hx px py
      (by omega) (by omega) hb

/-- Instance of `platformFillRect_fills`: a null rectangle fills pixel (1,1) of
`fillSurf`, which lies outside its clip rectangle. -/
theorem platformFillRect_fills_witness :
    ¬ fillSurf.InClip 1 1 ∧
    Filled fillSurf 1 1 3 2 1 4 (platformFillRect zeroMem (some fillSurf) none 3 2 1 4) :=
  ⟨by decide,
   platformFillRect_fills zeroMem fillSurf none 3 2 1 4 (by decide) (by decide) (by decide)
    1 1 trivial (by decide)⟩

/-- C4, at the failing input. On the 1x3 surface with 5-byte rows, filling the
rectangle x=-1, y=1, w=2, h=2 with (r,g,b,a) = (3,2,1,4) writes only inside the
15-byte buffer, and pixel (0,1), which lies in the rectangle and in the raw
bounds, ends as bytes (1,1,2,3) instead of (b,g,r,a) = (1,2,3,4): the store for
column -1 of row 2 lands on it. -/
theorem platformFillRect_misses_pixel :
    oddPitchSurf.WellFormed ∧ oddPitchSurf.pixels ≠ 0 ∧
    PlatformRect.InRange ⟨-1, 1, 2, 2⟩ ∧
    InFillRect (some ⟨-1, 1, 2, 2⟩) 0 1 ∧ oddPitchSurf.InBounds 0 1 ∧
    ¬ Filled oddPitchSurf 0 1 3 2 1 4
      (platformFillRect zeroMem (some oddPitchSurf) (some ⟨-1, 1, 2, 2⟩) 3 2 1 4) ∧
    Filled oddPitchSurf 0 1 2 1 1 3
      (platformFillRect zeroMem (some oddPitchSurf) (some ⟨-1, 1, 2, 2⟩) 3 2 1 4) := by
  decide

/-- C5, at the failing input. `platformFillRect` has no lower clamp: on the 2x2
surface `fillSurf` (buffer at addresses 1000..1015) the rectangle x=-1, y=1,
w=1, h=1 contains no coordinate of the raw bounds, yet the call changes byte
1004 of pixel (1,0); and the rectangle x=-1, y=0, w=1, h=1 makes it store at
address 996, before the first byte of the buffer. -/
theorem platformFillRect_writes_outside :
    PlatformRect.InRange ⟨-1, 1, 1, 1⟩ ∧ PlatformRect.InRange ⟨-1, 0, 1, 1⟩ ∧
    (∀ x y, fillSurf.InBounds x y → ¬ InFillRect (some ⟨-1, 1, 1, 1⟩) x y) ∧
    platformFillRect zeroMem (some fillSurf) (some ⟨-1, 1, 1, 1⟩) 3 2 1 4 1004 ≠ zeroMem 1004 ∧
    fillSurf.PixelByte 1 0 1004 ∧
    platformFillRect zeroMem (some fillSurf) (some ⟨-1, 0, 1, 1⟩) 3 2 1 4 996 ≠ zeroMem 996 ∧
    996 < fillSurf.pixels := by
  refine ⟨by decide, by decide, ?_, by decide, by decide, by decide, by decide⟩
  intro x y hb hc
  simp only [InFillRect, PlatformRect.Contains] at hc
  unfold PlatformSurface.InBounds at hb
  omega

/-! ## The pending-event queue -/

theorem loopRange_succ_right (lo hi : Int) (h : lo ≤ hi) :
    loopRange lo (hi + 1) = loopRange lo hi ++ [hi] := by
  unfold loopRange
  have e : (hi + 1 - lo).toNat = (hi - lo).toNat + 1 := by omega
  rw [e, List.range_succ, List.map_append, List.map_singleton]
  congr 2
  omega

theorem loopRange_empty (lo hi : Int) (h : hi ≤ lo) : loopRange lo hi = [] := by
  unfold loopRange
  have e : (hi - lo).toNat = 0 := by omega
  rw [e]; rfl

theorem loopRange_succ_left (lo hi : Int) (h : lo < hi) :
    loopRange lo hi = lo :: (loopRange lo (hi - 1)).map (fun j => j + 1) := by
  unfold loopRange
  have e : (hi - lo).toNat = (hi - 1 - lo).toNat + 1 := by omega
  rw [e, List.range_succ_eq_map, List.map_cons, List.map_map, List.map_map]
  congr 1
  · simp
  · apply List.map_congr_left
    intro k _
    simp only [Function.comp_apply, Nat.succ_eq_add_one, Nat.cast_add, Nat.cast_one]
    omega

theorem loopRange_length (lo hi : Int) : (loopRange lo hi).length = (hi - lo).toNat := by
  unfold loopRange; simp

/-- After `n` steps of the shifting loop the slots `0 .. n-1` hold what the
slots `1 .. n` held, and the others are as before. -/
theorem shiftDown_spec (slots : Int → PlatformEvent) (n : Nat) :
    ∀ j : Int, shiftDown slots (1 + n) j
      = if 0 ≤ j ∧ j < n then slots (j + 1) else slots j := by
  induction n with
  | zero =>
    intro j
    unfold shiftDown
    rw [loopRange_empty 1 (1 + ((0 : Nat) : Int)) (by simp)]
    simp only [List.foldl_nil]
    rw [if_neg (by simp)]
  | succ n ih =>
    intro j
    have e : (1 : Int) + ((n + 1 : Nat) : Int) = (1 + (n : Int)) + 1 := by push_cast; ring
    have step : shiftDown slots (1 + (n : Int) + 1)
        = setSlot (shiftDown slots (1 + (n : Int))) (1 + (n : Int) - 1)
            (shiftDown slots (1 + (n : Int)) (1 + (n : Int))) := by
      unfold shiftDown
      rw [loopRange_succ_right 1 (1 + n) (by omega), List.foldl_append]
      rfl
    rw [e, step]
    unfold setSlot
    by_cases hj : j = 1 + (n : Int) - 1
    · rw [if_pos hj, ih (1 + (n : Int)), if_neg (by omega), if_pos (by push_cast; omega)]
      congr 1
      omega
    · rw [if_neg hj, ih j]
      by_cases hc : 0 ≤ j ∧ j < (n : Int)
      · rw [if_pos hc, if_pos (by push_cast; omega)]
      · rw [if_neg hc, if_neg (by push_cast; omega)]

/-- Appending `e` at index `count` appends it to the contents. -/
theorem contents_append (slots : Int → PlatformEvent) (c : Int) (hc : 0 ≤ c)
    (e : PlatformEvent) :
    EventQueue.contents { pendingEvents := setSlot slots c e, pendingEventCount := c + 1 }
      = EventQueue.contents { pendingEvents := slots, pendingEventCount := c } ++ [e] := by
  unfold EventQueue.contents
  simp only
  rw [loopRange_succ_right 0 c hc, List.map_append, List.map_singleton]
  congr 1
  · apply List.map_congr_left
    intro i hi
    rw [mem_loopRange] at hi
    unfold setSlot
    rw [if_neg (by omega)]
  · unfold setSlot
    rw [if_pos rfl]

/-- A dequeue on a non-empty queue returns 1 and the oldest event, and leaves
the rest of the contents in order. -/
theorem popPending_nonempty (q : EventQueue) (ev : PlatformEvent)
    (h : 0 < q.pendingEventCount) :
    (popPending q ev).1 = 1 ∧
    q.contents = (popPending q ev).2.1 :: (popPending q ev).2.2.contents ∧
    (popPending q ev).2.2.pendingEventCount = q.pendingEventCount - 1 := by
  unfold popPending
  rw [if_pos h]
  refine ⟨rfl, ?_, rfl⟩
  simp only
  unfold EventQueue.contents
  simp only
  rw [loopRange_succ_left 0 q.pendingEventCount h, List.map_cons, List.map_map]
  congr 1
  apply List.map_congr_left
  intro i hi
  rw [mem_loopRange] at hi
  have e : q.pendingEventCount = 1 + ((q.pendingEventCount - 1).toNat : Int) := by omega
  simp only [Function.comp_apply]
  rw [e, shiftDown_spec, if_pos (by omega)]

/-- A dequeue on an empty queue returns 0 and changes nothing. -/
theorem popPending_empty (q : EventQueue) (ev : PlatformEvent) (h : q.pendingEventCount = 0) :
    popPending q ev = (0, ev, q) := by
  unfold popPending
  rw [if_neg (by omega)]

/-- Polling as many times as there are events returns them all, oldest first,
each with return value 1, and empties the queue. -/
theorem pollN_popPending (n : Nat) :
    ∀ (q : EventQueue) (ev : PlatformEvent), q.pendingEventCount = n →
      (pollN popPending n q ev).1 = q.contents.map (fun e => ((1 : Int), e)) ∧
      (pollN popPending n q ev).2.1.pendingEventCount = 0 := by
  induction n with
  | zero =>
    intro q ev h
    unfold pollN
    unfold EventQueue.contents
    rw [h, loopRange_empty 0 _ (by simp)]
    exact ⟨rfl, by simp⟩
  | succ n ih =>
    intro q ev h
    obtain ⟨h1, h2, h3⟩ := popPending_nonempty q ev (by rw [h]; push_cast; omega)
    have hn : (popPending q ev).2.2.pendingEventCount = n := by
      rw [h3, h]; push_cast; omega
    obtain ⟨i1, i2⟩ := ih (popPending q ev).2.2 (popPending q ev).2.1 hn
    unfold pollN
    simp only
    refine ⟨?_, i2⟩
    rw [i1, h2, List.map_cons, h1]

theorem Web.keyCallback_append (q : EventQueue) (t : Int) (k : Web.EmscriptenKeyboardEvent)
    (h0 : 0 ≤ q.pendingEventCount) (h : q.pendingEventCount < 32) :
    (Web.keyCallback q t k).1.contents = q.contents ++ [Web.keyEventOf t k] ∧
    (Web.keyCallback q t k).1.pendingEventCount = q.pendingEventCount + 1 := by
  unfold Web.keyCallback
  rw [if_neg (by omega)]
  exact ⟨contents_append q.pendingEvents q.pendingEventCount h0 _, rfl⟩

theorem web_produce_contents (inputs : List (Int × Web.EmscriptenKeyboardEvent)) :
    ∀ q : EventQueue, 0 ≤ q.pendingEventCount → q.pendingEventCount + inputs.length ≤ 32 →
      (Web.produce q inputs).contents
        = q.contents ++ inputs.map (fun i => Web.keyEventOf i.1 i.2) ∧
      (Web.produce q inputs).pendingEventCount = q.pendingEventCount + inputs.length := by
  induction inputs with
  | nil =>
    intro q _ _
    simp [Web.produce]
  | cons i rest ih =>
    intro q h0 h
    rw [List.length_cons] at h
    push_cast at h
    obtain ⟨a1, a2⟩ := Web.keyCallback_append q i.1 i.2 h0 (by omega)
    obtain ⟨b1, b2⟩ := ih (Web.keyCallback q i.1 i.2).1 (by omega) (by omega)
    unfold Web.produce at b1 b2 ⊢
    rw [List.foldl_cons, b1, b2, a1, a2, List.map_cons, List.length_cons]
    refine ⟨by simp, ?_⟩
    push_cast
    ring

theorem Windows.WindowProc_append (q : EventQueue) (msg : Windows.Msg) (ha : msg.Appends)
    (h : q.pendingEventCount < 32) :
    Windows.WindowProc q msg =
      { pendingEvents := setSlot q.pendingEvents q.pendingEventCount
          (Windows.stored (q.pendingEvents q.pendingEventCount) msg),
        pendingEventCount := q.pendingEventCount + 1 } := by
  unfold Windows.Msg.Appends at ha
  unfold Windows.WindowProc Windows.stored
  split_ifs <;> first | rfl | omega

theorem Windows.storedList_congr (msgs : List Windows.Msg) :
    ∀ (c : Int) (s1 s2 : Int → PlatformEvent), (∀ j, c ≤ j → s1 j = s2 j) →
      Windows.storedList s1 c msgs = Windows.storedList s2 c msgs := by
  induction msgs with
  | nil => intro _ _ _ _; rfl
  | cons msg rest ih =>
    intro c s1 s2 h
    unfold Windows.storedList
    rw [h c (le_refl c), ih (c + 1) s1 s2 (fun j hj => h j (by omega))]

theorem windows_produce_contents (msgs : List Windows.Msg) :
    ∀ q : EventQueue, 0 ≤ q.pendingEventCount → q.pendingEventCount + msgs.length ≤ 32 →
      (∀ msg ∈ msgs, msg.Appends) →
      (Windows.produce q msgs).contents
        = q.contents ++ Windows.storedList q.pendingEvents q.pendingEventCount msgs ∧
      (Windows.produce q msgs).pendingEventCount = q.pendingEventCount + msgs.length := by
  induction msgs with
  | nil =>
    intro q _ _ _
    simp [Windows.produce, Windows.storedList]
  | cons msg rest ih =>
    intro q h0 h ha
    rw [List.length_cons] at h
    push_cast at h
    have e := Windows.WindowProc_append q msg (ha msg (List.mem_cons_self _ _)) (by omega)
    obtain ⟨b1, b2⟩ := ih (Windows.WindowProc q msg) (by rw [e]; simp only; omega)
      (by rw [e]; simp only; omega) (fun m hm => ha m (List.mem_cons_of_mem _ hm))
    unfold Windows.produce at b1 b2 ⊢
    rw [List.foldl_cons, b1, b2, e]
    simp only
    rw [contents_append q.pendingEvents q.pendingEventCount h0, List.length_cons]
    constructor
    · rw [List.append_assoc, List.singleton_append]
      congr 1
      conv_rhs => unfold Windows.storedList
      congr 1
      apply Windows.storedList_congr
      intro j hj
      unfold setSlot
      rw [if_neg (by omega)]
    · push_cast
      ring

/-! ## Claims on the event queue -/

/-- C6. Event queue FIFO, on the web and on the Windows back end: for every
sequence of at most 32 producer events appended to an empty queue, as many
successive `platformPollEvent` calls each return 1 and yield the events in
append order (on the web the event built from each keyboard event, on Windows
the event each message stored in its slot), and the following call returns 0,
leaves the caller's buffer and the queue as they are, the queue being empty. -/
theorem event_queue_fifo :
    (∀ (inputs : List (Int × Web.EmscriptenKeyboardEvent)) (q0 : EventQueue)
        (ev0 : PlatformEvent),
      q0.pendingEventCount = 0 → inputs.length ≤ 32 →
      (pollN Web.platformPollEvent inputs.length (Web.produce q0 inputs) ev0).1
          = inputs.map (fun i => ((1 : Int), Web.keyEventOf i.1 i.2)) ∧
      Web.platformPollEvent
          (pollN Web.platformPollEvent inputs.length (Web.produce q0 inputs) ev0).2.1
          (pollN Web.platformPollEvent inputs.length (Web.produce q0 inputs) ev0).2.2
        = (0, (pollN Web.platformPollEvent inputs.length (Web.produce q0 inputs) ev0).2.2,
            (pollN Web.platformPollEvent inputs.length (Web.produce q0 inputs) ev0).2.1) ∧
      (pollN Web.platformPollEvent inputs.length
          (Web.produce q0 inputs) ev0).2.1.pendingEventCount = 0) ∧
    (∀ (msgs : List Windows.Msg) (q0 : EventQueue) (ev0 : PlatformEvent),
      q0.pendingEventCount = 0 → msgs.length ≤ 32 → (∀ msg ∈ msgs, msg.Appends) →
      (pollN (Windows.platformPollEvent []) msgs.length (Windows.produce q0 msgs) ev0).1
          = (Windows.storedList q0.pendingEvents 0 msgs).map (fun e => ((1 : Int), e)) ∧
      Windows.platformPollEvent []
          (pollN (Windows.platformPollEvent []) msgs.length (Windows.produce q0 msgs) ev0).2.1
          (pollN (Windows.platformPollEvent []) msgs.length (Windows.produce q0 msgs) ev0).2.2
        = (0, (pollN (Windows.platformPollEvent []) msgs.length
                (Windows.produce q0 msgs) ev0).2.2,
            (pollN (Windows.platformPollEvent []) msgs.length
                (Windows.produce q0 msgs) ev0).2.1) ∧
      (pollN (Windows.platformPollEvent []) msgs.length
          (Windows.produce q0 msgs) ev0).2.1.pendingEventCount = 0) := by
  have hweb : Web.platformPollEvent = popPending := rfl
  have hwin : Windows.platformPollEvent [] = popPending := rfl
  constructor
  · intro inputs q0 ev0 h0 hlen
    obtain ⟨c1, c2⟩ := web_produce_contents inputs q0 (by omega) (by rw [h0]; omega)
    rw [h0, zero_add] at c2
    obtain ⟨p1, p2⟩ := pollN_popPending inputs.length (Web.produce q0 inputs) ev0 c2
    rw [hweb]
    refine ⟨?_, popPending_empty _ _ p2, p2⟩
    rw [p1, c1]
    have : q0.contents = [] := by
      unfold EventQueue.contents
      rw [h0, loopRange_empty 0 0 (le_refl 0)]; rfl
    rw [this, List.nil_append, List.map_map]
    rfl
  · intro msgs q0 ev0 h0 hlen ha
    obtain ⟨c1, c2⟩ := windows_produce_contents msgs q0 (by omega)
      (by rw [h0]; omega) ha
    rw [h0, zero_add] at c2
    obtain ⟨p1, p2⟩ := pollN_popPending msgs.length (Windows.produce q0 msgs) ev0 c2
    rw [hwin]
    refine ⟨?_, popPending_empty _ _ p2, p2⟩
    rw [p1, c1]
    have : q0.contents = [] := by
      unfold EventQueue.contents
      rw [h0, loopRange_empty 0 0 (le_refl 0)]; rfl
    rw [this, List.nil_append, h0]

/-- Witness of C6: a key-down of Space followed by a key-up of "m" on the web,
and a key-down of Return followed by a close on Windows. -/
theorem event_queue_fifo_witness :
    (pollN Web.platformPollEvent 2
        (Web.produce emptyQueue [(2, ⟨" ", false⟩), (3, ⟨"m", true⟩)]) noEvent).1
      = [(1, ⟨PlatformEventType.EVENT_KEY_DOWN, PlatformKeyCode.KEY_SPACE, 0⟩),
         (1, ⟨PlatformEventType.EVENT_KEY_UP, PlatformKeyCode.KEY_M, 1⟩)] ∧
    (pollN (Windows.platformPollEvent []) 2
        (Windows.produce emptyQueue [⟨0x100, 0x0D, true⟩, ⟨0x10, 0, false⟩]) noEvent).1
      = [(1, ⟨PlatformEventType.EVENT_KEY_DOWN, PlatformKeyCode.KEY_RETURN, 1⟩),
         (1, ⟨PlatformEventType.EVENT_QUIT, PlatformKeyCode.KEY_UNKNOWN, 0⟩)] :=
  ⟨(event_queue_fifo.1 [(2, ⟨" ", false⟩), (3, ⟨"m", true⟩)] emptyQueue noEvent rfl
      (by decide)).1,
   (event_queue_fifo.2 [⟨0x100, 0x0D, true⟩, ⟨0x10, 0, false⟩] emptyQueue noEvent rfl
      (by decide) (by decide)).1⟩

/-- The invariant `0 ≤ pendingEventCount ≤ 32`. -/
theorem web_step_bounds (q : EventQueue) (op : Web.Op)
    (h : 0 ≤ q.pendingEventCount ∧ q.pendingEventCount ≤ 32) :
    0 ≤ (Web.step q op).pendingEventCount ∧ (Web.step q op).pendingEventCount ≤ 32 := by
  cases op with
  | key t k =>
    unfold Web.step Web.keyCallback
    split_ifs
    · exact h
    · simp only; omega
  | poll ev =>
    unfold Web.step Web.platformPollEvent popPending
    split_ifs
    · simp only; omega
    · exact h

theorem Windows.WindowProc_bounds (q : EventQueue) (msg : Windows.Msg)
    (h : 0 ≤ q.pendingEventCount ∧ q.pendingEventCount ≤ 32) :
    0 ≤ (Windows.WindowProc q msg).pendingEventCount ∧
      (Windows.WindowProc q msg).pendingEventCount ≤ 32 := by
  unfold Windows.WindowProc
  split_ifs <;> first | exact h | (simp only; omega)

theorem windows_step_bounds (q : EventQueue) (op : Windows.Op)
    (h : 0 ≤ q.pendingEventCount ∧ q.pendingEventCount ≤ 32) :
    0 ≤ (Windows.step q op).pendingEventCount ∧ (Windows.step q op).pendingEventCount ≤ 32 := by
  cases op with
  | message msg => exact Windows.WindowProc_bounds q msg h
  | poll waiting ev =>
    have hw := foldl_invariant Windows.WindowProc
      (fun q => 0 ≤ q.pendingEventCount ∧ q.pendingEventCount ≤ 32) waiting
      (fun msg _ q1 h1 => Windows.WindowProc_bounds q1 msg h1) q h
    simp only at hw
    show 0 ≤ (popPending (waiting.foldl Windows.WindowProc q) ev).2.2.pendingEventCount ∧
      (popPending (waiting.foldl Windows.WindowProc q) ev).2.2.pendingEventCount ≤ 32
    unfold popPending
    split_ifs
    · simp only; omega
    · exact hw

/-- C7. Event queue overflow: with 32 events pending, a further producer call
(the web keyboard callback for key down or key up, the Windows window procedure
for close, key down or key up) leaves the whole queue, count and slots, as it
is, the web callback returning false without any error; and from the initial
count 0 every sequence of producer calls and polls keeps the count between 0
and 32. -/
theorem event_queue_overflow_drops :
    (∀ (q : EventQueue) (t : Int) (k : Web.EmscriptenKeyboardEvent),
      q.pendingEventCount = 32 → Web.keyCallback q t k = (q, false)) ∧
    (∀ (q : EventQueue) (msg : Windows.Msg),
      q.pendingEventCount = 32 → Windows.WindowProc q msg = q) ∧
    (∀ (ops : List Web.Op) (q0 : EventQueue), q0.pendingEventCount = 0 →
      0 ≤ (ops.foldl Web.step q0).pendingEventCount ∧
        (ops.foldl Web.step q0).pendingEventCount ≤ 32) ∧
    (∀ (ops : List Windows.Op) (q0 : EventQueue), q0.pendingEventCount = 0 →
      0 ≤ (ops.foldl Windows.step q0).pendingEventCount ∧
        (ops.foldl Windows.step q0).pendingEventCount ≤ 32) := by
  refine ⟨?_, ?_, ?_, ?_⟩
  · intro q t k h
    unfold Web.keyCallback
    rw [if_pos (by omega)]
  · intro q msg h
    unfold Windows.WindowProc
    split_ifs <;> first | rfl | omega
  · intro ops q0 h
    exact foldl_invariant Web.step
      (fun q => 0 ≤ q.pendingEventCount ∧ q.pendingEventCount ≤ 32) ops
      (fun op _ q1 h1 => web_step_bounds q1 op h1) q0 (by omega)
  · intro ops q0 h
    exact foldl_invariant Windows.step
      (fun q => 0 ≤ q.pendingEventCount ∧ q.pendingEventCount ≤ 32) ops
      (fun op _ q1 h1 => windows_step_bounds q1 op h1) q0 (by omega)

/-- Witness of C7: a key-down of Space and a close message on a queue that
holds 32 events, and the count after 33 key-downs from the empty queue. -/
theorem event_queue_overflow_drops_witness :
    Web.keyCallback fullQueue 2 ⟨" ", false⟩ = (fullQueue, false) ∧
    Windows.WindowProc fullQueue ⟨0x10, 0, false⟩ = fullQueue ∧
    (0 ≤ ((List.replicate 33 (Web.Op.key 2 ⟨" ", false⟩)).foldl Web.step
        emptyQueue).pendingEventCount ∧
      ((List.replicate 33 (Web.Op.key 2 ⟨" ", false⟩)).foldl Web.step
        emptyQueue).pendingEventCount ≤ 32) ∧
    (0 ≤ ((List.replicate 33 (Windows.Op.message ⟨0x100, 0x20, false⟩)).foldl Windows.step
        emptyQueue).pendingEventCount ∧
      ((List.replicate 33 (Windows.Op.message ⟨0x100, 0x20, false⟩)).foldl Windows.step
        emptyQueue).pendingEventCount ≤ 32) :=
  ⟨event_queue_overflow_drops.1 fullQueue 2 ⟨" ", false⟩ rfl,
   event_queue_overflow_drops.2.1 fullQueue ⟨0x10, 0, false⟩ rfl,
   event_queue_overflow_drops.2.2.1 (List.replicate 33 (Web.Op.key 2 ⟨" ", false⟩))
     emptyQueue rfl,
   event_queue_overflow_drops.2.2.2 (List.replicate 33 (Windows.Op.message ⟨0x100, 0x20, false⟩))
     emptyQueue rfl⟩

/-! ## `platformLoadWAV` -/

theorem getD_take (l : List Byte) (n i : Nat) (h : i < n) :
    (l.take n).getD i 0 = l.getD i 0 := by
  simp only [List.getD_eq_getElem?_getD]
  rw [List.getElem?_take_of_lt h]

theorem readLE32_take (data : List Byte) (off : Nat) (h : off + 4 ≤ 44) :
    readLE32 (data.take 44) off = readLE32 data off := by
  unfold readLE32
  rw [getD_take data 44 off (by omega), getD_take data 44 (off + 1) (by omega),
    getD_take data 44 (off + 2) (by omega), getD_take data 44 (off + 3) (by omega)]

theorem readLE16_take (data : List Byte) (off : Nat) (h : off + 2 ≤ 44) :
    readLE16 (data.take 44) off = readLE16 data off := by
  unfold readLE16
  rw [getD_take data 44 off (by omega), getD_take data 44 (off + 1) (by omega)]

theorem readLE32_lt (data : List Byte) (off : Nat) : readLE32 data off < 4294967296 := by
  unfold readLE32
  have h0 := (data.getD off 0).isLt
  have h1 := (data.getD (off + 1) 0).isLt
  have h2 := (data.getD (off + 2) 0).isLt
  have h3 := (data.getD (off + 3) 0).isLt
  omega

/-- The conversion to `int` keeps the 32 bits, and the value when it is below
`2^31`. -/
theorem toInt32_spec (v : Nat) (h : v < 4294967296) :
    toInt32 v % 4294967296 = (v : Int) ∧ -2147483648 ≤ toInt32 v ∧ toInt32 v < 2147483648 ∧
      (v < 2147483648 → toInt32 v = (v : Int)) := by
  unfold toInt32
  split_ifs with hlt
  · refine ⟨?_, ?_, ?_, fun _ => rfl⟩ <;> omega
  · refine ⟨?_, ?_, ?_, fun h2 => absurd h2 hlt⟩ <;> omega

theorem foldr_max_ge (l : List Nat) : ∀ x ∈ l, x ≤ l.foldr max 0 := by
  induction l with
  | nil => intro x hx; exact absurd hx (List.not_mem_nil _)
  | cons y l ih =>
    intro x hx
    rw [List.foldr_cons]
    rcases List.mem_cons.mp hx with h | h
    · subst h; exact le_max_left _ _
    · exact le_trans (ih x h) (le_max_right _ _)

/-- The address `malloc` returns differs from the address of every live
block. -/
theorem Heap.fresh_ne (h : Heap) (b : Nat × List Byte) (hb : b ∈ h.blocks) :
    b.1 ≠ h.fresh := by
  unfold Heap.fresh
  have := foldr_max_ge (h.blocks.map Prod.fst) b.1 (List.mem_map_of_mem Prod.fst hb)
  omega

/-- Allocating a block, writing to it and freeing it gives the heap back. -/
theorem free_store_malloc (h : Heap) (n : Nat) (bytes : List Byte) :
    free ((malloc h n).2.store (malloc h n).1 bytes) (malloc h n).1 = h := by
  unfold free Heap.store malloc
  simp only [List.map_cons, if_true]
  rw [List.filter_cons_of_neg (by simp)]
  have e : List.map (fun b : Nat × List Byte =>
      if b.1 = h.fresh then (h.fresh, bytes ++ List.drop bytes.length b.2) else b) h.blocks
      = h.blocks := by
    conv_rhs => rw [← List.map_id h.blocks]
    apply List.map_congr_left
    intro b hb
    rw [if_neg (Heap.fresh_ne h b hb)]
    rfl
  rw [e]
  have e2 : List.filter (fun b : Nat × List Byte => decide (b.1 ≠ h.fresh)) h.blocks
      = h.blocks := by
    rw [List.filter_eq_self]
    intro b hb
    exact decide_eq_true (Heap.fresh_ne h b hb)
  rw [e2]

/-- C8, as amended. For a file made of a 44-byte header followed by at least
`dataLength` payload bytes, `dataLength` being the 32-bit little-endian value
at bytes [40..44): `platformLoadWAV` returns 0, sets `audio_len` to
`dataLength`, makes `audio_buf` point to a block holding the file bytes
[44, 44+dataLength), sets `spec.freq` to the `int` that has the 32 bits of the
little-endian value at offset 24 (that value when it is below 2^31, that value
minus 2^32 otherwise), `spec.format` to the 16-bit little-endian value at
offset 34, and leaves `spec.samples`, `spec.callback` and `spec.userdata` as
they were. -/
theorem platformLoadWAV_success (fs : String → Option (List Byte)) (filename : String)
    (data : List Byte) (st : WavState) (hf : fs filename = some data)
    (hh : 44 ≤ data.length) (hp : 44 + readLE32 data 40 ≤ data.length) :
    (platformLoadWAV fs filename st).1 = 0 ∧
    (platformLoadWAV fs filename st).2.audio_len = readLE32 data 40 ∧
    (platformLoadWAV fs filename st).2.heap.load (platformLoadWAV fs filename st).2.audio_buf
      = some ((data.drop 44).take (readLE32 data 40)) ∧
    ((data.drop 44).take (readLE32 data 40)).length = readLE32 data 40 ∧
    (platformLoadWAV fs filename st).2.spec.freq = toInt32 (readLE32 data 24) ∧
    (platformLoadWAV fs filename st).2.spec.freq % 4294967296 = (readLE32 data 24 : Int) ∧
    (readLE32 data 24 < 2147483648 →
      (platformLoadWAV fs filename st).2.spec.freq = (readLE32 data 24 : Int)) ∧
    (platformLoadWAV fs filename st).2.spec.format = readLE16 data 34 ∧
    (platformLoadWAV fs filename st).2.spec.samples = st.spec.samples ∧
    (platformLoadWAV fs filename st).2.spec.callback = st.spec.callback ∧
    (platformLoadWAV fs filename st).2.spec.userdata = st.spec.userdata := by
  have hlen : ((data.drop 44).take (readLE32 data 40)).length = readLE32 data 40 := by
    rw [List.length_take, List.length_drop]; omega
  have hhead : (data.take 44).length = 44 := by
    rw [List.length_take]; omega
  obtain ⟨t1, _, _, t4⟩ := toInt32_spec (readLE32 data 24) (readLE32_lt data 24)
  unfold platformLoadWAV
  rw [hf]
  simp only
  rw [if_neg (by omega), readLE32_take data 40 (by omega), if_neg (by omega),
    readLE32_take data 24 (by omega), readLE16_take data 34 (by omega)]
  refine ⟨rfl, rfl, ?_, hlen, rfl, t1, t4, rfl, rfl, rfl, rfl⟩
  unfold Heap.load Heap.store malloc
  simp only [List.map_cons, if_true]
  rw [List.find?_cons_of_pos _ (by simp)]
  simp only [Option.map_some', List.length_replicate]
  rw [hlen, List.drop_replicate, Nat.sub_self]
  simp

/-- Witness of C8: a header declaring 3 payload bytes followed by 4 bytes. -/
theorem platformLoadWAV_success_witness :
    (platformLoadWAV (oneFile "a.wav" (demoHeader 3 ++ [9, 8, 7, 6])) "a.wav" demoState).1 = 0 ∧
    (platformLoadWAV (oneFile "a.wav" (demoHeader 3 ++ [9, 8, 7, 6])) "a.wav"
      demoState).2.audio_len = 3 ∧
    (platformLoadWAV (oneFile "a.wav" (demoHeader 3 ++ [9, 8, 7, 6])) "a.wav"
      demoState).2.heap.load 6 = some [9, 8, 7] ∧
    (platformLoadWAV (oneFile "a.wav" (demoHeader 3 ++ [9, 8, 7, 6])) "a.wav"
      demoState).2.spec.freq = 8000 ∧
    (platformLoadWAV (oneFile "a.wav" (demoHeader 3 ++ [9, 8, 7, 6])) "a.wav"
      demoState).2.spec.format = 1 :=
  have h := platformLoadWAV_success (oneFile "a.wav" (demoHeader 3 ++ [9, 8, 7, 6])) "a.wav"
    (demoHeader 3 ++ [9, 8, 7, 6]) demoState rfl (by decide) (by decide)
  ⟨h.1, h.2.1, h.2.2.1, h.2.2.2.2.1, h.2.2.2.2.2.2.2.1⟩

/-- C8, as stated, fails for a sample rate field of 2^31 or more: a file whose
header holds FF FF FF FF at bytes [24..28) (and declares no payload) is decoded
successfully, the field is 4294967295, and `spec.freq`, an `int`, is -1. -/
theorem platformLoadWAV_freq_wraps :
    (platformLoadWAV (oneFile "a.wav" (freqHeader 255)) "a.wav" demoState).1 = 0 ∧
    readLE32 (freqHeader 255) 24 = 4294967295 ∧
    (platformLoadWAV (oneFile "a.wav" (freqHeader 255)) "a.wav" demoState).2.spec.freq = -1 := by
  decide

/-- C9. For a file with a complete 44-byte header whose payload is shorter than
the declared `dataLength`, `platformLoadWAV` returns -1, has freed the block it
allocated, so that the heap holds exactly the blocks it held before the call,
and leaves the caller's `spec` as it was. -/
theorem platformLoadWAV_short_payload (fs : String → Option (List Byte)) (filename : String)
    (data : List Byte) (st : WavState) (hf : fs filename = some data)
    (hh : 44 ≤ data.length) (hp : data.length < 44 + readLE32 data 40) :
    (platformLoadWAV fs filename st).1 = -1 ∧
    (platformLoadWAV fs filename st).2.heap = st.heap ∧
    (platformLoadWAV fs filename st).2.spec = st.spec := by
  have hlen : ((data.drop 44).take (readLE32 data 40)).length ≠ readLE32 data 40 := by
    rw [List.length_take, List.length_drop]; omega
  have hhead : (data.take 44).length = 44 := by
    rw [List.length_take]; omega
  unfold platformLoadWAV
  rw [hf]
  simp only
  rw [if_neg (by omega), readLE32_take data 40 (by omega), if_pos hlen]
  exact ⟨rfl, free_store_malloc _ _ _, rfl⟩

/-- Witness of C9: a header declaring 200 payload bytes followed by 5 bytes. -/
theorem platformLoadWAV_short_payload_witness :
    (platformLoadWAV (oneFile "a.wav" (demoHeader 200 ++ [7, 7, 7, 7, 7])) "a.wav"
      demoState).1 = -1 ∧
    (platformLoadWAV (oneFile "a.wav" (demoHeader 200 ++ [7, 7, 7, 7, 7])) "a.wav"
      demoState).2.heap = demoState.heap ∧
    (platformLoadWAV (oneFile "a.wav" (demoHeader 200 ++ [7, 7, 7, 7, 7])) "a.wav"
      demoState).2.spec = demoState.spec :=
  platformLoadWAV_short_payload (oneFile "a.wav" (demoHeader 200 ++ [7, 7, 7, 7, 7]))
    "a.wav" (demoHeader 200 ++ [7, 7, 7, 7, 7]) demoState rfl (by decide) (by decide)

/-- C10. For a file shorter than 44 bytes, `platformLoadWAV` returns -1, leaves
`spec`, `audio_buf` and `audio_len` as they were, and allocates nothing: the
heap is as before. -/
theorem platformLoadWAV_short_header (fs : String → Option (List Byte)) (filename : String)
    (data : List Byte) (st : WavState) (hf : fs filename = some data)
    (hh : data.length < 44) :
    (platformLoadWAV fs filename st).1 = -1 ∧
    (platformLoadWAV fs filename st).2.spec = st.spec ∧
    (platformLoadWAV fs filename st).2.audio_buf = st.audio_buf ∧
    (platformLoadWAV fs filename st).2.audio_len = st.audio_len ∧
    (platformLoadWAV fs filename st).2.heap = st.heap := by
  have hhead : (data.take 44).length ≠ 44 := by
    rw [List.length_take]; omega
  unfold platformLoadWAV
  rw [hf]
  simp only
  rw [if_pos hhead]
  exact ⟨rfl, rfl, rfl, rfl, rfl⟩

/-- Witness of C10: a file of 43 bytes. -/
theorem platformLoadWAV_short_header_witness :
    (platformLoadWAV (oneFile "a.wav" (List.replicate 43 1)) "a.wav" demoState).1 = -1 ∧
    (platformLoadWAV (oneFile "a.wav" (List.replicate 43 1)) "a.wav" demoState).2.spec
      = demoState.spec ∧
    (platformLoadWAV (oneFile "a.wav" (List.replicate 43 1)) "a.wav" demoState).2.audio_buf
      = demoState.audio_buf ∧
    (platformLoadWAV (oneFile "a.wav" (List.replicate 43 1)) "a.wav" demoState).2.audio_len
      = demoState.audio_len ∧
    (platformLoadWAV (oneFile "a.wav" (List.replicate 43 1)) "a.wav" demoState).2.heap
      = demoState.heap :=
  platformLoadWAV_short_header (oneFile "a.wav" (List.replicate 43 1)) "a.wav"
    (List.replicate 43 1) demoState rfl (by decide)

/-! ## Single-precision arithmetic -/

/-- With enough fuel, `bitLength` is the number of binary digits. -/
theorem bitLength_spec (fuel : Nat) :
    ∀ n : Nat, n ≤ fuel → 0 < n →
      0 < bitLength fuel n ∧ 2 ^ (bitLength fuel n - 1) ≤ n ∧ n < 2 ^ bitLength fuel n := by
  induction fuel with
  | zero => intro n h1 h2; omega
  | succ fuel ih =>
    intro n h1 h2
    unfold bitLength
    rw [if_neg (by omega)]
    by_cases h : n / 2 = 0
    · have hn : n = 1 := by omega
      subst hn
      cases fuel with
      | zero => simp [bitLength]
      | succ f => simp [bitLength]
    · obtain ⟨i1, i2, i3⟩ := ih (n / 2) (by omega) (by omega)
      refine ⟨by omega, ?_, ?_⟩
      · have e : bitLength fuel (n / 2) + 1 - 1 = (bitLength fuel (n / 2) - 1) + 1 := by omega
        rw [e, Nat.pow_succ]
        omega
      · rw [Nat.pow_succ]
        omega

theorem ilog2_spec (n : Nat) (h : 0 < n) : 2 ^ ilog2 n ≤ n ∧ n < 2 ^ (ilog2 n + 1) := by
  obtain ⟨i1, i2, i3⟩ := bitLength_spec n n (le_refl n) h
  unfold ilog2
  have e : bitLength n n - 1 + 1 = bitLength n n := by omega
  rw [e]
  exact ⟨i2, i3⟩

/-- The scaling chosen by `roundPos` before its adjustment: the scaled quotient
`num0 / den` lies in `[2^22, 2^24)`. -/
theorem roundPos_scaled (p q : Nat) (hp : 0 < p) (hq : 0 < q) :
    q * 2 ^ ((ilog2 p : Int) - (ilog2 q : Int) - 23).toNat * 2 ^ 23
      ≤ 2 * (p * 2 ^ (-((ilog2 p : Int) - (ilog2 q : Int) - 23)).toNat) ∧
    p * 2 ^ (-((ilog2 p : Int) - (ilog2 q : Int) - 23)).toNat
      < q * 2 ^ ((ilog2 p : Int) - (ilog2 q : Int) - 23).toNat * 2 ^ 24 := by
  obtain ⟨p1, p2⟩ := ilog2_spec p hp
  obtain ⟨q1, q2⟩ := ilog2_spec q hq
  by_cases hc : 0 ≤ (ilog2 p : Int) - (ilog2 q : Int) - 23
  · have e1 : (-((ilog2 p : Int) - (ilog2 q : Int) - 23)).toNat = 0 := by omega
    rw [e1, Nat.pow_zero, Nat.mul_one]
    constructor
    · calc q * 2 ^ ((ilog2 p : Int) - (ilog2 q : Int) - 23).toNat * 2 ^ 23
          ≤ 2 ^ (ilog2 q + 1) * 2 ^ ((ilog2 p : Int) - (ilog2 q : Int) - 23).toNat * 2 ^ 23 :=
            Nat.mul_le_mul_right _ (Nat.mul_le_mul_right _ (le_of_lt q2))
        _ = 2 ^ (ilog2 q + 1 + ((ilog2 p : Int) - (ilog2 q : Int) - 23).toNat + 23) := by ring
        _ = 2 ^ (ilog2 p + 1) := by congr 1; omega
        _ = 2 * 2 ^ ilog2 p := by ring
        _ ≤ 2 * p := Nat.mul_le_mul_left _ p1
    · calc p < 2 ^ (ilog2 p + 1) := p2
        _ = 2 ^ (ilog2 q + ((ilog2 p : Int) - (ilog2 q : Int) - 23).toNat + 24) := by
            congr 1; omega
        _ = 2 ^ ilog2 q * 2 ^ ((ilog2 p : Int) - (ilog2 q : Int) - 23).toNat * 2 ^ 24 := by ring
        _ ≤ q * 2 ^ ((ilog2 p : Int) - (ilog2 q : Int) - 23).toNat * 2 ^ 24 :=
            Nat.mul_le_mul_right _ (Nat.mul_le_mul_right _ q1)
  · have e1 : ((ilog2 p : Int) - (ilog2 q : Int) - 23).toNat = 0 := by omega
    rw [e1, Nat.pow_zero, Nat.mul_one]
    constructor
    · calc q * 2 ^ 23 ≤ 2 ^ (ilog2 q + 1) * 2 ^ 23 := Nat.mul_le_mul_right _ (le_of_lt q2)
        _ = 2 ^ (ilog2 q + 1 + 23) := by ring
        _ = 2 ^ (ilog2 p + (-((ilog2 p : Int) - (ilog2 q : Int) - 23)).toNat + 1) := by
            congr 1; omega
        _ = 2 * (2 ^ ilog2 p * 2 ^ (-((ilog2 p : Int) - (ilog2 q : Int) - 23)).toNat) := by ring
        _ ≤ 2 * (p * 2 ^ (-((ilog2 p : Int) - (ilog2 q : Int) - 23)).toNat) :=
            Nat.mul_le_mul_left _ (Nat.mul_le_mul_right _ p1)
    · calc p * 2 ^ (-((ilog2 p : Int) - (ilog2 q : Int) - 23)).toNat
          < 2 ^ (ilog2 p + 1) * 2 ^ (-((ilog2 p : Int) - (ilog2 q : Int) - 23)).toNat :=
            Nat.mul_lt_mul_of_pos_right p2 (Nat.pow_pos (by omega))
        _ = 2 ^ (ilog2 p + 1 + (-((ilog2 p : Int) - (ilog2 q : Int) - 23)).toNat) := by ring
        _ = 2 ^ (ilog2 q + 24) := by congr 1; omega
        _ = 2 ^ ilog2 q * 2 ^ 24 := by ring
        _ ≤ q * 2 ^ 24 := Nat.mul_le_mul_right _ q1

/-- Rounding a scaled quotient `num / den` with `den * 2^23 ≤ num < den * 2^24`
to the nearest integer, ties to even, gives an integer `m` in `[2^23, 2^24]`
at distance at most one half from `num / den`. -/
theorem nearest_of_scaled (num den : Nat) (hden : 0 < den) (h1 : den * 2 ^ 23 ≤ num)
    (h2 : num < den * 2 ^ 24) :
    2 ^ 23 ≤ roundHalfEven num den ∧ roundHalfEven num den ≤ 2 ^ 24 ∧
    2 * ((roundHalfEven num den : Int) * den - num).natAbs ≤ den := by
  have hlo : 2 ^ 23 ≤ num / den := (Nat.le_div_iff_mul_le hden).mpr (by rw [Nat.mul_comm]; exact h1)
  have hhi : num / den < 2 ^ 24 := (Nat.div_lt_iff_lt_mul hden).mpr (by rw [Nat.mul_comm]; exact h2)
  have hdm := Nat.div_add_mod num den
  have hr := Nat.mod_lt num hden
  have hmul : ((num / den : Nat) : Int) * den = (num : Int) - (num % den : Nat) := by
    have : (den : Int) * (num / den : Nat) + (num % den : Nat) = num := by exact_mod_cast hdm
    linarith
  unfold roundHalfEven
  split_ifs with hc
  · refine ⟨by omega, by omega, ?_⟩
    have e : (((num / den + 1 : Nat) : Int)) * den
        = (num : Int) - (num % den : Nat) + den := by
      push_cast at hmul ⊢
      linarith
    rw [e]
    omega
  · refine ⟨by omega, by omega, ?_⟩
    rw [hmul]
    omega

/-- The value `roundPos` returns is a nearest single-precision value: its
significand `m` lies in `[2^23, 2^24]` and `m * 2^e` differs from `p / q` by at
most half a unit of the last place, `2^e / 2` (stated with the denominators
cleared). -/
theorem roundPos_nearest (p q : Nat) (hp : 0 < p) (hq : 0 < q) :
    2 ^ 23 ≤ (roundPos p q).m ∧ (roundPos p q).m ≤ 2 ^ 24 ∧
    2 * ((roundPos p q).m * ((q * 2 ^ (roundPos p q).e.toNat : Nat) : Int)
        - ((p * 2 ^ (-(roundPos p q).e).toNat : Nat) : Int)).natAbs
      ≤ q * 2 ^ (roundPos p q).e.toNat := by
  obtain ⟨s1, s2⟩ := roundPos_scaled p q hp hq
  have hden : 0 < q * 2 ^ ((ilog2 p : Int) - (ilog2 q : Int) - 23).toNat :=
    Nat.mul_pos hq (Nat.pow_pos (by omega))
  by_cases c : p * 2 ^ (-((ilog2 p : Int) - (ilog2 q : Int) - 23)).toNat
      < q * 2 ^ ((ilog2 p : Int) - (ilog2 q : Int) - 23).toNat * 2 ^ 23
  · obtain ⟨n1, n2, n3⟩ := nearest_of_scaled
      (2 * (p * 2 ^ (-((ilog2 p : Int) - (ilog2 q : Int) - 23)).toNat))
      (q * 2 ^ ((ilog2 p : Int) - (ilog2 q : Int) - 23).toNat) hden s1 (by omega)
    simp only [roundPos, c, if_true]
    refine ⟨by exact_mod_cast n1, by exact_mod_cast n2, ?_⟩
    generalize roundHalfEven (2 * (p * 2 ^ (-((ilog2 p : Int) - (ilog2 q : Int) - 23)).toNat))
      (q * 2 ^ ((ilog2 p : Int) - (ilog2 q : Int) - 23).toNat) = m at n3 ⊢
    by_cases hc : 1 ≤ (ilog2 p : Int) - (ilog2 q : Int) - 23
    · have e1 : (-((ilog2 p : Int) - (ilog2 q : Int) - 23)).toNat = 0 := by omega
      have e2 : (-((ilog2 p : Int) - (ilog2 q : Int) - 23 - 1)).toNat = 0 := by omega
      have e3 : ((ilog2 p : Int) - (ilog2 q : Int) - 23).toNat
          = ((ilog2 p : Int) - (ilog2 q : Int) - 23 - 1).toNat + 1 := by omega
      rw [e1, e3] at n3
      rw [e2]
      generalize ((ilog2 p : Int) - (ilog2 q : Int) - 23 - 1).toNat = k at n3 ⊢
      have key : (m : Int) * ((q * 2 ^ (k + 1) : Nat) : Int) - ((2 * (p * 2 ^ 0) : Nat) : Int)
          = 2 * ((m : Int) * ((q * 2 ^ k : Nat) : Int) - ((p * 2 ^ 0 : Nat) : Int)) := by
        push_cast; ring
      rw [key, Int.natAbs_mul] at n3
      have e4 : q * 2 ^ (k + 1) = 2 * (q * 2 ^ k) := by ring
      rw [e4] at n3
      simp only [Int.reduceAbs, Int.natAbs_ofNat] at n3
      omega
    · have e1 : ((ilog2 p : Int) - (ilog2 q : Int) - 23).toNat = 0 := by omega
      have e2 : ((ilog2 p : Int) - (ilog2 q : Int) - 23 - 1).toNat = 0 := by omega
      have e3 : (-((ilog2 p : Int) - (ilog2 q : Int) - 23 - 1)).toNat
          = (-((ilog2 p : Int) - (ilog2 q : Int) - 23)).toNat + 1 := by omega
      rw [e1] at n3
      rw [e2, e3]
      generalize (-((ilog2 p : Int) - (ilog2 q : Int) - 23)).toNat = k at n3 ⊢
      have e4 : p * 2 ^ (k + 1) = 2 * (p * 2 ^ k) := by ring
      rw [e4]
      exact n3
  · obtain ⟨n1, n2, n3⟩ := nearest_of_scaled
      (p * 2 ^ (-((ilog2 p : Int) - (ilog2 q : Int) - 23)).toNat)
      (q * 2 ^ ((ilog2 p : Int) - (ilog2 q : Int) - 23).toNat) hden (by omega) s2
    simp only [roundPos, c, if_false]
    exact ⟨by exact_mod_cast n1, by exact_mod_cast n2, n3⟩

/-- The exponent `roundPos` chooses is the difference of the leading digit
positions minus 23, or one less. -/
theorem roundPos_exponent (p q : Nat) :
    (roundPos p q).e = (ilog2 p : Int) - (ilog2 q : Int) - 23 ∨
    (roundPos p q).e = (ilog2 p : Int) - (ilog2 q : Int) - 23 - 1 := by
  unfold roundPos
  simp only
  split_ifs
  · exact Or.inr rfl
  · exact Or.inl rfl

/-- The conversion `(float)n` is exact for `0 < n < 2^24`: the value
`m * 2^e` is `n`. -/
theorem f32OfInt_exact (n : Int) (h0 : 0 < n) (h : n < 2 ^ 24) :
    (f32OfInt n).e ≤ 0 ∧ (f32OfInt n).m = n * 2 ^ (-(f32OfInt n).e).toNat := by
  have hn : 0 < n.natAbs := by omega
  obtain ⟨l1, _⟩ := ilog2_spec n.natAbs hn
  have hlog : ilog2 n.natAbs < 24 := by
    by_contra hc
    have : 2 ^ 24 ≤ 2 ^ ilog2 n.natAbs := Nat.pow_le_pow_right (by omega) (by omega)
    omega
  have hone : ilog2 1 = 0 := by decide
  obtain ⟨_, _, n3⟩ := roundPos_nearest n.natAbs 1 hn (by omega)
  have he := roundPos_exponent n.natAbs 1
  rw [hone] at he
  have hr : f32OfInt n = roundPos n.natAbs 1 := by
    unfold f32OfInt roundQ
    rw [if_neg (by omega)]
    simp only [Int.natAbs_one]
    rw [if_pos (Or.inr ⟨h0, by omega⟩)]
  rw [hr]
  have hle : (roundPos n.natAbs 1).e ≤ 0 := by omega
  refine ⟨hle, ?_⟩
  have e0 : (roundPos n.natAbs 1).e.toNat = 0 := by omega
  rw [e0] at n3
  simp only [Nat.pow_zero, Nat.mul_one, Nat.cast_one, mul_one, Nat.cast_mul, Nat.cast_pow,
    Nat.cast_ofNat] at n3
  have hnat : ((n.natAbs : Nat) : Int) = n := by omega
  rw [hnat] at n3
  omega

/-- The conversion `(int)a` of a non-negative `float` is the integer part of
its value: `(int)a ≤ m * 2^e < (int)a + 1`, with the denominator cleared. -/
theorem f32ToInt_floor (a : F32) (h : 0 ≤ a.m) :
    f32ToInt a * 2 ^ (-a.e).toNat ≤ a.m * 2 ^ a.e.toNat ∧
    a.m * 2 ^ a.e.toNat < (f32ToInt a + 1) * 2 ^ (-a.e).toNat := by
  have hpos : (0 : Int) < 2 ^ (-a.e).toNat := pow_pos (by omega) _
  have hnum : (0 : Int) ≤ a.m * 2 ^ a.e.toNat := mul_nonneg h (pow_nonneg (by omega) _)
  unfold f32ToInt
  rw [Int.tdiv_eq_ediv hnum (le_of_lt hpos)]
  exact ⟨Int.ediv_mul_le _ (ne_of_gt hpos), Int.lt_ediv_add_one_mul_self _ hpos⟩

/-- The significand of a rounded positive rational is positive. -/
theorem roundPos_pos (p q : Nat) (hp : 0 < p) (hq : 0 < q) : 0 < (roundPos p q).m := by
  have := (roundPos_nearest p q hp hq).1
  omega

theorem roundQ_ne_zero (n d : Int) (hn : n ≠ 0) (hd : d ≠ 0) : (roundQ n d).m ≠ 0 := by
  have h := roundPos_pos n.natAbs d.natAbs (by omega) (by omega)
  unfold roundQ
  rw [if_neg hn]
  simp only
  split_ifs
  · omega
  · simp only; omega

theorem f32OfInt_ne_zero (n : Int) (hn : n ≠ 0) : (f32OfInt n).m ≠ 0 :=
  roundQ_ne_zero n 1 hn (by omega)

/-- A `float` division of non-zero values has a non-zero result. -/
theorem f32Div_ne_zero (a b : F32) (ha : a.m ≠ 0) (hb : b.m ≠ 0) :
    ∃ q, f32Div a b = some q ∧ q.m ≠ 0 := by
  unfold f32Div
  rw [if_neg hb]
  refine ⟨_, rfl, roundQ_ne_zero _ _ ?_ ?_⟩
  · exact mul_ne_zero ha (pow_ne_zero _ (by omega))
  · exact mul_ne_zero hb (pow_ne_zero _ (by omega))

/-- The conversion `(float)n` of a positive `int` is positive. -/
theorem f32OfInt_pos (n : Int) (hn : 0 < n) : 0 < (f32OfInt n).m := by
  have h := roundPos_pos n.natAbs 1 (by omega) (by omega)
  unfold f32OfInt roundQ
  rw [if_neg (by omega)]
  simp only [Int.natAbs_one]
  rw [if_pos (Or.inr ⟨hn, by omega⟩)]
  exact h

/-- On finite non-zero operands the division is the finite division. -/
theorem F32X.div_finite (a b q : F32) (ha : a.m ≠ 0) (hb : b.m ≠ 0) (hq : f32Div a b = some q) :
    F32X.div (F32X.finite a) (F32X.finite b) = F32X.finite q := by
  simp [F32X.div, F32X.isNan, F32X.isInf, F32X.isZero, F32X.mag, ha, hb, hq]

/-- On finite non-zero operands the product is the finite product. -/
theorem F32X.mul_finite (a b : F32) (ha : a.m ≠ 0) (hb : b.m ≠ 0) :
    F32X.mul (F32X.finite a) (F32X.finite b) = F32X.finite (f32Mul a b) := by
  simp [F32X.mul, F32X.isNan, F32X.isInf, F32X.isZero, F32X.mag, ha, hb]

/-- On finite operands the comparison is the finite comparison. -/
theorem F32X.gt_finite (a b : F32) : F32X.gt (F32X.finite a) (F32X.finite b) ↔ f32Gt a b := by
  simp [F32X.gt, F32X.isNan, F32X.mag]

/-- A value that is neither an infinity nor NaN converts to `int`. -/
theorem F32X.toInt_defined (x : F32X) (h1 : x.isInf = false) (h2 : x.isNan = false) :
    ∃ v, x.toInt = some v := by
  cases x with
  | finite y => exact ⟨_, rfl⟩
  | negZero => exact ⟨_, rfl⟩
  | posInf => simp [F32X.isInf] at h1
  | negInf => simp [F32X.isInf] at h1
  | nan => simp [F32X.isNan] at h2

theorem signedZero_regular (b : Bool) :
    (signedZero b).isInf = false ∧ (signedZero b).isNan = false := by
  cases b <;> simp [signedZero, F32X.isInf, F32X.isNan]

/-- The product of two finite values, and the quotient of a finite value by a
finite non-zero value or by an infinity, is neither an infinity nor NaN. -/
theorem F32X.regular_results (a S : F32) :
    ((F32X.mul (F32X.finite a) (F32X.finite S)).isInf = false ∧
      (F32X.mul (F32X.finite a) (F32X.finite S)).isNan = false) ∧
    (S.m ≠ 0 → (F32X.div (F32X.finite a) (F32X.finite S)).isInf = false ∧
      (F32X.div (F32X.finite a) (F32X.finite S)).isNan = false) ∧
    ((F32X.div (F32X.finite a) F32X.posInf).isInf = false ∧
      (F32X.div (F32X.finite a) F32X.posInf).isNan = false) := by
  refine ⟨?_, ?_, ?_⟩
  · by_cases hz : a.m = 0 ∨ S.m = 0
    · have e : F32X.mul (F32X.finite a) (F32X.finite S)
          = signedZero (xor (F32X.finite a).neg (F32X.finite S).neg) := by
        simp [F32X.mul, F32X.isNan, F32X.isInf, F32X.isZero, hz]
      rw [e]
      exact signedZero_regular _
    · have e : F32X.mul (F32X.finite a) (F32X.finite S) = F32X.finite (f32Mul a S) :=
        F32X.mul_finite a S (fun h => hz (Or.inl h)) (fun h => hz (Or.inr h))
      rw [e]
      exact ⟨rfl, rfl⟩
  · intro hS
    by_cases hz : a.m = 0
    · have e : F32X.div (F32X.finite a) (F32X.finite S)
          = signedZero (xor (F32X.finite a).neg (F32X.finite S).neg) := by
        simp [F32X.div, F32X.isNan, F32X.isInf, F32X.isZero, hz, hS]
      rw [e]
      exact signedZero_regular _
    · obtain ⟨q, hq, _⟩ := f32Div_ne_zero a S hz hS
      rw [F32X.div_finite a S q hz hS hq]
      exact ⟨rfl, rfl⟩
  · have e : F32X.div (F32X.finite a) F32X.posInf
        = signedZero (xor (F32X.finite a).neg F32X.posInf.neg) := by
      simp [F32X.div, F32X.isNan, F32X.isInf]
    rw [e]
    exact signedZero_regular _

/-- The aspect ratio of a surface of positive width is plus infinity (height
0) or a finite non-zero value. -/
theorem surfaceAspect_cases (w h : Int) (hw : 0 < w) :
    F32X.div (F32X.ofInt w) (F32X.ofInt h) = F32X.posInf ∨
    ∃ S, F32X.div (F32X.ofInt w) (F32X.ofInt h) = F32X.finite S ∧ S.m ≠ 0 := by
  have hwm := f32OfInt_pos w hw
  by_cases hh : h = 0
  · left
    subst hh
    have e0 : f32OfInt 0 = { m := 0, e := 0 } := by decide
    have hneg : ¬ (f32OfInt w).m < 0 := by omega
    have hnz : ¬ (f32OfInt w).m = 0 := by omega
    simp [F32X.div, F32X.ofInt, F32X.isNan, F32X.isInf, F32X.isZero, F32X.neg, e0, signedInf,
      hneg, hnz]
  · right
    obtain ⟨S, hS, hS0⟩ := f32Div_ne_zero (f32OfInt w) (f32OfInt h) (by omega)
      (f32OfInt_ne_zero h hh)
    exact ⟨S, F32X.div_finite _ _ S (by omega) (f32OfInt_ne_zero h hh) hS, hS0⟩

/-- For a surface of positive width the letterbox computation has a result,
whatever the surface height and the client size. -/
theorem letterbox_defined (w h cw ch : Int) (hw : 0 < w) :
    ∃ d, Windows.letterbox w h cw ch = some d := by
  unfold Windows.letterbox
  simp only
  rcases surfaceAspect_cases w h hw with hS | ⟨S, hS, hS0⟩
  · rw [hS]
    have hgt : ¬ F32X.gt (F32X.div (F32X.ofInt cw) (F32X.ofInt ch)) F32X.posInf := by
      unfold F32X.gt
      intro hc
      obtain ⟨_, _, h3⟩ := hc
      split_ifs at h3 <;> simp_all
    rw [if_neg hgt]
    obtain ⟨v, hv⟩ := F32X.toInt_defined _
      (F32X.regular_results (f32OfInt cw) (f32OfInt cw)).2.2.1
      (F32X.regular_results (f32OfInt cw) (f32OfInt cw)).2.2.2
    unfold F32X.ofInt
    rw [hv]
    exact ⟨_, rfl⟩
  · rw [hS]
    split_ifs
    · obtain ⟨v, hv⟩ := F32X.toInt_defined _ (F32X.regular_results (f32OfInt ch) S).1.1
        (F32X.regular_results (f32OfInt ch) S).1.2
      unfold F32X.ofInt
      rw [hv]
      exact ⟨_, rfl⟩
    · obtain ⟨v, hv⟩ := F32X.toInt_defined _ ((F32X.regular_results (f32OfInt cw) S).2.1 hS0).1
        ((F32X.regular_results (f32OfInt cw) S).2.1 hS0).2
      unfold F32X.ofInt
      rw [hv]
      exact ⟨_, rfl⟩

/-! ## Claims on `platformUpdateWindow` -/

/-- C11, as amended. For positive surface and client sizes the letterbox of
the Windows `platformUpdateWindow` is computed in single precision and
truncated, not rounded to nearest: with S and C the single-precision quotients
w/h and cw/ch, if C > S then destHeight = ch, destWidth is the single-precision
product ch*S with its fraction dropped, destX = (cw - destWidth)/2 and
destY = 0; otherwise destWidth = cw, destHeight is the single-precision
quotient cw/S with its fraction dropped, destX = 0 and
destY = (ch - destHeight)/2 (integer divisions of C). A rectangle is always
produced. -/
theorem letterbox_truncates (w h cw ch : Int) (hw : 0 < w) (hh : 0 < h) (hcw : 0 < cw)
    (hch : 0 < ch) :
    ∃ S C, f32Div (f32OfInt w) (f32OfInt h) = some S ∧
      f32Div (f32OfInt cw) (f32OfInt ch) = some C ∧
      (f32Gt C S → Windows.letterbox w h cw ch =
        some { destX := Int.tdiv (cw - f32ToInt (f32Mul (f32OfInt ch) S)) 2, destY := 0,
               destWidth := f32ToInt (f32Mul (f32OfInt ch) S), destHeight := ch }) ∧
      (¬ f32Gt C S → ∃ q, f32Div (f32OfInt cw) S = some q ∧
        Windows.letterbox w h cw ch =
          some { destX := 0, destY := Int.tdiv (ch - f32ToInt q) 2,
                 destWidth := cw, destHeight := f32ToInt q }) := by
  obtain ⟨S, hS, hS0⟩ := f32Div_ne_zero (f32OfInt w) (f32OfInt h)
    (f32OfInt_ne_zero w (by omega)) (f32OfInt_ne_zero h (by omega))
  obtain ⟨C, hC, hC0⟩ := f32Div_ne_zero (f32OfInt cw) (f32OfInt ch)
    (f32OfInt_ne_zero cw (by omega)) (f32OfInt_ne_zero ch (by omega))
  obtain ⟨q, hq, _⟩ := f32Div_ne_zero (f32OfInt cw) S (f32OfInt_ne_zero cw (by omega)) hS0
  have eS : F32X.div (F32X.ofInt w) (F32X.ofInt h) = F32X.finite S :=
    F32X.div_finite _ _ S (f32OfInt_ne_zero w (by omega)) (f32OfInt_ne_zero h (by omega)) hS
  have eC : F32X.div (F32X.ofInt cw) (F32X.ofInt ch) = F32X.finite C :=
    F32X.div_finite _ _ C (f32OfInt_ne_zero cw (by omega)) (f32OfInt_ne_zero ch (by omega)) hC
  refine ⟨S, C, hS, hC, ?_, ?_⟩
  · intro hgt
    unfold Windows.letterbox
    simp only
    rw [eS, eC, if_pos ((F32X.gt_finite C S).mpr hgt)]
    unfold F32X.ofInt
    rw [F32X.mul_finite _ _ (f32OfInt_ne_zero ch (by omega)) hS0]
    rfl
  · intro hgt
    refine ⟨q, hq, ?_⟩
    unfold Windows.letterbox
    simp only
    rw [eS, eC, if_neg (fun h => hgt ((F32X.gt_finite C S).mp h))]
    unfold F32X.ofInt
    rw [F32X.div_finite _ _ q (f32OfInt_ne_zero cw (by omega)) hS0 hq]
    rfl

/-- Witness of C11 as amended: a 640x480 surface in a 1000x401 client area. -/
theorem letterbox_truncates_witness :
    ∃ S C, f32Div (f32OfInt 640) (f32OfInt 480) = some S ∧
      f32Div (f32OfInt 1000) (f32OfInt 401) = some C ∧
      (f32Gt C S → Windows.letterbox 640 480 1000 401 =
        some { destX := Int.tdiv (1000 - f32ToInt (f32Mul (f32OfInt 401) S)) 2, destY := 0,
               destWidth := f32ToInt (f32Mul (f32OfInt 401) S), destHeight := 401 }) ∧
      (¬ f32Gt C S → ∃ q, f32Div (f32OfInt 1000) S = some q ∧
        Windows.letterbox 640 480 1000 401 =
          some { destX := 0, destY := Int.tdiv (401 - f32ToInt q) 2,
                 destWidth := 1000, destHeight := f32ToInt q }) :=
  letterbox_truncates 640 480 1000 401 (by decide) (by decide) (by decide) (by decide)

/-- C11, as stated, fails: for a 640x480 surface in a 1000x401 client area the
rule with rounding to nearest gives destWidth = round(534.67) = 535 and
destX = 232, the code computes destWidth = 534 and destX = 233. -/
theorem letterbox_rounding_counterexample :
    Windows.letterbox 640 480 1000 401
      = some { destX := 233, destY := 0, destWidth := 534, destHeight := 401 } ∧
    letterboxRule 640 480 1000 401
      = { destX := 232, destY := 0, destWidth := 535, destHeight := 401 } ∧
    Windows.letterbox 640 480 1000 401 ≠ some (letterboxRule 640 480 1000 401) := by
  refine ⟨by decide, by decide, by decide⟩

/-- C12. Presenting a 640x480 surface into a 1000x400 client area computes
destHeight = 400, destWidth = 533, destX = 233 and destY = 0 (and paints the
columns [0,233) and [766,1000) black). -/
theorem letterbox_example (s : PlatformSurface) (hw : s.width = 640) (hh : s.height = 480) :
    Windows.platformUpdateWindow (some s) 1000 400
      = Presented.drawn
          [{ left := 0, top := 0, right := 233, bottom := 400 },
           { left := 766, top := 0, right := 1000, bottom := 400 }]
          { destX := 233, destY := 0, destWidth := 533, destHeight := 400 } := by
  have e : Windows.letterbox 640 480 1000 400
      = some { destX := 233, destY := 0, destWidth := 533, destHeight := 400 } := by decide
  unfold Windows.platformUpdateWindow
  simp only
  rw [hw, hh, e]
  rfl

/-- Witness of C12: the surface `surfaceOfSize 640 480`. -/
theorem letterbox_example_witness :
    Windows.platformUpdateWindow (some (surfaceOfSize 640 480)) 1000 400
      = Presented.drawn
          [{ left := 0, top := 0, right := 233, bottom := 400 },
           { left := 766, top := 0, right := 1000, bottom := 400 }]
          { destX := 233, destY := 0, destWidth := 533, destHeight := 400 } :=
  letterbox_example (surfaceOfSize 640 480) rfl rfl

/-- The letterbox rectangle always spans the client height from the top or the
client width from the left. -/
theorem letterbox_shape (w h cw ch : Int) (d : DestRect)
    (hd : Windows.letterbox w h cw ch = some d) :
    (d.destY = 0 ∧ d.destHeight = ch) ∨ (d.destX = 0 ∧ d.destWidth = cw) := by
  unfold Windows.letterbox at hd
  simp only at hd
  split_ifs at hd with hgt
  · cases hv : F32X.toInt (F32X.mul (F32X.ofInt ch)
        (F32X.div (F32X.ofInt w) (F32X.ofInt h))) with
    | none => rw [hv] at hd; simp at hd
    | some v =>
      rw [hv] at hd
      simp only [Option.some.injEq] at hd
      subst hd
      exact Or.inl ⟨rfl, rfl⟩
  · cases hv : F32X.toInt (F32X.div (F32X.ofInt cw)
        (F32X.div (F32X.ofInt w) (F32X.ofInt h))) with
    | none => rw [hv] at hd; simp at hd
    | some v =>
      rw [hv] at hd
      simp only [Option.some.injEq] at hd
      subst hd
      exact Or.inr ⟨rfl, rfl⟩

/-- When the destination rectangle is offset from the client origin, the
destination rectangle and the rectangles painted black cover the client
area. -/
theorem borders_cover (w h cw ch : Int) (d : DestRect)
    (hd : Windows.letterbox w h cw ch = some d) (hoff : d.destX > 0 ∨ d.destY > 0)
    (px py : Int) (hx : 0 ≤ px ∧ px < cw) (hy : 0 ≤ py ∧ py < ch) :
    d.Contains px py ∨ ∃ r ∈ Windows.borders d cw ch, r.Contains px py := by
  have shape := letterbox_shape w h cw ch d hd
  unfold Windows.borders
  rw [if_pos hoff]
  unfold DestRect.Contains
  rcases shape with ⟨h1, h2⟩ | ⟨h1, h2⟩
  · have hx0 : d.destX > 0 := by omega
    rw [if_pos hx0, if_neg (by omega)]
    simp only [List.append_nil, List.mem_cons, List.mem_singleton, RECT.Contains]
    by_cases c1 : px < d.destX
    · exact Or.inr ⟨_, Or.inl rfl, by simp only; omega⟩
    · by_cases c2 : px < d.destX + d.destWidth
      · exact Or.inl (by omega)
      · exact Or.inr ⟨_, Or.inr (Or.inl rfl), by simp only; omega⟩
  · have hy0 : d.destY > 0 := by omega
    rw [if_neg (by omega), if_pos hy0]
    simp only [List.nil_append, List.mem_cons, List.mem_singleton, RECT.Contains]
    by_cases c1 : py < d.destY
    · exact Or.inr ⟨_, Or.inl rfl, by simp only; omega⟩
    · by_cases c2 : py < d.destY + d.destHeight
      · exact Or.inl (by omega)
      · exact Or.inr ⟨_, Or.inr (Or.inl rfl), by simp only; omega⟩

/-- C13, at the failing input. A 640x480 surface in a 641x480 client area is
drawn into (0, 0, 640, 480) and nothing is painted black: destX =
(641 - 640) / 2 = 0 skips the border fill, so the client pixel (640, 0) is
neither in the destination rectangle nor in a black rectangle. -/
theorem letterbox_margin_uncovered :
    Windows.platformUpdateWindow (some (surfaceOfSize 640 480)) 641 480
      = Presented.drawn [] { destX := 0, destY := 0, destWidth := 640, destHeight := 480 } ∧
    (0 ≤ (640 : Int) ∧ (640 : Int) < 641 ∧ 0 ≤ (0 : Int) ∧ (0 : Int) < 480) ∧
    ¬ DestRect.Contains { destX := 0, destY := 0, destWidth := 640, destHeight := 480 } 640 0 := by
  refine ⟨by decide, by decide, by decide⟩

/-- C14, as amended. The Linux and the web back end present the back buffer at
(0, 0) with the surface's own width and height, whatever the client area; only
the Windows back end presents into its letterbox rectangle, which spans the
client height from the top (destY = 0, destHeight = ch) or the client width
from the left (destX = 0, destWidth = cw).  For a surface of positive width the
Windows rectangle exists for every surface height and every client size, a
height or width of 0 included (a division by zero goes on with an infinity or
NaN).  Whenever the client area differs from the surface in both width and
height, what the Windows back end does differs from what Linux and web do. -/
theorem presentation_rects (s : PlatformSurface) (cw ch : Int) :
    Linux.platformUpdateWindow (some s) cw ch
      = Presented.drawn [] { destX := 0, destY := 0, destWidth := s.width,
                             destHeight := s.height } ∧
    Web.platformUpdateWindow (some s) cw ch
      = Presented.drawn [] { destX := 0, destY := 0, destWidth := s.width,
                             destHeight := s.height } ∧
    (∀ fills d, Windows.platformUpdateWindow (some s) cw ch = Presented.drawn fills d →
      Windows.letterbox s.width s.height cw ch = some d ∧
      ((d.destY = 0 ∧ d.destHeight = ch) ∨ (d.destX = 0 ∧ d.destWidth = cw)) ∧
      (cw ≠ s.width → ch ≠ s.height →
        Windows.platformUpdateWindow (some s) cw ch
          ≠ Linux.platformUpdateWindow (some s) cw ch)) ∧
    (0 < s.width →
      ∃ d, Windows.letterbox s.width s.height cw ch = some d ∧
        Windows.platformUpdateWindow (some s) cw ch
          = Presented.drawn (Windows.borders d cw ch) d ∧
        ((d.destY = 0 ∧ d.destHeight = ch) ∨ (d.destX = 0 ∧ d.destWidth = cw))) ∧
    (cw ≠ s.width → ch ≠ s.height →
      Windows.platformUpdateWindow (some s) cw ch
        ≠ Linux.platformUpdateWindow (some s) cw ch) := by
  have cond : ∀ fills d, Windows.platformUpdateWindow (some s) cw ch = Presented.drawn fills d →
      Windows.letterbox s.width s.height cw ch = some d ∧
      ((d.destY = 0 ∧ d.destHeight = ch) ∨ (d.destX = 0 ∧ d.destWidth = cw)) ∧
      (cw ≠ s.width → ch ≠ s.height →
        Windows.platformUpdateWindow (some s) cw ch
          ≠ Linux.platformUpdateWindow (some s) cw ch) := by
    intro fills d hwin
    have hd : Windows.letterbox s.width s.height cw ch = some d := by
      unfold Windows.platformUpdateWindow at hwin
      simp only at hwin
      cases hl : Windows.letterbox s.width s.height cw ch with
      | none => rw [hl] at hwin; simp at hwin
      | some d1 =>
        rw [hl] at hwin
        simp only [Presented.drawn.injEq] at hwin
        rw [hwin.2]
    have shape := letterbox_shape s.width s.height cw ch d hd
    refine ⟨hd, shape, ?_⟩
    intro h1 h2 heq
    rw [hwin] at heq
    unfold Linux.platformUpdateWindow at heq
    simp only [Presented.drawn.injEq] at heq
    obtain ⟨_, e⟩ := heq
    subst e
    simp only at shape
    omega
  refine ⟨rfl, rfl, cond, ?_, ?_⟩
  · intro hw
    obtain ⟨d, hd⟩ := letterbox_defined s.width s.height cw ch hw
    refine ⟨d, hd, ?_, letterbox_shape s.width s.height cw ch d hd⟩
    unfold Windows.platformUpdateWindow
    simp only
    rw [hd]
  · intro h1 h2
    cases hl : Windows.letterbox s.width s.height cw ch with
    | none =>
      unfold Windows.platformUpdateWindow Linux.platformUpdateWindow
      simp only
      rw [hl]
      simp
    | some d =>
      have hwin : Windows.platformUpdateWindow (some s) cw ch
          = Presented.drawn (Windows.borders d cw ch) d := by
        unfold Windows.platformUpdateWindow
        simp only
        rw [hl]
      exact (cond _ d hwin).2.2 h1 h2

/-- Witness of C14 as amended: a 640x480 surface in a 1000x400 client area,
and in a client area of height 0, where the quotient 1000/0 is plus infinity
and the rectangle is (500, 0, 0, 0). -/
theorem presentation_rects_witness :
    Windows.letterbox 640 480 1000 400
      = some { destX := 233, destY := 0, destWidth := 533, destHeight := 400 } ∧
    Windows.platformUpdateWindow (some (surfaceOfSize 640 480)) 1000 400
      ≠ Linux.platformUpdateWindow (some (surfaceOfSize 640 480)) 1000 400 ∧
    (∃ d, Windows.letterbox (surfaceOfSize 640 480).width (surfaceOfSize 640 480).height 1000 0
        = some d ∧
      Windows.platformUpdateWindow (some (surfaceOfSize 640 480)) 1000 0
        = Presented.drawn (Windows.borders d 1000 0) d ∧
      ((d.destY = 0 ∧ d.destHeight = 0) ∨ (d.destX = 0 ∧ d.destWidth = 1000))) ∧
    Windows.platformUpdateWindow (some (surfaceOfSize 640 480)) 1000 0
      = Presented.drawn
          [{ left := 0, top := 0, right := 500, bottom := 0 },
           { left := 500, top := 0, right := 1000, bottom := 0 }]
          { destX := 500, destY := 0, destWidth := 0, destHeight := 0 } :=
  have h := (presentation_rects (surfaceOfSize 640 480) 1000 400).2.2.1
    [{ left := 0, top := 0, right := 233, bottom := 400 },
     { left := 766, top := 0, right := 1000, bottom := 400 }]
    { destX := 233, destY := 0, destWidth := 533, destHeight := 400 } (by decide)
  ⟨h.1, h.2.2 (by decide) (by decide),
   (presentation_rects (surfaceOfSize 640 480) 1000 0).2.2.2.1 (by decide), by decide⟩

/-- The letterbox on sizes with a zero: a client area 0x0 gives (0, 0, 0, 0), a
surface of height 0 gives a rectangle of height 0, and for a surface 0x0 the
quotient 0/0 is NaN, whose conversion to `int` has no defined result. -/
theorem letterbox_zero_sizes :
    Windows.letterbox 640 480 0 0
      = some { destX := 0, destY := 0, destWidth := 0, destHeight := 0 } ∧
    Windows.letterbox 640 0 1000 400
      = some { destX := 0, destY := 200, destWidth := 1000, destHeight := 0 } ∧
    Windows.platformUpdateWindow (some (surfaceOfSize 0 0)) 1000 400 = Presented.nonFinite := by
  refine ⟨by decide, by decide, by decide⟩

/-- C14, as stated, fails: for a 640x480 surface and a 1000x400 client area
the Windows back end presents into (233, 0, 533, 400), the Linux and the web
back end into (0, 0, 640, 480). -/
theorem presentation_rects_differ :
    Windows.platformUpdateWindow (some (surfaceOfSize 640 480)) 1000 400
      = Presented.drawn
          [{ left := 0, top := 0, right := 233, bottom := 400 },
           { left := 766, top := 0, right := 1000, bottom := 400 }]
          { destX := 233, destY := 0, destWidth := 533, destHeight := 400 } ∧
    Linux.platformUpdateWindow (some (surfaceOfSize 640 480)) 1000 400
      = Presented.drawn [] { destX := 0, destY := 0, destWidth := 640, destHeight := 480 } ∧
    Web.platformUpdateWindow (some (surfaceOfSize 640 480)) 1000 400
      = Presented.drawn [] { destX := 0, destY := 0, destWidth := 640, destHeight := 480 } := by
  refine ⟨by decide, by decide, by decide⟩

/-! ## Double-precision arithmetic -/

theorem bitLength_zero : bitLength 0 0 = 0 := rfl

/-- The number of binary digits is determined by the two powers of 2 around
the number. -/
theorem bitLength_unique (n b : Nat) (h1 : 2 ^ b ≤ n) (h2 : n < 2 ^ (b + 1)) :
    bitLength n n = b + 1 := by
  have hn : 0 < n := lt_of_lt_of_le (Nat.two_pow_pos _) h1
  obtain ⟨i1, i2, i3⟩ := bitLength_spec n n (le_refl n) hn
  have a1 : b < bitLength n n := by
    by_contra hc
    have : 2 ^ bitLength n n ≤ 2 ^ b := Nat.pow_le_pow_right (by norm_num) (by omega)
    omega
  have a2 : bitLength n n - 1 < b + 1 := by
    by_contra hc
    have : 2 ^ (b + 1) ≤ 2 ^ (bitLength n n - 1) := Nat.pow_le_pow_right (by norm_num) (by omega)
    omega
  omega

theorem bitLength_mul_pow (n j : Nat) (hn : 0 < n) :
    bitLength (n * 2 ^ j) (n * 2 ^ j) = bitLength n n + j := by
  obtain ⟨i1, i2, i3⟩ := bitLength_spec n n (le_refl n) hn
  have e : bitLength n n + j = (bitLength n n - 1 + j) + 1 := by omega
  rw [e]
  apply bitLength_unique
  · rw [Nat.pow_add]
    exact Nat.mul_le_mul_right _ i2
  · have e2 : bitLength n n - 1 + j + 1 = bitLength n n + j := by omega
    rw [e2, Nat.pow_add]
    exact Nat.mul_lt_mul_of_pos_right i3 (Nat.two_pow_pos _)

theorem bitLength_mono (a b : Nat) (h : a ≤ b) : bitLength a a ≤ bitLength b b := by
  by_cases ha : a = 0
  · subst ha; simp [bitLength_zero]
  · obtain ⟨i1, i2, i3⟩ := bitLength_spec a a (le_refl a) (by omega)
    obtain ⟨j1, j2, j3⟩ := bitLength_spec b b (le_refl b) (by omega)
    by_contra hc
    have : 2 ^ bitLength b b ≤ 2 ^ (bitLength a a - 1) :=
      Nat.pow_le_pow_right (by norm_num) (by omega)
    omega

theorem roundHalfEven_bounds (a den : Nat) :
    a / den ≤ roundHalfEven a den ∧ roundHalfEven a den ≤ a / den + 1 := by
  unfold roundHalfEven
  split_ifs <;> omega

theorem roundHalfEven_mono (a b den : Nat) (h : a ≤ b) :
    roundHalfEven a den ≤ roundHalfEven b den := by
  have hq : a / den ≤ b / den := Nat.div_le_div_right h
  rcases Nat.lt_or_ge (a / den) (b / den) with hlt | hge
  · have := (roundHalfEven_bounds a den).2
    have := (roundHalfEven_bounds b den).1
    omega
  · have heq : a / den = b / den := by omega
    have ea := Nat.div_add_mod a den
    have eb := Nat.div_add_mod b den
    rw [heq] at ea
    have hr : a % den ≤ b % den := by
      generalize den * (b / den) = z at ea eb
      omega
    unfold roundHalfEven
    rw [heq]
    split_ifs with c1 c2 c2
    · exact le_refl _
    · exfalso
      apply c2
      rcases c1 with c1 | ⟨c1, c3⟩
      · exact Or.inl (by omega)
      · by_cases hh : 2 * (b % den) = den
        · exact Or.inr ⟨hh, c3⟩
        · exact Or.inl (by omega)
    · omega
    · exact le_refl _

theorem roundHalfEven_scale (a den c : Nat) (hc : 0 < c) :
    roundHalfEven (a * c) (den * c) = roundHalfEven a den := by
  unfold roundHalfEven
  rw [Nat.mul_mod_mul_right, Nat.mul_div_mul_right _ _ hc]
  have e1 : (2 * (a % den * c) > den * c) ↔ (2 * (a % den) > den) := by
    rw [← Nat.mul_assoc]
    exact Nat.mul_lt_mul_right hc
  have e2 : (2 * (a % den * c) = den * c) ↔ (2 * (a % den) = den) := by
    rw [← Nat.mul_assoc]
    exact Nat.mul_left_inj (by omega)
  simp only [e1, e2]

theorem roundHalfEven_exact (a den : Nat) (hd : 0 < den) : roundHalfEven (a * den) den = a := by
  unfold roundHalfEven
  rw [Nat.mul_mod_left, Nat.mul_div_cancel _ hd]
  simp
  omega

/-- The value of `round53 n`, scaled back. -/
theorem round53_zero : (round53 0).1 * 2 ^ (round53 0).2 = 0 := by
  decide

/-- Rounding commutes with a scaling by a power of 2. -/
theorem round53_scale (n j : Nat) :
    (round53 (n * 2 ^ j)).1 * 2 ^ (round53 (n * 2 ^ j)).2
      = (round53 n).1 * 2 ^ (round53 n).2 * 2 ^ j := by
  by_cases hn : n = 0
  · subst hn
    simp [round53, roundHalfEven, bitLength_zero]
  · unfold round53
    simp only
    rw [bitLength_mul_pow n j (by omega)]
    by_cases hb : 53 ≤ bitLength n n
    · have e : bitLength n n + j - 53 = (bitLength n n - 53) + j := by omega
      rw [e, Nat.pow_add, roundHalfEven_scale _ _ _ (Nat.two_pow_pos _)]
      ring
    · have e0 : bitLength n n - 53 = 0 := by omega
      rw [e0, pow_zero, Nat.mul_one]
      have e1 : roundHalfEven n 1 = n := by
        have := roundHalfEven_exact n 1 (by norm_num)
        simpa using this
      rw [e1]
      have hk : bitLength n n + j - 53 ≤ j := by omega
      obtain ⟨i, hi⟩ : ∃ i, j = i + (bitLength n n + j - 53) := ⟨j - (bitLength n n + j - 53), by omega⟩
      generalize bitLength n n + j - 53 = k at hi hk ⊢
      subst hi
      rw [Nat.pow_add, ← Nat.mul_assoc, roundHalfEven_exact _ _ (Nat.two_pow_pos _)]

/-- Rounding is monotone. -/
theorem round53_mono (a b : Nat) (h : a ≤ b) :
    (round53 a).1 * 2 ^ (round53 a).2 ≤ (round53 b).1 * 2 ^ (round53 b).2 := by
  by_cases ha : a = 0
  · subst ha
    rw [round53_zero]
    exact Nat.zero_le _
  · have hk := bitLength_mono a b h
    obtain ⟨i1, i2, i3⟩ := bitLength_spec a a (le_refl a) (by omega)
    obtain ⟨j1, j2, j3⟩ := bitLength_spec b b (le_refl b) (by omega)
    unfold round53
    simp only
    rcases Nat.lt_or_ge (bitLength a a - 53) (bitLength b b - 53) with hlt | hge
    · -- different binades
      have u1 : roundHalfEven a (2 ^ (bitLength a a - 53)) ≤ 2 ^ 53 := by
        have hb := (roundHalfEven_bounds a (2 ^ (bitLength a a - 53))).2
        have : a / 2 ^ (bitLength a a - 53) < 2 ^ 53 := by
          rw [Nat.div_lt_iff_lt_mul (Nat.two_pow_pos _), ← Nat.pow_add]
          exact lt_of_lt_of_le i3 (Nat.pow_le_pow_right (by norm_num) (by omega))
        omega
      have u2 : 2 ^ 52 ≤ roundHalfEven b (2 ^ (bitLength b b - 53)) := by
        have hb := (roundHalfEven_bounds b (2 ^ (bitLength b b - 53))).1
        have : 2 ^ 52 ≤ b / 2 ^ (bitLength b b - 53) := by
          rw [Nat.le_div_iff_mul_le (Nat.two_pow_pos _), ← Nat.pow_add]
          exact le_trans (Nat.pow_le_pow_right (by norm_num) (by omega)) j2
        omega
      calc roundHalfEven a (2 ^ (bitLength a a - 53)) * 2 ^ (bitLength a a - 53)
          ≤ 2 ^ 53 * 2 ^ (bitLength a a - 53) := Nat.mul_le_mul_right _ u1
        _ = 2 ^ (53 + (bitLength a a - 53)) := by rw [Nat.pow_add]
        _ ≤ 2 ^ (52 + (bitLength b b - 53)) := Nat.pow_le_pow_right (by norm_num) (by omega)
        _ = 2 ^ 52 * 2 ^ (bitLength b b - 53) := by rw [Nat.pow_add]
        _ ≤ roundHalfEven b (2 ^ (bitLength b b - 53)) * 2 ^ (bitLength b b - 53) :=
            Nat.mul_le_mul_right _ u2
    · have e : bitLength a a - 53 = bitLength b b - 53 := by omega
      rw [e]
      exact Nat.mul_le_mul_right _
        (roundHalfEven_mono a b _ h)

/-- An integer significand brought to a smaller exponent, as a rational. -/
theorem cast_scaled (m e e0 : Int) (h : e0 ≤ e) :
    ((m * 2 ^ (e - e0).toNat : Int) : ℚ) = (m : ℚ) * 2 ^ e / 2 ^ e0 := by
  push_cast
  have e1 : ((2 : ℚ) ^ (e - e0).toNat) = (2 : ℚ) ^ (e - e0) := by
    rw [← zpow_natCast, Int.toNat_of_nonneg (by omega)]
  rw [e1, zpow_sub₀ (by norm_num)]
  ring

/-- The order `F64.le` is the order of the values `m * 2^e`. -/
theorem F64.le_iff (a b : F64) :
    a.le b ↔ (a.m : ℚ) * 2 ^ a.e ≤ (b.m : ℚ) * 2 ^ b.e := by
  unfold F64.le
  have hc : ∀ x y : Int, x ≤ y ↔ (x : ℚ) ≤ (y : ℚ) := fun x y => Int.cast_le.symm
  rw [hc, cast_scaled _ _ _ (min_le_left _ _), cast_scaled _ _ _ (min_le_right _ _)]
  exact div_le_div_iff_of_pos_right (zpow_pos (by norm_num) _)

/-- The integer part of a non-negative double is the floor of its value. -/
theorem f64Trunc_floor (a : F64) (h : 0 ≤ a.m) : f64Trunc a = ⌊(a.m : ℚ) * 2 ^ a.e⌋ := by
  have hpos : (0 : Int) < 2 ^ (-a.e).toNat := pow_pos (by omega) _
  have hnum : (0 : Int) ≤ a.m * 2 ^ a.e.toNat := mul_nonneg h (pow_nonneg (by omega) _)
  unfold f64Trunc
  rw [Int.tdiv_eq_ediv hnum (le_of_lt hpos)]
  have e1 : (a.m : ℚ) * 2 ^ a.e
      = ((a.m * 2 ^ a.e.toNat : Int) : ℚ) / ((2 ^ (-a.e).toNat : Nat) : ℚ) := by
    push_cast
    rcases le_or_lt 0 a.e with hc | hc
    · have e2 : (-a.e).toNat = 0 := by omega
      rw [e2, pow_zero, div_one, ← zpow_natCast, Int.toNat_of_nonneg hc]
    · have e2 : a.e.toNat = 0 := by omega
      rw [e2, pow_zero, mul_one, ← zpow_natCast (2 : ℚ) (-a.e).toNat,
        Int.toNat_of_nonneg (by omega), zpow_neg, div_inv_eq_mul]
  rw [e1, Rat.floor_intCast_div_natCast]
  push_cast
  rfl

/-- The value of a non-negative difference `a - b`, computed on any exponent
`e0` below the two exponents: the rounded integer difference times `2^e0`. -/
theorem f64Sub_val (a b : F64) (e0 : Int) (ha : e0 ≤ a.e) (hb : e0 ≤ b.e)
    (hd : 0 ≤ a.m * 2 ^ (a.e - e0).toNat - b.m * 2 ^ (b.e - e0).toNat) :
    0 ≤ (f64Sub a b).m ∧
    ((f64Sub a b).m : ℚ) * 2 ^ (f64Sub a b).e
      = (((round53 (a.m * 2 ^ (a.e - e0).toNat - b.m * 2 ^ (b.e - e0).toNat).natAbs).1
          * 2 ^ (round53 (a.m * 2 ^ (a.e - e0).toNat
              - b.m * 2 ^ (b.e - e0).toNat).natAbs).2 : Nat) : ℚ) * 2 ^ e0 := by
  have hE1 : e0 ≤ min a.e b.e := le_min ha hb
  have hEa : min a.e b.e ≤ a.e := min_le_left _ _
  have hEb : min a.e b.e ≤ b.e := min_le_right _ _
  generalize hE : min a.e b.e = E at hE1 hEa hEb
  have ea : (a.e - e0).toNat = (a.e - E).toNat + (E - e0).toNat := by omega
  have eb : (b.e - e0).toNat = (b.e - E).toNat + (E - e0).toNat := by omega
  have hD : a.m * 2 ^ (a.e - e0).toNat - b.m * 2 ^ (b.e - e0).toNat
      = (a.m * 2 ^ (a.e - E).toNat - b.m * 2 ^ (b.e - E).toNat) * 2 ^ (E - e0).toNat := by
    rw [ea, eb, pow_add, pow_add]
    ring
  have hp : (0 : Int) < 2 ^ (E - e0).toNat := pow_pos (by omega) _
  rw [hD] at hd ⊢
  have hd0 : 0 ≤ a.m * 2 ^ (a.e - E).toNat - b.m * 2 ^ (b.e - E).toNat := by
    by_contra hc
    have := mul_neg_of_neg_of_pos (lt_of_not_ge hc) hp
    omega
  have hsub : f64Sub a b
      = { m := ((round53 (a.m * 2 ^ (a.e - E).toNat - b.m * 2 ^ (b.e - E).toNat).natAbs).1 : Int),
          e := E + ((round53 (a.m * 2 ^ (a.e - E).toNat
                - b.m * 2 ^ (b.e - E).toNat).natAbs).2 : Int) } := by
    unfold f64Sub
    simp only [hE]
    rw [if_neg (by omega)]
  generalize a.m * 2 ^ (a.e - E).toNat - b.m * 2 ^ (b.e - E).toNat = d at hd hd0 hsub ⊢
  have hn : (d * 2 ^ (E - e0).toNat).natAbs = d.natAbs * 2 ^ (E - e0).toNat := by
    rw [Int.natAbs_mul, Int.natAbs_pow]
    rfl
  rw [hsub, hn, round53_scale]
  refine ⟨Int.natCast_nonneg _, ?_⟩
  simp only
  push_cast
  have e2 : ((2 : ℚ) ^ (E - e0).toNat) = (2 : ℚ) ^ (E - e0) := by
    rw [← zpow_natCast, Int.toNat_of_nonneg (by omega)]
  rw [e2, zpow_add₀ (by norm_num), zpow_sub₀ (by norm_num), zpow_natCast]
  field_simp
  ring

/-- A difference that has at most 53 significant digits is exact. -/
theorem f64Sub_exact (a b : F64)
    (h : (a.m * 2 ^ (a.e - min a.e b.e).toNat
      - b.m * 2 ^ (b.e - min a.e b.e).toNat).natAbs < 2 ^ 53) :
    f64Sub a b = { m := a.m * 2 ^ (a.e - min a.e b.e).toNat
                        - b.m * 2 ^ (b.e - min a.e b.e).toNat,
                   e := min a.e b.e } := by
  unfold f64Sub
  simp only
  generalize a.m * 2 ^ (a.e - min a.e b.e).toNat - b.m * 2 ^ (b.e - min a.e b.e).toNat = d at h ⊢
  have hb : bitLength d.natAbs d.natAbs ≤ 53 := by
    by_cases h0 : d.natAbs = 0
    · rw [h0]; simp [bitLength_zero]
    · obtain ⟨i1, i2, i3⟩ := bitLength_spec d.natAbs d.natAbs (le_refl _) (by omega)
      by_contra hc
      have : 2 ^ 53 ≤ 2 ^ (bitLength d.natAbs d.natAbs - 1) :=
        Nat.pow_le_pow_right (by norm_num) (by omega)
      omega
  have hk : bitLength d.natAbs d.natAbs - 53 = 0 := by omega
  have hr : round53 d.natAbs = (d.natAbs, 0) := by
    unfold round53
    simp only [hk, pow_zero]
    have := roundHalfEven_exact d.natAbs 1 (by norm_num)
    rw [Nat.mul_one] at this
    rw [this]
  rw [hr]
  simp only [Int.natCast_zero, add_zero, Nat.cast_ofNat]
  congr 1
  split_ifs <;> omega

/-- For readings `s ≤ t1 ≤ t2` the integer parts of the computed differences
`t1 - s` and `t2 - s` are non-negative and in the same order. -/
theorem web_ticks_mono (s t1 t2 : F64) (h1 : s.le t1) (h2 : t1.le t2) :
    0 ≤ f64Trunc (f64Sub t1 s) ∧ f64Trunc (f64Sub t1 s) ≤ f64Trunc (f64Sub t2 s) := by
  have hs0 : min s.e (min t1.e t2.e) ≤ s.e := min_le_left _ _
  have h10 : min s.e (min t1.e t2.e) ≤ t1.e := le_trans (min_le_right _ _) (min_le_left _ _)
  have h20 : min s.e (min t1.e t2.e) ≤ t2.e := le_trans (min_le_right _ _) (min_le_right _ _)
  generalize min s.e (min t1.e t2.e) = e0 at hs0 h10 h20
  have hc : ∀ x y : Int, x ≤ y ↔ (x : ℚ) ≤ (y : ℚ) := fun x y => Int.cast_le.symm
  have hp : (0 : ℚ) < 2 ^ e0 := zpow_pos (by norm_num) _
  have i1 : s.m * 2 ^ (s.e - e0).toNat ≤ t1.m * 2 ^ (t1.e - e0).toNat := by
    rw [hc, cast_scaled _ _ _ hs0, cast_scaled _ _ _ h10]
    exact (div_le_div_iff_of_pos_right hp).mpr ((F64.le_iff s t1).mp h1)
  have i2 : t1.m * 2 ^ (t1.e - e0).toNat ≤ t2.m * 2 ^ (t2.e - e0).toNat := by
    rw [hc, cast_scaled _ _ _ h10, cast_scaled _ _ _ h20]
    exact (div_le_div_iff_of_pos_right hp).mpr ((F64.le_iff t1 t2).mp h2)
  obtain ⟨m1, v1⟩ := f64Sub_val t1 s e0 h10 hs0 (by omega)
  obtain ⟨m2, v2⟩ := f64Sub_val t2 s e0 h20 hs0 (by omega)
  have hn : (t1.m * 2 ^ (t1.e - e0).toNat - s.m * 2 ^ (s.e - e0).toNat).natAbs
      ≤ (t2.m * 2 ^ (t2.e - e0).toNat - s.m * 2 ^ (s.e - e0).toNat).natAbs := by omega
  have hr := round53_mono _ _ hn
  rw [f64Trunc_floor _ m1, f64Trunc_floor _ m2, v1, v2]
  refine ⟨Int.floor_nonneg.mpr (mul_nonneg (Nat.cast_nonneg _) (le_of_lt hp)), ?_⟩
  apply Int.floor_mono
  exact mul_le_mul_of_nonneg_right (Nat.cast_le.mpr hr) (le_of_lt hp)

/-! ## Claims on the clock and the delay -/

/-- C15, as amended. `platformGetTicks` is non-decreasing as long as fewer
than 2^32 milliseconds (about 49.7 days) have elapsed since `platformInit`.
On Linux and Windows it is the elapsed time in milliseconds modulo 2^32: on
Linux for normalised readings `startTime ≤ t1 ≤ t2` of the monotonic clock, on
Windows for counter values `startTime ≤ t1 ≤ t2` with a positive frequency and
`elapsed * 1000` below 2^64.  On the web it is the `double` difference
`now - startTime` converted to `uint32`: for readings `startTime ≤ t1 ≤ t2`
whose computed difference at `t2` is below 2^32, both values are defined, the
one for `t2` is the integer part of that difference and is not below the one
for `t1`; the difference is exact when it has at most 53 significant
digits. -/
theorem platformGetTicks_monotone_below_wrap :
    (∀ (startTime t1 t2 : Timespec), startTime.Valid → t1.Valid → t2.Valid →
      startTime.le t1 → t1.le t2 →
      ((t2.tv_sec - startTime.tv_sec) * 1000000000 + (t2.tv_nsec - startTime.tv_nsec))
        / 1000000 < 4294967296 →
      Linux.platformGetTicks startTime t1 ≤ Linux.platformGetTicks startTime t2 ∧
      Linux.platformGetTicks startTime t2
        = ((t2.tv_sec - startTime.tv_sec) * 1000000000 + (t2.tv_nsec - startTime.tv_nsec))
          / 1000000) ∧
    (∀ (performanceFreq startTime t1 t2 : Int), 0 < performanceFreq →
      performanceFreq < 9223372036854775808 → startTime ≤ t1 → t1 ≤ t2 →
      (t2 - startTime) * 1000 < 18446744073709551616 →
      (t2 - startTime) * 1000 / performanceFreq < 4294967296 →
      Windows.platformGetTicks performanceFreq startTime t1
        ≤ Windows.platformGetTicks performanceFreq startTime t2 ∧
      Windows.platformGetTicks performanceFreq startTime t2
        = (t2 - startTime) * 1000 / performanceFreq) ∧
    (∀ (startTime t1 t2 : F64), startTime.le t1 → t1.le t2 →
      f64Trunc (f64Sub t2 startTime) < 4294967296 →
      ∃ v1 v2, Web.platformGetTicks startTime t1 = some v1 ∧
        Web.platformGetTicks startTime t2 = some v2 ∧ v1 ≤ v2 ∧
        v2 = f64Trunc (f64Sub t2 startTime)) ∧
    (∀ (startTime now : F64),
      (now.m * 2 ^ (now.e - min now.e startTime.e).toNat
        - startTime.m * 2 ^ (startTime.e - min now.e startTime.e).toNat).natAbs < 2 ^ 53 →
      f64Sub now startTime
        = { m := now.m * 2 ^ (now.e - min now.e startTime.e).toNat
                 - startTime.m * 2 ^ (startTime.e - min now.e startTime.e).toNat,
            e := min now.e startTime.e }) := by
  refine ⟨?_, ?_, ?_, fun s t h => f64Sub_exact t s h⟩
  · intro s t1 t2 hs h1 h2 l1 l2 hlt
    unfold Timespec.Valid at hs h1 h2
    unfold Timespec.le at l1 l2
    unfold Linux.platformGetTicks
    simp only
    have n1 : 0 ≤ (t1.tv_sec - s.tv_sec) * 1000000000 + (t1.tv_nsec - s.tv_nsec) := by omega
    have n12 : (t1.tv_sec - s.tv_sec) * 1000000000 + (t1.tv_nsec - s.tv_nsec)
        ≤ (t2.tv_sec - s.tv_sec) * 1000000000 + (t2.tv_nsec - s.tv_nsec) := by omega
    generalize (t1.tv_sec - s.tv_sec) * 1000000000 + (t1.tv_nsec - s.tv_nsec) = a at n1 n12 ⊢
    generalize (t2.tv_sec - s.tv_sec) * 1000000000 + (t2.tv_nsec - s.tv_nsec) = b at hlt n12 ⊢
    have hb : b < 4294967296000000 := by omega
    have ea : a % 18446744073709551616 = a := by omega
    have eb : b % 18446744073709551616 = b := by omega
    rw [ea, eb]
    omega
  · intro f s t1 t2 hf hf2 l1 l2 hm hlt
    unfold Windows.platformGetTicks
    simp only
    have e1 : (t1 - s) % 18446744073709551616 = t1 - s := by omega
    have e2 : (t2 - s) % 18446744073709551616 = t2 - s := by omega
    have e3 : (t1 - s) * 1000 % 18446744073709551616 = (t1 - s) * 1000 := by omega
    have e4 : (t2 - s) * 1000 % 18446744073709551616 = (t2 - s) * 1000 := by omega
    have e5 : f % 18446744073709551616 = f := by omega
    rw [e1, e2, e3, e4, e5]
    have mono : (t1 - s) * 1000 / f ≤ (t2 - s) * 1000 / f :=
      Int.ediv_le_ediv hf (by omega)
    have nonneg : 0 ≤ (t1 - s) * 1000 / f := Int.ediv_nonneg (by omega) (by omega)
    have e6 : (t2 - s) * 1000 / f % 4294967296 = (t2 - s) * 1000 / f := by omega
    have e7 : (t1 - s) * 1000 / f % 4294967296 = (t1 - s) * 1000 / f := by omega
    rw [e6, e7]
    exact ⟨mono, rfl⟩
  · intro s t1 t2 l1 l2 hlt
    obtain ⟨n1, n12⟩ := web_ticks_mono s t1 t2 l1 l2
    have n2 : 0 ≤ f64Trunc (f64Sub t2 s) := le_trans n1 n12
    refine ⟨f64Trunc (f64Sub t1 s), f64Trunc (f64Sub t2 s), ?_, ?_, n12, rfl⟩
    · unfold Web.platformGetTicks f64ToUInt32
      rw [if_pos ⟨n1, lt_of_le_of_lt n12 hlt⟩]
    · unfold Web.platformGetTicks f64ToUInt32
      rw [if_pos ⟨n2, hlt⟩]

/-- Witness of C15 as amended: readings 1.5 s and 2.25 s after the start on
Linux, counter values 1500 and 2250 at 1000 counts per second on Windows; on
the web the start at 1000.5 ms and readings at 2500.25 ms and 3250.75 ms, which
give 1499 and 2250, and the start at 2^-30 ms with a reading at 2^31 ms, whose
difference is rounded to 2^31. -/
theorem platformGetTicks_monotone_below_wrap_witness :
    (Linux.platformGetTicks ⟨10, 500000000⟩ ⟨12, 0⟩
        ≤ Linux.platformGetTicks ⟨10, 500000000⟩ ⟨12, 750000000⟩ ∧
      Linux.platformGetTicks ⟨10, 500000000⟩ ⟨12, 750000000⟩
        = ((12 - 10) * 1000000000 + (750000000 - 500000000)) / 1000000) ∧
    (Windows.platformGetTicks 1000 100 1600 ≤ Windows.platformGetTicks 1000 100 2350 ∧
      Windows.platformGetTicks 1000 100 2350 = (2350 - 100) * 1000 / 1000) ∧
    (∃ v1 v2, Web.platformGetTicks ⟨2001, -1⟩ ⟨10001, -2⟩ = some v1 ∧
        Web.platformGetTicks ⟨2001, -1⟩ ⟨13003, -2⟩ = some v2 ∧ v1 ≤ v2 ∧
        v2 = f64Trunc (f64Sub ⟨13003, -2⟩ ⟨2001, -1⟩)) ∧
    Web.platformGetTicks ⟨2001, -1⟩ ⟨10001, -2⟩ = some 1499 ∧
    Web.platformGetTicks ⟨2001, -1⟩ ⟨13003, -2⟩ = some 2250 ∧
    f64Sub ⟨13003, -2⟩ ⟨2001, -1⟩ = ⟨9001, -2⟩ ∧
    f64Sub ⟨1, 31⟩ ⟨1, -30⟩ = ⟨9007199254740992, -22⟩ ∧
    Web.platformGetTicks ⟨1, -30⟩ ⟨1, 31⟩ = some 2147483648 :=
  ⟨platformGetTicks_monotone_below_wrap.1 ⟨10, 500000000⟩ ⟨12, 0⟩ ⟨12, 750000000⟩
      (by decide) (by decide) (by decide) (by decide) (by decide) (by decide),
   platformGetTicks_monotone_below_wrap.2.1 1000 100 1600 2350
      (by decide) (by decide) (by decide) (by decide) (by decide) (by decide),
   platformGetTicks_monotone_below_wrap.2.2.1 ⟨2001, -1⟩ ⟨10001, -2⟩ ⟨13003, -2⟩
      (by decide) (by decide) (by decide),
   by decide, by decide,
   platformGetTicks_monotone_below_wrap.2.2.2 ⟨2001, -1⟩ ⟨13003, -2⟩ (by decide),
   by decide, by decide⟩

/-- C15, as stated, fails: with the start at 0, the reading at
4294967.295 s gives 4294967295 and the later reading at 4294967.296 s gives 0
(the millisecond count wraps at 2^32); likewise on Windows, where at a counter
frequency of 2^40 the product `elapsed * 1000` also wraps at 2^64 and the
value falls from 16777215 to 0.  On the web the reading at 4294967295.5 ms
gives 4294967295 and the later reading at 2^32 ms has no defined value, as has
the reading at 2^32 ms after a start at 2^-30 ms, whose difference is rounded
up to 2^32. -/
theorem platformGetTicks_wraps :
    Timespec.le ⟨0, 0⟩ ⟨4294967, 295000000⟩ ∧
    Timespec.le ⟨4294967, 295000000⟩ ⟨4294967, 296000000⟩ ∧
    Linux.platformGetTicks ⟨0, 0⟩ ⟨4294967, 295000000⟩ = 4294967295 ∧
    Linux.platformGetTicks ⟨0, 0⟩ ⟨4294967, 296000000⟩ = 0 ∧
    Windows.platformGetTicks 1000 0 4294967295 = 4294967295 ∧
    Windows.platformGetTicks 1000 0 4294967296 = 0 ∧
    Windows.platformGetTicks 1099511627776 0 18446744073709551 = 16777215 ∧
    Windows.platformGetTicks 1099511627776 0 18446744073709552 = 0 ∧
    F64.le ⟨0, 0⟩ ⟨8589934591, -1⟩ ∧ F64.le ⟨8589934591, -1⟩ ⟨1, 32⟩ ∧
    Web.platformGetTicks ⟨0, 0⟩ ⟨8589934591, -1⟩ = some 4294967295 ∧
    Web.platformGetTicks ⟨0, 0⟩ ⟨1, 32⟩ = none ∧
    F64.le ⟨1, -30⟩ ⟨1, 32⟩ ∧
    Web.platformGetTicks ⟨1, -30⟩ ⟨1, 32⟩ = none := by
  refine ⟨by decide, by decide, by decide, by decide, by decide, by decide, by decide,
    by decide, by decide, by decide, by decide, by decide, by decide, by decide⟩

/-- What `platformDelay` hands to `usleep` while the product fits in 32 bits:
`ms * 1000` for `ms` up to 4294967. -/
theorem platformDelay_small (ms : Int) (h0 : 0 ≤ ms) (h : ms ≤ 4294967) :
    Linux.platformDelay ms = ms * 1000 := by
  unfold Linux.platformDelay
  omega

/-- C16, at the failing input. For ms = 4294968, a 32-bit value, the product
`ms * 1000` wraps and `usleep` receives 704 microseconds, less than the
4294968000 the delay asks for. -/
theorem platformDelay_wraps :
    (0 ≤ (4294968 : Int) ∧ (4294968 : Int) < 4294967296) ∧
    Linux.platformDelay 4294968 = 704 ∧
    Linux.platformDelay 4294968 < 4294968 * 1000 := by
  refine ⟨by decide, by decide, by decide⟩

/-! ## Claims on the surface record -/

/-- One call keeps the dimensions, and keeps the clip rectangle within the
surface when the rectangle it may hand to `platformSetClipRect` is. -/
theorem applyOp_clipWithin (w h : Int) (hw0 : 0 ≤ w) (hw : w ≤ 65535) (hh0 : 0 ≤ h)
    (hh : h ≤ 65535) (op : SurfaceOp)
    (hop : ∀ r, op = SurfaceOp.setClipRect (some r) → r.Within w h)
    (st : PlatformSurface × Mem)
    (hst : st.1.width = w ∧ st.1.height = h ∧ st.1.ClipWithin) :
    (applyOp st op).1.width = w ∧ (applyOp st op).1.height = h ∧
      (applyOp st op).1.ClipWithin := by
  obtain ⟨e1, e2, e3⟩ := hst
  cases op with
  | setClipRect rect =>
    cases rect with
    | none =>
      refine ⟨e1, e2, ?_⟩
      simp only [applyOp, platformSetClipRect, Option.getD_some,
        PlatformSurface.ClipWithin, toUInt16]
      omega
    | some r =>
      refine ⟨e1, e2, ?_⟩
      have hr := hop r rfl
      unfold PlatformRect.Within at hr
      simp only [applyOp, platformSetClipRect, Option.getD_some, PlatformSurface.ClipWithin]
      omega
  | setColorKey r g b => exact ⟨e1, e2, e3⟩
  | blitOnto src srcRect dstRect => exact ⟨e1, e2, e3⟩
  | blitFrom dst srcRect dstRect => exact ⟨e1, e2, e3⟩
  | fillRect rect r g b a => exact ⟨e1, e2, e3⟩

/-- C18, as amended. `platformGetClipRect` after
`platformSetClipRect(surface, rect)` returns exactly `rect`; after
`platformSetClipRect(surface, NULL)` it returns (0, 0, width, height) for a
surface with 0 ≤ width, height ≤ 65535 (the members `w` and `h` are `uint16`);
`platformSetClipRect` changes no member of the surface but the clip rectangle:
pixels, color key and dimensions stay, and neither call touches memory. -/
theorem clipRect_set_get (s : PlatformSurface) (out : PlatformRect) :
    (∀ rect, platformGetClipRect (platformSetClipRect (some s) (some rect)) (some out)
      = some rect) ∧
    (0 ≤ s.width → s.width ≤ 65535 → 0 ≤ s.height → s.height ≤ 65535 →
      platformGetClipRect (platformSetClipRect (some s) none) (some out)
        = some ⟨0, 0, s.width, s.height⟩) ∧
    (∀ rect, ∃ c, platformSetClipRect (some s) rect = some { s with clipRect := c }) := by
  refine ⟨fun rect => rfl, ?_, ?_⟩
  · intro h1 h2 h3 h4
    simp only [platformSetClipRect, platformGetClipRect, toUInt16]
    rw [Int.emod_eq_of_lt h1 (by omega), Int.emod_eq_of_lt h3 (by omega)]
  · intro rect
    cases rect with
    | none => exact ⟨_, rfl⟩
    | some r => exact ⟨_, rfl⟩

/-- Witness of C18 as amended: set and reset on the 2x2 surface `demoDst`. -/
theorem clipRect_set_get_witness :
    platformGetClipRect (platformSetClipRect (some demoDst) (some ⟨-3, 1, 7, 9⟩))
      (some ⟨0, 0, 0, 0⟩) = some ⟨-3, 1, 7, 9⟩ ∧
    platformGetClipRect (platformSetClipRect (some demoDst) none) (some ⟨0, 0, 0, 0⟩)
      = some ⟨0, 0, 2, 2⟩ :=
  ⟨(clipRect_set_get demoDst ⟨0, 0, 0, 0⟩).1 ⟨-3, 1, 7, 9⟩,
   (clipRect_set_get demoDst ⟨0, 0, 0, 0⟩).2.1 (by decide) (by decide) (by decide) (by decide)⟩

/-- C18, as stated, fails: on a surface 65536 pixels wide and 1 high,
`platformSetClipRect(surface, NULL)` followed by `platformGetClipRect` returns
(0, 0, 0, 1), not (0, 0, 65536, 1): the width does not fit the `uint16` member
`w`. -/
theorem clipRect_reset_truncates :
    platformGetClipRect (platformSetClipRect (some (surfaceOfSize 65536 1)) none)
      (some ⟨0, 0, 0, 0⟩) = some ⟨0, 0, 0, 1⟩ ∧
    platformGetClipRect (platformSetClipRect (some (surfaceOfSize 65536 1)) none)
      (some ⟨0, 0, 0, 0⟩)
      ≠ some ⟨0, 0, (surfaceOfSize 65536 1).width, (surfaceOfSize 65536 1).height⟩ := by
  refine ⟨by decide, by decide⟩

/-- C19, as amended. For 0 ≤ w, h ≤ 65535, `platformCreateSurface(w, h)` gives a
surface with width w, height h, 4 bytes per pixel, pitch w*4, an owned buffer
(the block `calloc` returned) whose w*h*4 bytes are all zero, the clip
rectangle (0, 0, w, h) and the color key disabled; memory outside the buffer is
as before. -/
theorem platformCreateSurface_spec (m : Mem) (junk : PlatformSurface) (buf w h : Int)
    (hw0 : 0 ≤ w) (hw : w ≤ 65535) (hh0 : 0 ≤ h) (hh : h ≤ 65535) (hbuf : buf ≠ 0) :
    (platformCreateSurface m junk buf w h).1.width = w ∧
    (platformCreateSurface m junk buf w h).1.height = h ∧
    (platformCreateSurface m junk buf w h).1.bytesPerPixel = 4 ∧
    (platformCreateSurface m junk buf w h).1.pitch = w * 4 ∧
    (platformCreateSurface m junk buf w h).1.pixels = buf ∧
    (platformCreateSurface m junk buf w h).1.ownPixels = 1 ∧
    (∀ a, buf ≤ a → a < buf + w * h * 4 → (platformCreateSurface m junk buf w h).2 a = 0) ∧
    (∀ a, (a < buf ∨ buf + w * h * 4 ≤ a) → (platformCreateSurface m junk buf w h).2 a = m a) ∧
    (platformCreateSurface m junk buf w h).1.clipRect = ⟨0, 0, w, h⟩ ∧
    (platformCreateSurface m junk buf w h).1.hasColorKey = 0 := by
  refine ⟨rfl, rfl, rfl, rfl, rfl, rfl, ?_, ?_, ?_, rfl⟩
  · intro a h1 h2
    simp only [platformCreateSurface, calloc]
    rw [if_pos ⟨hbuf, h1, h2⟩]
  · intro a h1
    simp only [platformCreateSurface, calloc]
    rw [if_neg (by omega)]
  · simp only [platformCreateSurface, toUInt16]
    rw [Int.emod_eq_of_lt hw0 (by omega), Int.emod_eq_of_lt hh0 (by omega)]

/-- Witness of C19 as amended: a 3x2 surface whose buffer is at address 1000, in
a memory that held 7 everywhere. -/
theorem platformCreateSurface_spec_witness :
    (platformCreateSurface (fun _ => 7) demoDst 1000 3 2).1.pitch = 3 * 4 ∧
    (platformCreateSurface (fun _ => 7) demoDst 1000 3 2).2 1023 = 0 ∧
    (platformCreateSurface (fun _ => 7) demoDst 1000 3 2).2 1024 = 7 ∧
    (platformCreateSurface (fun _ => 7) demoDst 1000 3 2).1.clipRect = ⟨0, 0, 3, 2⟩ :=
  have h := platformCreateSurface_spec (fun _ => 7) demoDst 1000 3 2
    (by decide) (by decide) (by decide) (by decide) (by decide)
  ⟨h.2.2.2.1, h.2.2.2.2.2.2.1 1023 (by decide) (by decide),
   h.2.2.2.2.2.2.2.1 1024 (by decide), h.2.2.2.2.2.2.2.2.1⟩

/-- C19, as stated, fails: `platformCreateSurface(65536, 1)` gives the clip
rectangle (0, 0, 0, 1), which is not (0, 0, 65536, 1) and covers no pixel. -/
theorem platformCreateSurface_clip_truncates :
    (platformCreateSurface zeroMem demoDst 1000 65536 1).1.width = 65536 ∧
    (platformCreateSurface zeroMem demoDst 1000 65536 1).1.clipRect = ⟨0, 0, 0, 1⟩ ∧
    (platformCreateSurface zeroMem demoDst 1000 65536 1).1.clipRect ≠ ⟨0, 0, 65536, 1⟩ := by
  refine ⟨by decide, by decide, by decide⟩

/-! ## Degenerate drawing calls -/

/-- A fold whose steps all return their argument returns its argument. -/
theorem foldl_noop {σ α : Type} (f : σ → α → σ) (l : List α) :
    (∀ i ∈ l, ∀ m, f m i = m) → ∀ m, l.foldl f m = m := by
  induction l with
  | nil => intro _ m; rfl
  | cons i l ih =>
    intro h m
    rw [List.foldl_cons, h i (List.mem_cons_self _ _),
      ih (fun j hj => h j (List.mem_cons_of_mem _ hj))]

/-- The clamp never widens the copy region: a source rectangle of width or
height at most 0 gives a clamped width or height at most 0. -/
theorem blitClamp_degenerate (s d : PlatformSurface) (r : PlatformRect)
    (dstRect : Option PlatformRect) :
    (r.w ≤ 0 → (blitClamp s (some r) d dstRect).srcW ≤ 0) ∧
    (r.h ≤ 0 → (blitClamp s (some r) d dstRect).srcH ≤ 0) := by
  unfold blitClamp
  simp only
  constructor
  · intro h
    split_ifs <;> omega
  · intro h
    split_ifs <;> omega

/-- C20. Degenerate drawing calls leave memory as it is, so no pixel of any
surface changes: `platformBlitSurface` with a null source, with a null
destination, with a source rectangle of zero width or height, or with a
clamped copy region of width or height at most 0; `platformFillRect` with a
null surface or with a rectangle of zero width or height. -/
theorem drawing_noops (m : Mem) :
    (∀ srcRect dst dstRect, platformBlitSurface m none srcRect dst dstRect = m) ∧
    (∀ src srcRect dstRect, platformBlitSurface m src srcRect none dstRect = m) ∧
    (∀ (s d : PlatformSurface) (r : PlatformRect) dstRect, r.w = 0 ∨ r.h = 0 →
      platformBlitSurface m (some s) (some r) (some d) dstRect = m) ∧
    (∀ (s d : PlatformSurface) srcRect dstRect,
      (blitClamp s srcRect d dstRect).srcW ≤ 0 ∨ (blitClamp s srcRect d dstRect).srcH ≤ 0 →
      platformBlitSurface m (some s) srcRect (some d) dstRect = m) ∧
    (∀ rect r g b a, platformFillRect m none rect r g b a = m) ∧
    (∀ (s : PlatformSurface) (q : PlatformRect) r g b a, q.w = 0 ∨ q.h = 0 →
      platformFillRect m (some s) (some q) r g b a = m) := by
  have clamped : ∀ (s d : PlatformSurface) srcRect dstRect,
      (blitClamp s srcRect d dstRect).srcW ≤ 0 ∨ (blitClamp s srcRect d dstRect).srcH ≤ 0 →
      platformBlitSurface m (some s) srcRect (some d) dstRect = m := by
    intro s d srcRect dstRect h
    unfold platformBlitSurface
    simp only
    split_ifs
    · rfl
    · rfl
  refine ⟨?_, ?_, ?_, clamped, ?_, ?_⟩
  · intro srcRect dst dstRect
    rfl
  · intro src srcRect dstRect
    cases src <;> rfl
  · intro s d r dstRect h
    obtain ⟨c1, c2⟩ := blitClamp_degenerate s d r dstRect
    apply clamped
    rcases h with h | h
    · exact Or.inl (c1 (by omega))
    · exact Or.inr (c2 (by omega))
  · intro rect r g b a
    rfl
  · intro s q r g b a h
    unfold platformFillRect
    simp only
    split_ifs
    · rfl
    · apply foldl_noop
      intro py _ m1
      unfold fillRow
      rcases h with h | h
      · rw [loopRange_empty q.x _ (by omega)]
        rfl
      · rename_i hmem
        rw [mem_loopRange] at hmem
        omega

/-- Witness of C20: a zero-width source rectangle, a copy region clipped away
by the destination position (5, 0), and a zero-height fill. -/
theorem drawing_noops_witness :
    platformBlitSurface demoMem (some demoSrc) (some ⟨0, 0, 0, 2⟩) (some demoDst) none
      = demoMem ∧
    platformBlitSurface demoMem (some demoSrc) none (some demoDst) (some ⟨5, 0, 0, 0⟩)
      = demoMem ∧
    platformFillRect demoMem (some demoDst) (some ⟨0, 0, 2, 0⟩) 3 2 1 4 = demoMem :=
  ⟨(drawing_noops demoMem).2.2.1 demoSrc demoDst ⟨0, 0, 0, 2⟩ none (Or.inl rfl),
   (drawing_noops demoMem).2.2.2.1 demoSrc demoDst none (some ⟨5, 0, 0, 0⟩) (by decide),
   (drawing_noops demoMem).2.2.2.2.2 demoDst ⟨0, 0, 2, 0⟩ 3 2 1 4 (Or.inr rfl)⟩

/-! ## Claims on `platformMapRGB` -/

/-- The bitwise expression of `platformMapRGB` is the sum of the shifted
channels. -/
theorem mapRGB_or_eq_add (r g b : Nat) (hg : g < 256) (hb : b < 256) :
    (r <<< 16) ||| (g <<< 8) ||| b = r * 65536 + g * 256 + b := by
  have h1 : 2 ^ 16 * r + g * 2 ^ 8 = 2 ^ 16 * r ||| g * 2 ^ 8 :=
    Nat.mul_add_lt_is_or (by omega) r
  have h2 : 2 ^ 8 * (2 ^ 8 * r + g) + b = 2 ^ 8 * (2 ^ 8 * r + g) ||| b :=
    Nat.mul_add_lt_is_or (by omega) _
  rw [Nat.shiftLeft_eq, Nat.shiftLeft_eq]
  have e1 : r * 2 ^ 16 = 2 ^ 16 * r := Nat.mul_comm _ _
  rw [e1, ← h1]
  have e2 : 2 ^ 16 * r + g * 2 ^ 8 = 2 ^ 8 * (2 ^ 8 * r + g) := by ring
  rw [e2, ← h2]
  ring

/-- Claim C21.  For every surface (null included) and all 8-bit `r`, `g`, `b`,
`platformMapRGB` returns `r*65536 + g*256 + b`; the value is below `2^24`, it
is the same for every surface, and it determines `r`, `g` and `b`. -/
theorem platformMapRGB_spec (surface : Option PlatformSurface) (r g b : Byte) :
    platformMapRGB surface r g b = r.val * 65536 + g.val * 256 + b.val ∧
    platformMapRGB surface r g b < 2 ^ 24 ∧
    (∀ other : Option PlatformSurface,
      platformMapRGB other r g b = platformMapRGB surface r g b) ∧
    (∀ (other : Option PlatformSurface) (r1 g1 b1 : Byte),
      platformMapRGB other r1 g1 b1 = platformMapRGB surface r g b →
        r1 = r ∧ g1 = g ∧ b1 = b) := by
  have key : ∀ (s : Option PlatformSurface) (x y z : Byte),
      platformMapRGB s x y z = x.val * 65536 + y.val * 256 + z.val := by
    intro s x y z
    unfold platformMapRGB
    rw [mapRGB_or_eq_add _ _ _ y.isLt z.isLt]
    have := x.isLt; have := y.isLt; have := z.isLt
    omega
  refine ⟨key _ _ _ _, ?_, ?_, ?_⟩
  · rw [key]
    have := r.isLt; have := g.isLt; have := b.isLt
    omega
  · intro other
    rw [key, key]
  · intro other r1 g1 b1 h
    rw [key, key] at h
    have := r.isLt; have := g.isLt; have := b.isLt
    have := r1.isLt; have := g1.isLt; have := b1.isLt
    refine ⟨Fin.ext ?_, Fin.ext ?_, Fin.ext ?_⟩ <;> omega

/-- Witness of C21: (r, g, b) = (1, 2, 3) packs to 66051 on a null surface, and
a surface that gives the same value for (r1, g1, b1) forces (1, 2, 3). -/
theorem platformMapRGB_spec_witness :
    platformMapRGB none 1 2 3 = 66051 ∧
    platformMapRGB (some demoSrc) 1 2 3 = platformMapRGB none 1 2 3 ∧
    ((1 : Byte) = 1 ∧ (2 : Byte) = 2 ∧ (3 : Byte) = 3) :=
  ⟨(platformMapRGB_spec none 1 2 3).1.trans (by decide),
   (platformMapRGB_spec none 1 2 3).2.2.1 (some demoSrc),
   (platformMapRGB_spec none 1 2 3).2.2.2 (some demoSrc) 1 2 3
     ((platformMapRGB_spec none 1 2 3).2.2.1 (some demoSrc))⟩

/-! ## Claims on the key events -/

/-- Key-down events: in the three back ends the key code is computed from the
native event and lies in the closed set, and the web back end does the same
for key-up events. -/
theorem keyDown_keycode_closed :
    (∀ (t : Int) (k : Web.EmscriptenKeyboardEvent), (Web.keyEventOf t k).keycode.InClosedSet) ∧
    (∀ (old : PlatformEvent) (wParam : Nat) (alt : Bool),
      (Windows.stored old ⟨Windows.WM_KEYDOWN, wParam, alt⟩).keycode.InClosedSet ∧
      (Windows.stored old ⟨Windows.WM_KEYDOWN, wParam, alt⟩).type
        = PlatformEventType.EVENT_KEY_DOWN) ∧
    (∀ (ev : PlatformEvent) (keysym state : Nat) (del : Bool) (rest : List Linux.XEvent),
      (Linux.platformPollEvent true (⟨Linux.KeyPress, keysym, state, del⟩ :: rest)
        ev).2.1.keycode.InClosedSet ∧
      (Linux.platformPollEvent true (⟨Linux.KeyPress, keysym, state, del⟩ :: rest) ev).2.1.type
        = PlatformEventType.EVENT_KEY_DOWN) := by
  refine ⟨?_, ?_, ?_⟩
  · intro t k
    unfold Web.keyEventOf PlatformKeyCode.InClosedSet
    simp only
    split_ifs <;> simp
  · intro old wParam alt
    unfold Windows.stored PlatformKeyCode.InClosedSet
    simp only [Windows.WM_KEYDOWN, Windows.WM_CLOSE]
    refine ⟨?_, by simp⟩
    simp only [Nat.reduceEqDiff, if_false, if_true]
    split_ifs <;> simp
  · intro ev keysym state del rest
    unfold Linux.platformPollEvent PlatformKeyCode.InClosedSet
    simp only [if_true, Bool.true_eq_false, if_false, and_true]
    split_ifs <;> simp

/-- Claim C22 fails on the Linux and the Windows back ends: a key-up event
carries no key code of its own.  On Linux the poll that delivers the release of
Space assigns the type only, so key code and modifiers are those the caller's
buffer held before (here an earlier M with left-Alt); on Windows the slot keeps
the key members of the event stored there before, so after a press of M was
polled from the empty queue the release of Space is returned with key code M,
and after a press of Return with key code Return.  The web back end assigns
Space. -/
theorem keyUp_keycode_stale :
    (∀ (ev : PlatformEvent) (state : Nat),
      Linux.platformPollEvent true [⟨Linux.KeyRelease, Linux.XK_space, state, false⟩] ev
        = (1, { ev with type := PlatformEventType.EVENT_KEY_UP }, [])) ∧
    (Linux.platformPollEvent true [⟨Linux.KeyRelease, Linux.XK_space, 0, false⟩] keyDownM).2.1
      = ⟨PlatformEventType.EVENT_KEY_UP, PlatformKeyCode.KEY_M, 1⟩ ∧
    (Windows.platformPollEvent [⟨Windows.WM_KEYUP, Windows.VK_SPACE, false⟩]
        (Windows.platformPollEvent [⟨Windows.WM_KEYDOWN, Windows.VK_M, true⟩]
          emptyQueue noEvent).2.2 noEvent).2.1
      = ⟨PlatformEventType.EVENT_KEY_UP, PlatformKeyCode.KEY_M, 1⟩ ∧
    (Windows.platformPollEvent [⟨Windows.WM_KEYUP, Windows.VK_SPACE, false⟩]
        (Windows.platformPollEvent [⟨Windows.WM_KEYDOWN, Windows.VK_RETURN, false⟩]
          emptyQueue noEvent).2.2 noEvent).2.1
      = ⟨PlatformEventType.EVENT_KEY_UP, PlatformKeyCode.KEY_RETURN, 0⟩ ∧
    (∀ alt : Bool, (Web.keyEventOf Web.EMSCRIPTEN_EVENT_KEYUP ⟨" ", alt⟩).keycode
      = PlatformKeyCode.KEY_SPACE ∧
      (Web.keyEventOf Web.EMSCRIPTEN_EVENT_KEYUP ⟨" ", alt⟩).type
      = PlatformEventType.EVENT_KEY_UP) := by
  refine ⟨?_, by decide, by decide, by decide, ?_⟩
  · intro ev state
    rfl
  · intro alt
    cases alt <;> decide

/-! ## Claims on the audio refill -/

theorem memset_inside (m : Mem) (p : Int) (v : Byte) (n a : Int) (h1 : p ≤ a) (h2 : a < p + n) :
    memset m p v n a = v := by
  unfold memset
  rw [if_pos ⟨h1, h2⟩]

theorem memset_outside (m : Mem) (p : Int) (v : Byte) (n a : Int) (h : ¬ (p ≤ a ∧ a < p + n)) :
    memset m p v n a = m a := by
  unfold memset
  rw [if_neg h]

/-- A step of the closing thread keeps: the refill thread has returned, or
nothing is released yet and no release comes before the join. -/
theorem closeStep_guard (finished : Bool) (sh : Shared) (closer : List AudioStep)
    (r : Shared × List AudioStep) (h : closeStep finished sh closer = some r)
    (hg : finished = true ∨ (sh.freed = [] ∧ FreeAfter AudioStep.join closer = true)) :
    finished = true ∨ (r.1.freed = [] ∧ FreeAfter AudioStep.join r.2 = true) := by
  rcases hg with hf | ⟨h1, h2⟩
  · exact Or.inl hf
  · cases closer with
    | nil => simp [closeStep] at h
    | cons x rest =>
      cases x <;> simp only [closeStep] at h
      case join =>
        split_ifs at h with hfin
        exact Or.inl hfin
      case free p => simp [FreeAfter] at h2
      all_goals
        simp only [Option.some.injEq] at h
        subst h
        simp only [FreeAfter] at h2
        simp at h2
        exact Or.inr ⟨h1, h2⟩

theorem touchesFreed_nil (touched : Option Int) : touchesFreed touched [] = false := by
  cases touched <;> simp [touchesFreed]

theorem windows_threadStep_freed (buffers : Nat → Int) (sh : Shared) (pc : Windows.ThreadPc)
    (r : Shared × Windows.ThreadPc × Option Int) (h : Windows.threadStep buffers sh pc = some r) :
    r.1.freed = sh.freed ∧ pc ≠ Windows.ThreadPc.done := by
  cases pc <;> simp only [Windows.threadStep] at h
  case wait =>
    split_ifs at h
    simp only [Option.some.injEq] at h
    subst h
    exact ⟨rfl, by simp⟩
  case scan i =>
    split_ifs at h <;>
    · simp only [Option.some.injEq] at h
      subst h
      exact ⟨rfl, by simp⟩
  case done => simp at h
  all_goals
    simp only [Option.some.injEq] at h
    subst h
    exact ⟨rfl, by simp⟩

theorem linux_threadStep_freed (callback : Nat) (buffer : Int) (sh : Shared)
    (pc : Linux.ThreadPc) (r : Shared × Linux.ThreadPc × Option Int)
    (h : Linux.threadStep callback buffer sh pc = some r) :
    r.1.freed = sh.freed ∧ pc ≠ Linux.ThreadPc.done := by
  cases pc <;> simp only [Linux.threadStep] at h
  case done => simp at h
  all_goals
    simp only [Option.some.injEq] at h
    subst h
    exact ⟨rfl, by simp⟩

/-- Invariant of the Windows system: no violation, and while the refill thread
has not returned nothing is released and no release precedes the join. -/
theorem windows_sysStep_inv (buffers : Nat → Int) (s : AudioSys Windows.ThreadPc) (a : Actor)
    (h : s.violation = false ∧ (s.pc = Windows.ThreadPc.done ∨
      (s.sh.freed = [] ∧ FreeAfter AudioStep.join s.closer = true))) :
    (Windows.sysStep buffers s a).violation = false ∧
      ((Windows.sysStep buffers s a).pc = Windows.ThreadPc.done ∨
        ((Windows.sysStep buffers s a).sh.freed = [] ∧
          FreeAfter AudioStep.join (Windows.sysStep buffers s a).closer = true)) := by
  obtain ⟨hv, hg⟩ := h
  cases a with
  | closer =>
    simp only [Windows.sysStep]
    cases hc : closeStep (decide (s.pc = Windows.ThreadPc.done)) s.sh s.closer with
    | none => exact ⟨hv, hg⟩
    | some r =>
      refine ⟨hv, ?_⟩
      have := closeStep_guard _ _ _ r hc (by simpa using hg)
      simpa using this
  | refiller =>
    simp only [Windows.sysStep]
    cases ht : Windows.threadStep buffers s.sh s.pc with
    | none => exact ⟨hv, hg⟩
    | some r =>
      obtain ⟨hfr, hnd⟩ := windows_threadStep_freed buffers s.sh s.pc r ht
      rcases hg with hd | ⟨h1, h2⟩
      · exact absurd hd hnd
      · simp only [hv, h1, touchesFreed_nil, Bool.or_self, true_and]
        exact Or.inr ⟨by rw [hfr, h1], h2⟩
  | device i =>
    simp only [Windows.sysStep]
    exact ⟨hv, hg⟩

/-- Invariant of the Linux system. -/
theorem linux_sysStep_inv (callback : Nat) (buffer : Int) (s : AudioSys Linux.ThreadPc)
    (a : Actor)
    (h : s.violation = false ∧ (s.pc = Linux.ThreadPc.done ∨
      (s.sh.freed = [] ∧ FreeAfter AudioStep.join s.closer = true))) :
    (Linux.sysStep callback buffer s a).violation = false ∧
      ((Linux.sysStep callback buffer s a).pc = Linux.ThreadPc.done ∨
        ((Linux.sysStep callback buffer s a).sh.freed = [] ∧
          FreeAfter AudioStep.join (Linux.sysStep callback buffer s a).closer = true)) := by
  obtain ⟨hv, hg⟩ := h
  cases a with
  | closer =>
    simp only [Linux.sysStep]
    cases hc : closeStep (decide (s.pc = Linux.ThreadPc.done)) s.sh s.closer with
    | none => exact ⟨hv, hg⟩
    | some r =>
      refine ⟨hv, ?_⟩
      have := closeStep_guard _ _ _ r hc (by simpa using hg)
      simpa using this
  | refiller =>
    simp only [Linux.sysStep]
    cases ht : Linux.threadStep callback buffer s.sh s.pc with
    | none => exact ⟨hv, hg⟩
    | some r =>
      obtain ⟨hfr, hnd⟩ := linux_threadStep_freed callback buffer s.sh s.pc r ht
      rcases hg with hd | ⟨h1, h2⟩
      · exact absurd hd hnd
      · simp only [hv, h1, touchesFreed_nil, Bool.or_self, true_and]
        exact Or.inr ⟨by rw [hfr, h1], h2⟩
  | device i =>
    simp only [Linux.sysStep]
    exact ⟨hv, hg⟩

theorem Windows.closeBuffer_steps (s : Windows.AudioState) (i : Nat) :
    ∃ t, (Windows.closeBuffer s i).steps = s.steps ++ t := by
  unfold Windows.closeBuffer
  by_cases h1 : (s.waveHeaders i).dwFlags &&& Windows.WHDR_PREPARED = 0 <;>
  by_cases h2 : s.audioBuffers i = 0
  · exact ⟨[], by simp [h1, h2]⟩
  · exact ⟨[AudioStep.free (s.audioBuffers i)], by simp [h1, h2]⟩
  · exact ⟨[AudioStep.waveOutUnprepareHeader i], by simp [h1, h2]⟩
  · exact ⟨[AudioStep.waveOutUnprepareHeader i, AudioStep.free (s.audioBuffers i)],
      by simp [h1, h2]⟩

theorem Windows.closeDevice_steps (s : Windows.AudioState) :
    ∃ t, (Windows.closeDevice s).steps = s.steps ++ t ∧
      FreeAfter AudioStep.waveOutReset t = true := by
  unfold Windows.closeDevice
  by_cases hw : s.hWaveOut = 0
  · exact ⟨[], by simp [hw], rfl⟩
  · obtain ⟨t0, ht0⟩ := Windows.closeBuffer_steps
      { s with steps := s.steps ++ [AudioStep.waveOutReset] } 0
    obtain ⟨t1, ht1⟩ := Windows.closeBuffer_steps
      (Windows.closeBuffer { s with steps := s.steps ++ [AudioStep.waveOutReset] } 0) 1
    refine ⟨AudioStep.waveOutReset :: (t0 ++ t1 ++ [AudioStep.waveOutClose]), ?_,
      by simp [FreeAfter]⟩
    simp only [hw, ne_eq, not_false_eq_true, if_true, List.foldl_cons, List.foldl_nil, ht1, ht0]
    simp

theorem Windows.closeEvent_steps (s : Windows.AudioState) :
    (Windows.closeEvent s).steps = s.steps ∨
    (Windows.closeEvent s).steps = s.steps ++ [AudioStep.closeHandle s.audioEvent] := by
  unfold Windows.closeEvent
  by_cases he : s.audioEvent = 0
  · exact Or.inl (by simp [he])
  · exact Or.inr (by simp [he])

theorem FreeAfter_append_closeHandle (a : AudioStep) (t : List AudioStep) (h : Nat)
    (ht : FreeAfter a t = true) : FreeAfter a (t ++ [AudioStep.closeHandle h]) = true := by
  induction t with
  | nil => simp [FreeAfter]
  | cons x rest ih =>
    simp only [List.cons_append, FreeAfter] at ht ⊢
    by_cases hx : x = a
    · simp [hx]
    · simp only [hx, if_false] at ht ⊢
      cases x <;> first | exact ih ht | simp at ht

theorem Windows.closeLog_tail (st : Windows.AudioState) (h : st.audioThreadRunning ≠ 0) :
    ∃ tail, Windows.closeLog st = [AudioStep.storeRunning 0, AudioStep.setEvent, AudioStep.join,
      AudioStep.closeHandle st.audioThread] ++ tail ∧
      FreeAfter AudioStep.waveOutReset tail = true := by
  unfold Windows.closeLog Windows.platformCloseAudio
  have hs : (Windows.stopThread { st with steps := [] }).steps
      = [AudioStep.storeRunning 0, AudioStep.setEvent, AudioStep.join,
          AudioStep.closeHandle st.audioThread] := by
    simp [Windows.stopThread, h]
  obtain ⟨t, ht, hf⟩ := Windows.closeDevice_steps (Windows.stopThread { st with steps := [] })
  rw [hs] at ht
  rcases Windows.closeEvent_steps (Windows.closeDevice (Windows.stopThread { st with steps := [] }))
    with he | he
  · exact ⟨t, by rw [he, ht], hf⟩
  · exact ⟨t ++ [AudioStep.closeHandle _], by rw [he, ht, List.append_assoc],
      FreeAfter_append_closeHandle _ _ _ hf⟩

/-- The log of the Windows `platformCloseAudio` with the thread running: stop,
signal, join first; every release after the join and after the reset. -/
theorem windows_closeLog_order (st : Windows.AudioState) (h : st.audioThreadRunning ≠ 0) :
    (Windows.closeLog st).take 3
      = [AudioStep.storeRunning 0, AudioStep.setEvent, AudioStep.join] ∧
    FreeAfter AudioStep.join (Windows.closeLog st) = true ∧
    FreeAfter AudioStep.waveOutReset (Windows.closeLog st) = true := by
  obtain ⟨tail, ht, hf⟩ := Windows.closeLog_tail st h
  rw [ht]
  refine ⟨by simp, by simp [FreeAfter], ?_⟩
  simpa [FreeAfter] using hf

/-- The log of the Linux `platformCloseAudio` with the thread running and the
device open: stop, join, drain, close, then the release. -/
theorem linux_closeLog_order (st : Linux.AudioState) (h : st.audioThreadRunning ≠ 0)
    (hp : st.pcmHandle ≠ 0) :
    (Linux.closeLog st).take 4 = [AudioStep.storeRunning 0, AudioStep.join,
      AudioStep.snd_pcm_drain, AudioStep.snd_pcm_close] ∧
    FreeAfter AudioStep.join (Linux.closeLog st) = true ∧
    FreeAfter AudioStep.snd_pcm_drain (Linux.closeLog st) = true := by
  unfold Linux.closeLog Linux.platformCloseAudio
  simp only [h, hp, ne_eq, not_false_eq_true, if_true, List.nil_append]
  split_ifs <;> simp [FreeAfter]

/-- The log of the Windows `platformCloseAudio`, step by step: its three blocks,
each present exactly when its guard holds, the two buffers in order. -/
theorem windows_closeLog_exact (st : Windows.AudioState) :
    Windows.closeLog st =
      (if st.audioThreadRunning ≠ 0 then
        [AudioStep.storeRunning 0, AudioStep.setEvent, AudioStep.join,
         AudioStep.closeHandle st.audioThread] else []) ++
      (if st.hWaveOut ≠ 0 then
        [AudioStep.waveOutReset] ++
        (if (st.waveHeaders 0).dwFlags &&& Windows.WHDR_PREPARED ≠ 0
          then [AudioStep.waveOutUnprepareHeader 0] else []) ++
        (if st.audioBuffers 0 ≠ 0 then [AudioStep.free (st.audioBuffers 0)] else []) ++
        (if (st.waveHeaders 1).dwFlags &&& Windows.WHDR_PREPARED ≠ 0
          then [AudioStep.waveOutUnprepareHeader 1] else []) ++
        (if st.audioBuffers 1 ≠ 0 then [AudioStep.free (st.audioBuffers 1)] else []) ++
        [AudioStep.waveOutClose] else []) ++
      (if st.audioEvent ≠ 0 then [AudioStep.closeHandle st.audioEvent] else []) := by
  unfold Windows.closeLog Windows.platformCloseAudio
  by_cases hr : st.audioThreadRunning = 0 <;>
  by_cases hw : st.hWaveOut = 0 <;>
  by_cases he : st.audioEvent = 0 <;>
  by_cases hp0 : (st.waveHeaders 0).dwFlags &&& Windows.WHDR_PREPARED = 0 <;>
  by_cases hb0 : st.audioBuffers 0 = 0 <;>
  by_cases hp1 : (st.waveHeaders 1).dwFlags &&& Windows.WHDR_PREPARED = 0 <;>
  by_cases hb1 : st.audioBuffers 1 = 0 <;>
  simp [Windows.stopThread, Windows.closeDevice, Windows.closeBuffer, Windows.closeEvent,
    setIdx, hr, hw, he, hp0, hb0, hp1, hb1]

/-- The log of the Linux `platformCloseAudio`, step by step. -/
theorem linux_closeLog_exact (st : Linux.AudioState) :
    Linux.closeLog st =
      (if st.audioThreadRunning ≠ 0 then [AudioStep.storeRunning 0, AudioStep.join] else []) ++
      (if st.pcmHandle ≠ 0 then [AudioStep.snd_pcm_drain, AudioStep.snd_pcm_close] else []) ++
      (if st.audioBuffer ≠ 0 then [AudioStep.free st.audioBuffer] else []) := by
  unfold Linux.closeLog Linux.platformCloseAudio
  by_cases hr : st.audioThreadRunning = 0 <;>
  by_cases hp : st.pcmHandle = 0 <;>
  by_cases hb : st.audioBuffer = 0 <;>
  simp [hr, hp, hb]

/-- Claim C24.  With the refill thread running, `platformCloseAudio` first
clears `audioThreadRunning` and joins the thread (Windows: after signalling the
event), and every `free` of an audio buffer comes after the join and after the
reset (Windows) or the drain (Linux, device open) of the device.  In every
interleaving of the steps of `platformCloseAudio` with steps of the refill
thread and of the device, started with the refill thread at any position (at
its end when `audioThreadRunning` is 0, no thread existing then), the refill
thread never reads or writes a buffer that is already released, and once a
buffer is released the refill thread has returned.  The steps of
`platformCloseAudio` are, in this order and no others: on Windows, with the
thread running, the store of 0, `SetEvent`, the wait for the thread and the
close of its handle; with the device open, `waveOutReset`, then for buffer 0
and for buffer 1 `waveOutUnprepareHeader` (header prepared) and `free`
(pointer not null), then `waveOutClose`; with the event created, the close of
its handle.  On Linux, with the thread running, the store of 0 and
`pthread_join`; with the device open, `snd_pcm_drain` and `snd_pcm_close`;
with the buffer not null, its `free`. -/
theorem closeAudio_joins_before_free :
    (∀ st : Windows.AudioState, st.audioThreadRunning ≠ 0 →
      (Windows.closeLog st).take 3
        = [AudioStep.storeRunning 0, AudioStep.setEvent, AudioStep.join] ∧
      FreeAfter AudioStep.join (Windows.closeLog st) = true ∧
      FreeAfter AudioStep.waveOutReset (Windows.closeLog st) = true) ∧
    (∀ st : Linux.AudioState, st.audioThreadRunning ≠ 0 → st.pcmHandle ≠ 0 →
      (Linux.closeLog st).take 4 = [AudioStep.storeRunning 0, AudioStep.join,
        AudioStep.snd_pcm_drain, AudioStep.snd_pcm_close] ∧
      FreeAfter AudioStep.join (Linux.closeLog st) = true ∧
      FreeAfter AudioStep.snd_pcm_drain (Linux.closeLog st) = true) ∧
    (∀ (st : Windows.AudioState) (pc0 : Windows.ThreadPc) (event0 : Bool)
        (schedule : List Actor),
      (st.audioThreadRunning = 0 → pc0 = Windows.ThreadPc.done) →
      (schedule.foldl (Windows.sysStep st.audioBuffers)
        (Windows.closeSys st pc0 event0)).violation = false ∧
      ((schedule.foldl (Windows.sysStep st.audioBuffers)
        (Windows.closeSys st pc0 event0)).sh.freed ≠ [] →
        (schedule.foldl (Windows.sysStep st.audioBuffers)
          (Windows.closeSys st pc0 event0)).pc = Windows.ThreadPc.done)) ∧
    (∀ (st : Linux.AudioState) (pc0 : Linux.ThreadPc) (schedule : List Actor),
      (st.audioThreadRunning = 0 → pc0 = Linux.ThreadPc.done) →
      (schedule.foldl (Linux.sysStep st.audioCallback st.audioBuffer)
        (Linux.closeSys st pc0)).violation = false ∧
      ((schedule.foldl (Linux.sysStep st.audioCallback st.audioBuffer)
        (Linux.closeSys st pc0)).sh.freed ≠ [] →
        (schedule.foldl (Linux.sysStep st.audioCallback st.audioBuffer)
          (Linux.closeSys st pc0)).pc = Linux.ThreadPc.done)) ∧
    (∀ st : Windows.AudioState,
      Windows.closeLog st =
        (if st.audioThreadRunning ≠ 0 then
          [AudioStep.storeRunning 0, AudioStep.setEvent, AudioStep.join,
           AudioStep.closeHandle st.audioThread] else []) ++
        (if st.hWaveOut ≠ 0 then
          [AudioStep.waveOutReset] ++
          (if (st.waveHeaders 0).dwFlags &&& Windows.WHDR_PREPARED ≠ 0
            then [AudioStep.waveOutUnprepareHeader 0] else []) ++
          (if st.audioBuffers 0 ≠ 0 then [AudioStep.free (st.audioBuffers 0)] else []) ++
          (if (st.waveHeaders 1).dwFlags &&& Windows.WHDR_PREPARED ≠ 0
            then [AudioStep.waveOutUnprepareHeader 1] else []) ++
          (if st.audioBuffers 1 ≠ 0 then [AudioStep.free (st.audioBuffers 1)] else []) ++
          [AudioStep.waveOutClose] else []) ++
        (if st.audioEvent ≠ 0 then [AudioStep.closeHandle st.audioEvent] else [])) ∧
    (∀ st : Linux.AudioState,
      Linux.closeLog st =
        (if st.audioThreadRunning ≠ 0 then [AudioStep.storeRunning 0, AudioStep.join]
          else []) ++
        (if st.pcmHandle ≠ 0 then [AudioStep.snd_pcm_drain, AudioStep.snd_pcm_close]
          else []) ++
        (if st.audioBuffer ≠ 0 then [AudioStep.free st.audioBuffer] else [])) := by
  refine ⟨windows_closeLog_order, linux_closeLog_order, ?_, ?_,
    windows_closeLog_exact, linux_closeLog_exact⟩
  · intro st pc0 event0 schedule h0
    have hinit : (Windows.closeSys st pc0 event0).violation = false ∧
        ((Windows.closeSys st pc0 event0).pc = Windows.ThreadPc.done ∨
          ((Windows.closeSys st pc0 event0).sh.freed = [] ∧
            FreeAfter AudioStep.join (Windows.closeSys st pc0 event0).closer = true)) := by
      refine ⟨rfl, ?_⟩
      by_cases hr : st.audioThreadRunning = 0
      · exact Or.inl (h0 hr)
      · exact Or.inr ⟨rfl, (windows_closeLog_order st hr).2.1⟩
    have hfin := foldl_invariant (Windows.sysStep st.audioBuffers)
      (fun s => s.violation = false ∧ (s.pc = Windows.ThreadPc.done ∨
        (s.sh.freed = [] ∧ FreeAfter AudioStep.join s.closer = true))) schedule
      (fun a _ s hs => windows_sysStep_inv st.audioBuffers s a hs) _ hinit
    refine ⟨hfin.1, fun hne => ?_⟩
    rcases hfin.2 with hd | ⟨hf, _⟩
    · exact hd
    · exact absurd hf hne
  · intro st pc0 schedule h0
    have hinit : (Linux.closeSys st pc0).violation = false ∧
        ((Linux.closeSys st pc0).pc = Linux.ThreadPc.done ∨
          ((Linux.closeSys st pc0).sh.freed = [] ∧
            FreeAfter AudioStep.join (Linux.closeSys st pc0).closer = true)) := by
      refine ⟨rfl, ?_⟩
      by_cases hr : st.audioThreadRunning = 0
      · exact Or.inl (h0 hr)
      · refine Or.inr ⟨rfl, ?_⟩
        show FreeAfter AudioStep.join (Linux.closeLog st) = true
        unfold Linux.closeLog Linux.platformCloseAudio
        simp only [hr, ne_eq, not_false_eq_true, if_true, List.nil_append]
        split_ifs <;> simp [FreeAfter]
    have hfin := foldl_invariant (Linux.sysStep st.audioCallback st.audioBuffer)
      (fun s => s.violation = false ∧ (s.pc = Linux.ThreadPc.done ∨
        (s.sh.freed = [] ∧ FreeAfter AudioStep.join s.closer = true))) schedule
      (fun a _ s hs => linux_sysStep_inv st.audioCallback st.audioBuffer s a hs) _ hinit
    refine ⟨hfin.1, fun hne => ?_⟩
    rcases hfin.2 with hd | ⟨hf, _⟩
    · exact hd
    · exact absurd hf hne

/-- Witness of C24: a close that starts while the Linux refill thread is in the
callback ends with the buffer released and no violation; a Windows close that
starts while the refill thread is in the fill of buffer 0 performs the eleven
steps of its log, the reset before the two releases, and ends with both
buffers released, the thread returned and no violation. -/
theorem closeAudio_joins_before_free_witness :
    Linux.closeLog { linuxAudio with audioCallback := 9 }
      = [AudioStep.storeRunning 0, AudioStep.join, AudioStep.snd_pcm_drain,
         AudioStep.snd_pcm_close, AudioStep.free 1000] ∧
    (closeRace.foldl (Linux.sysStep 9 1000)
      (Linux.closeSys { linuxAudio with audioCallback := 9 } Linux.ThreadPc.call)).sh.freed
      = [1000] ∧
    (closeRace.foldl (Linux.sysStep 9 1000)
      (Linux.closeSys { linuxAudio with audioCallback := 9 } Linux.ThreadPc.call)).violation
      = false ∧
    FreeAfter AudioStep.waveOutReset (Windows.closeLog winAudio) = true ∧
    ([Actor.closer, Actor.device 1, Actor.refiller, Actor.closer].foldl
      (Windows.sysStep winAudio.audioBuffers)
      (Windows.closeSys winAudio (Windows.ThreadPc.fill 0) false)).violation = false ∧
    Windows.closeLog winAudio
      = [AudioStep.storeRunning 0, AudioStep.setEvent, AudioStep.join,
         AudioStep.closeHandle 7, AudioStep.waveOutReset,
         AudioStep.waveOutUnprepareHeader 0, AudioStep.free 1000,
         AudioStep.waveOutUnprepareHeader 1, AudioStep.free 2000,
         AudioStep.waveOutClose, AudioStep.closeHandle 6] ∧
    (closeRaceWindows.foldl (Windows.sysStep winAudio.audioBuffers)
      (Windows.closeSys winAudio (Windows.ThreadPc.fill 0) false)).sh.freed
      = [2000, 1000] ∧
    (closeRaceWindows.foldl (Windows.sysStep winAudio.audioBuffers)
      (Windows.closeSys winAudio (Windows.ThreadPc.fill 0) false)).closer = [] ∧
    (closeRaceWindows.foldl (Windows.sysStep winAudio.audioBuffers)
      (Windows.closeSys winAudio (Windows.ThreadPc.fill 0) false)).pc
      = Windows.ThreadPc.done ∧
    (closeRaceWindows.foldl (Windows.sysStep winAudio.audioBuffers)
      (Windows.closeSys winAudio (Windows.ThreadPc.fill 0) false)).violation = false :=
  ⟨by decide, by decide,
   (closeAudio_joins_before_free.2.2.2.1 { linuxAudio with audioCallback := 9 }
      Linux.ThreadPc.call closeRace (by decide)).1,
   (closeAudio_joins_before_free.1 winAudio (by decide)).2.2,
   (closeAudio_joins_before_free.2.2.1 winAudio (Windows.ThreadPc.fill 0) false
      [Actor.closer, Actor.device 1, Actor.refiller, Actor.closer] (by decide)).1,
   (closeAudio_joins_before_free.2.2.2.2.1 winAudio).trans (by decide),
   by decide, by decide,
   (closeAudio_joins_before_free.2.2.1 winAudio (Windows.ThreadPc.fill 0) false
      closeRaceWindows (by decide)).2 (by decide),
   (closeAudio_joins_before_free.2.2.1 winAudio (Windows.ThreadPc.fill 0) false
      closeRaceWindows (by decide)).1⟩

/-! ## Claims on the hot keys -/

theorem lnot_flag (v : Int) : lnot v = 0 ∨ lnot v = 1 := by
  unfold lnot
  split_ifs <;> simp

theorem lnot_lnot (v : Int) (h : v = 0 ∨ v = 1) : lnot (lnot v) = v := by
  rcases h with h | h <;> subst h <;> decide

/-- Every event keeps the two flags in {0, 1}. -/
theorem processEvent_flags (st : EventsState) (e : PlatformEvent)
    (h : (st.paused = 0 ∨ st.paused = 1) ∧ (st.maxSpeed = 0 ∨ st.maxSpeed = 1)) :
    ((processEvent st e).paused = 0 ∨ (processEvent st e).paused = 1) ∧
    ((processEvent st e).maxSpeed = 0 ∨ (processEvent st e).maxSpeed = 1) := by
  obtain ⟨t, k, mods⟩ := e
  unfold processEvent
  cases t <;> simp only <;> try exact h
  by_cases hh : st.evHotKeysEnabled = 0
  · simp only [hh, ne_eq, not_true_eq_false, if_false]
    exact h
  · simp only [hh, ne_eq, not_false_eq_true, if_true]
    cases k <;> simp only <;> first
      | exact h
      | exact ⟨lnot_flag _, h.2⟩
      | exact ⟨h.1, lnot_flag _⟩
      | (split_ifs <;> exact h)

/-- The loop of `eventsProcessEvents` with no event pending changes nothing. -/
theorem eventsProcessEvents_nil (s : EventsState) : eventsProcessEvents s [] = s := rfl

/-- The loop of `eventsProcessEvents` handles the first polled event with the
`switch` and goes on with the others. -/
theorem eventsProcessEvents_cons (s : EventsState) (e : PlatformEvent)
    (polled : List PlatformEvent) (hx : s.exited = false) :
    eventsProcessEvents s (e :: polled) = eventsProcessEvents (processEvent s e) polled := by
  simp [eventsProcessEvents, hx]

/-- One polled event: the loop of `eventsProcessEvents` is one pass through the
`switch`. -/
theorem eventsProcessEvents_single (s : EventsState) (e : PlatformEvent)
    (hx : s.exited = false) : eventsProcessEvents s [e] = processEvent s e := by
  simp [eventsProcessEvents, hx]

/-- A key-up event anywhere in the queue is skipped. -/
theorem eventsProcessEvents_keyUp (s : EventsState) (k : PlatformKeyCode) (mods : Nat)
    (polled : List PlatformEvent) :
    eventsProcessEvents s (keyEvent PlatformEventType.EVENT_KEY_UP k mods :: polled)
      = eventsProcessEvents s polled := by
  simp [eventsProcessEvents, processEvent, keyEvent]

/-- Claim C25.  With hot keys enabled: a key-down of Space replaces `paused`
by its negation and changes nothing else; a key-down of M does the same with
`maxSpeed`; on the flag values 0 and 1, which are the only ones reached from
the initial state, two presses of the same key restore the state; a key-down
of Return sets `oneFrame` and calls `grToggleFullScreen` exactly when the
left-Alt bit of the modifiers is set; a key-up event changes nothing.  All of
this is stated for the `switch` and for `eventsProcessEvents` itself, which
handles the polled events one after the other, the first with the `switch`:
polling one key-down of Space, of M or of Return has the effect above, polling
two key-downs of Space or of M restores the state, and a key-up anywhere in the
queue is skipped. -/
theorem hotkeys_spec (st : EventsState) (mods : Nat) (h : st.evHotKeysEnabled ≠ 0) :
    processEvent st (keyEvent PlatformEventType.EVENT_KEY_DOWN PlatformKeyCode.KEY_SPACE mods)
      = { st with paused := lnot st.paused } ∧
    processEvent st (keyEvent PlatformEventType.EVENT_KEY_DOWN PlatformKeyCode.KEY_M mods)
      = { st with maxSpeed := lnot st.maxSpeed } ∧
    ((st.paused = 0 ∨ st.paused = 1) →
      processEvent
        (processEvent st (keyEvent PlatformEventType.EVENT_KEY_DOWN PlatformKeyCode.KEY_SPACE mods))
        (keyEvent PlatformEventType.EVENT_KEY_DOWN PlatformKeyCode.KEY_SPACE mods) = st) ∧
    ((st.maxSpeed = 0 ∨ st.maxSpeed = 1) →
      processEvent
        (processEvent st (keyEvent PlatformEventType.EVENT_KEY_DOWN PlatformKeyCode.KEY_M mods))
        (keyEvent PlatformEventType.EVENT_KEY_DOWN PlatformKeyCode.KEY_M mods) = st) ∧
    (∀ (hot : Int) (polled : List PlatformEvent),
      ((eventsProcessEvents (eventsInitial hot) polled).paused = 0 ∨
        (eventsProcessEvents (eventsInitial hot) polled).paused = 1) ∧
      ((eventsProcessEvents (eventsInitial hot) polled).maxSpeed = 0 ∨
        (eventsProcessEvents (eventsInitial hot) polled).maxSpeed = 1)) ∧
    (mods &&& KEYMOD_LALT ≠ 0 →
      processEvent st (keyEvent PlatformEventType.EVENT_KEY_DOWN PlatformKeyCode.KEY_RETURN mods)
        = { st with oneFrame := 1, calls := st.calls ++ [EventCall.grToggleFullScreen] }) ∧
    (mods &&& KEYMOD_LALT = 0 →
      processEvent st (keyEvent PlatformEventType.EVENT_KEY_DOWN PlatformKeyCode.KEY_RETURN mods)
        = { st with oneFrame := 1 }) ∧
    (∀ k : PlatformKeyCode,
      processEvent st (keyEvent PlatformEventType.EVENT_KEY_UP k mods) = st) ∧
    eventsProcessEvents st [] = st ∧
    (∀ (s : EventsState) (e : PlatformEvent) (polled : List PlatformEvent),
      s.exited = false →
      eventsProcessEvents s (e :: polled) = eventsProcessEvents (processEvent s e) polled) ∧
    (st.exited = false →
      eventsProcessEvents st
          [keyEvent PlatformEventType.EVENT_KEY_DOWN PlatformKeyCode.KEY_SPACE mods]
        = { st with paused := lnot st.paused } ∧
      eventsProcessEvents st
          [keyEvent PlatformEventType.EVENT_KEY_DOWN PlatformKeyCode.KEY_M mods]
        = { st with maxSpeed := lnot st.maxSpeed } ∧
      ((st.paused = 0 ∨ st.paused = 1) →
        eventsProcessEvents st
          [keyEvent PlatformEventType.EVENT_KEY_DOWN PlatformKeyCode.KEY_SPACE mods,
           keyEvent PlatformEventType.EVENT_KEY_DOWN PlatformKeyCode.KEY_SPACE mods] = st) ∧
      ((st.maxSpeed = 0 ∨ st.maxSpeed = 1) →
        eventsProcessEvents st
          [keyEvent PlatformEventType.EVENT_KEY_DOWN PlatformKeyCode.KEY_M mods,
           keyEvent PlatformEventType.EVENT_KEY_DOWN PlatformKeyCode.KEY_M mods] = st) ∧
      (mods &&& KEYMOD_LALT ≠ 0 →
        eventsProcessEvents st
            [keyEvent PlatformEventType.EVENT_KEY_DOWN PlatformKeyCode.KEY_RETURN mods]
          = { st with oneFrame := 1, calls := st.calls ++ [EventCall.grToggleFullScreen] }) ∧
      (mods &&& KEYMOD_LALT = 0 →
        eventsProcessEvents st
            [keyEvent PlatformEventType.EVENT_KEY_DOWN PlatformKeyCode.KEY_RETURN mods]
          = { st with oneFrame := 1 })) ∧
    (∀ (k : PlatformKeyCode) (polled : List PlatformEvent),
      eventsProcessEvents st (keyEvent PlatformEventType.EVENT_KEY_UP k mods :: polled)
        = eventsProcessEvents st polled) := by
  have hs : processEvent st
      (keyEvent PlatformEventType.EVENT_KEY_DOWN PlatformKeyCode.KEY_SPACE mods)
      = { st with paused := lnot st.paused } := by
    simp [processEvent, keyEvent, h]
  have hm : processEvent st
      (keyEvent PlatformEventType.EVENT_KEY_DOWN PlatformKeyCode.KEY_M mods)
      = { st with maxSpeed := lnot st.maxSpeed } := by
    simp [processEvent, keyEvent, h]
  have hss : (st.paused = 0 ∨ st.paused = 1) →
      processEvent
        (processEvent st (keyEvent PlatformEventType.EVENT_KEY_DOWN PlatformKeyCode.KEY_SPACE mods))
        (keyEvent PlatformEventType.EVENT_KEY_DOWN PlatformKeyCode.KEY_SPACE mods) = st := by
    intro hp
    rw [hs]
    simp only [processEvent, keyEvent, h, ne_eq, not_false_eq_true, if_true]
    rw [lnot_lnot _ hp]
  have hmm : (st.maxSpeed = 0 ∨ st.maxSpeed = 1) →
      processEvent
        (processEvent st (keyEvent PlatformEventType.EVENT_KEY_DOWN PlatformKeyCode.KEY_M mods))
        (keyEvent PlatformEventType.EVENT_KEY_DOWN PlatformKeyCode.KEY_M mods) = st := by
    intro hp
    rw [hm]
    simp only [processEvent, keyEvent, h, ne_eq, not_false_eq_true, if_true]
    rw [lnot_lnot _ hp]
  have hra : mods &&& KEYMOD_LALT ≠ 0 →
      processEvent st (keyEvent PlatformEventType.EVENT_KEY_DOWN PlatformKeyCode.KEY_RETURN mods)
        = { st with oneFrame := 1, calls := st.calls ++ [EventCall.grToggleFullScreen] } := by
    intro ha
    simp [processEvent, keyEvent, h, ha]
  have hrn : mods &&& KEYMOD_LALT = 0 →
      processEvent st (keyEvent PlatformEventType.EVENT_KEY_DOWN PlatformKeyCode.KEY_RETURN mods)
        = { st with oneFrame := 1 } := by
    intro ha
    simp [processEvent, keyEvent, h, ha]
  refine ⟨hs, hm, hss, hmm, ?_, hra, hrn, ?_, rfl, eventsProcessEvents_cons, ?_,
    fun k polled => eventsProcessEvents_keyUp st k mods polled⟩
  · intro hot polled
    exact foldl_invariant (fun s e => if s.exited then s else processEvent s e)
      (fun s => (s.paused = 0 ∨ s.paused = 1) ∧ (s.maxSpeed = 0 ∨ s.maxSpeed = 1)) polled
      (fun e _ s hs => by
        simp only
        split_ifs
        · exact hs
        · exact processEvent_flags s e hs)
      (eventsInitial hot) ⟨Or.inl rfl, Or.inl rfl⟩
  · intro k
    simp [processEvent, keyEvent]
  · intro hx
    have hxs : (processEvent st
        (keyEvent PlatformEventType.EVENT_KEY_DOWN PlatformKeyCode.KEY_SPACE mods)).exited
        = false := by rw [hs]; exact hx
    have hxm : (processEvent st
        (keyEvent PlatformEventType.EVENT_KEY_DOWN PlatformKeyCode.KEY_M mods)).exited
        = false := by rw [hm]; exact hx
    refine ⟨?_, ?_, ?_, ?_, ?_, ?_⟩
    · rw [eventsProcessEvents_single _ _ hx, hs]
    · rw [eventsProcessEvents_single _ _ hx, hm]
    · intro hp
      rw [eventsProcessEvents_cons _ _ _ hx, eventsProcessEvents_single _ _ hxs]
      exact hss hp
    · intro hp
      rw [eventsProcessEvents_cons _ _ _ hx, eventsProcessEvents_single _ _ hxm]
      exact hmm hp
    · intro ha
      rw [eventsProcessEvents_single _ _ hx]
      exact hra ha
    · intro ha
      rw [eventsProcessEvents_single _ _ hx]
      exact hrn ha

/-- Witness of C25: Space, twice M, and Alt+Return from the initial state with
hot keys enabled, through the `switch` and through `eventsProcessEvents`; a
queue of a key-up, Space, a key-up and Alt+Return. -/
theorem hotkeys_spec_witness :
    processEvent (eventsInitial 1)
        (keyEvent PlatformEventType.EVENT_KEY_DOWN PlatformKeyCode.KEY_SPACE 0)
      = { eventsInitial 1 with paused := 1 } ∧
    processEvent
        (processEvent (eventsInitial 1)
          (keyEvent PlatformEventType.EVENT_KEY_DOWN PlatformKeyCode.KEY_M 0))
        (keyEvent PlatformEventType.EVENT_KEY_DOWN PlatformKeyCode.KEY_M 0)
      = eventsInitial 1 ∧
    processEvent (eventsInitial 1)
        (keyEvent PlatformEventType.EVENT_KEY_DOWN PlatformKeyCode.KEY_RETURN 1)
      = { eventsInitial 1 with oneFrame := 1, calls := [EventCall.grToggleFullScreen] } ∧
    eventsProcessEvents (eventsInitial 1)
        [keyEvent PlatformEventType.EVENT_KEY_DOWN PlatformKeyCode.KEY_SPACE 0]
      = { eventsInitial 1 with paused := 1 } ∧
    eventsProcessEvents (eventsInitial 1)
        [keyEvent PlatformEventType.EVENT_KEY_DOWN PlatformKeyCode.KEY_M 0,
         keyEvent PlatformEventType.EVENT_KEY_DOWN PlatformKeyCode.KEY_M 0]
      = eventsInitial 1 ∧
    eventsProcessEvents (eventsInitial 1)
        [keyEvent PlatformEventType.EVENT_KEY_DOWN PlatformKeyCode.KEY_RETURN 1]
      = { eventsInitial 1 with oneFrame := 1, calls := [EventCall.grToggleFullScreen] } ∧
    eventsProcessEvents (eventsInitial 1)
        [keyEvent PlatformEventType.EVENT_KEY_UP PlatformKeyCode.KEY_SPACE 0,
         keyEvent PlatformEventType.EVENT_KEY_DOWN PlatformKeyCode.KEY_SPACE 0,
         keyEvent PlatformEventType.EVENT_KEY_UP PlatformKeyCode.KEY_SPACE 0,
         keyEvent PlatformEventType.EVENT_KEY_DOWN PlatformKeyCode.KEY_RETURN 1]
      = { eventsInitial 1 with paused := 1, oneFrame := 1,
                               calls := [EventCall.grToggleFullScreen] } :=
  ⟨(hotkeys_spec (eventsInitial 1) 0 (by decide)).1,
   (hotkeys_spec (eventsInitial 1) 0 (by decide)).2.2.2.1 (Or.inl rfl),
   (hotkeys_spec (eventsInitial 1) 1 (by decide)).2.2.2.2.2.1 (by decide),
   ((hotkeys_spec (eventsInitial 1) 0 (by decide)).2.2.2.2.2.2.2.2.2.2.1 rfl).1,
   ((hotkeys_spec (eventsInitial 1) 0 (by decide)).2.2.2.2.2.2.2.2.2.2.1 rfl).2.2.2.1
     (Or.inl rfl),
   ((hotkeys_spec (eventsInitial 1) 1 (by decide)).2.2.2.2.2.2.2.2.2.2.1 rfl).2.2.2.2.1
     (by decide),
   by decide⟩

/-! ## Claims on the clamp of the blit -/

/-- The clamp of `platformBlitSurface` is the symmetric adjustment of the
specification. -/
theorem blitClamp_eq_symmetricClamp (s : PlatformSurface) (srcRect : Option PlatformRect)
    (d : PlatformSurface) (dstRect : Option PlatformRect) :
    blitClamp s srcRect d dstRect = symmetricClamp s srcRect d dstRect := by
  cases srcRect <;> cases dstRect <;>
  · simp only [blitClamp, symmetricClamp, clampAxis, rectX, rectY, BlitRegion.mk.injEq]
    refine ⟨?_, ?_, ?_, ?_, ?_, ?_⟩ <;> split_ifs <;> omega

/-- Two calls whose clamps agree leave the same memory. -/
theorem platformBlitSurface_congr (m : Mem) (s d : PlatformSurface)
    (r1 q1 r2 q2 : Option PlatformRect) (h : blitClamp s r1 d q1 = blitClamp s r2 d q2) :
    platformBlitSurface m (some s) r1 (some d) q1 = platformBlitSurface m (some s) r2 (some d) q2 := by
  unfold platformBlitSurface
  simp only [h]

/-- Claim C26.  The clamp of the code is the symmetric adjustment of the
specification.  When the destination x lies `k > 0` pixels left of the clip
rectangle and the source rectangle is at least `k` wide, the blit of source
rectangle (sx, sy, w, h) to (dx, dy) leaves the same memory as the blit of
(sx+k, sy, w-k, h) to (clip.x, dy); likewise for y above the clip rectangle.
When the destination origin is inside the clip rectangle, the clamp keeps
source and destination origin, and width and height are cut exactly to the
right and bottom clip edge when they exceed it, and kept otherwise. -/
theorem blit_symmetric_clamp (m : Mem) (s d : PlatformSurface) (sx sy w h dx dy dw dh : Int) :
    (∀ srcRect dstRect, blitClamp s srcRect d dstRect = symmetricClamp s srcRect d dstRect) ∧
    (∀ k : Int, 0 < k → k ≤ w → dx + k = d.clipRect.x →
      platformBlitSurface m (some s) (some ⟨sx, sy, w, h⟩) (some d) (some ⟨dx, dy, dw, dh⟩)
        = platformBlitSurface m (some s) (some ⟨sx + k, sy, w - k, h⟩) (some d)
            (some ⟨d.clipRect.x, dy, dw, dh⟩)) ∧
    (∀ k : Int, 0 < k → k ≤ h → dy + k = d.clipRect.y →
      platformBlitSurface m (some s) (some ⟨sx, sy, w, h⟩) (some d) (some ⟨dx, dy, dw, dh⟩)
        = platformBlitSurface m (some s) (some ⟨sx, sy + k, w, h - k⟩) (some d)
            (some ⟨dx, d.clipRect.y, dw, dh⟩)) ∧
    (d.clipRect.x ≤ dx → d.clipRect.y ≤ dy →
      blitClamp s (some ⟨sx, sy, w, h⟩) d (some ⟨dx, dy, dw, dh⟩)
        = { srcX := sx, srcY := sy, dstX := dx, dstY := dy,
            srcW := if dx + w > d.clipRect.x + d.clipRect.w
              then d.clipRect.x + d.clipRect.w - dx else w,
            srcH := if dy + h > d.clipRect.y + d.clipRect.h
              then d.clipRect.y + d.clipRect.h - dy else h }) := by
  refine ⟨fun srcRect dstRect => blitClamp_eq_symmetricClamp s srcRect d dstRect, ?_, ?_, ?_⟩
  · intro k hk hkw hdx
    apply platformBlitSurface_congr
    simp only [blitClamp, BlitRegion.mk.injEq]
    refine ⟨?_, ?_, ?_, ?_, ?_, ?_⟩ <;> first | trivial | (split_ifs <;> omega)
  · intro k hk hkh hdy
    apply platformBlitSurface_congr
    simp only [blitClamp, BlitRegion.mk.injEq]
    refine ⟨?_, ?_, ?_, ?_, ?_, ?_⟩ <;> first | trivial | (split_ifs <;> omega)
  · intro hx hy
    simp only [blitClamp, BlitRegion.mk.injEq]
    refine ⟨?_, ?_, ?_, ?_, ?_, ?_⟩ <;> first | trivial | (split_ifs <;> omega)

/-- Witness of C26: a destination one pixel left of a clip rectangle of width
1, and a copy cut at the right clip edge. -/
theorem blit_symmetric_clamp_witness :
    platformBlitSurface demoMem (some demoSrc) (some ⟨0, 0, 2, 2⟩) (some demoDst)
        (some ⟨-1, 0, 0, 0⟩)
      = platformBlitSurface demoMem (some demoSrc) (some ⟨1, 0, 1, 2⟩) (some demoDst)
          (some ⟨demoDst.clipRect.x, 0, 0, 0⟩) ∧
    platformBlitSurface demoMem (some demoSrc) (some ⟨1, 0, 1, 2⟩) (some demoDst)
        (some ⟨0, 0, 0, 0⟩) 1000 = 7 ∧
    blitClamp demoSrc (some ⟨0, 0, 2, 2⟩) demoDst (some ⟨0, 0, 0, 0⟩)
      = { srcX := 0, srcY := 0, dstX := 0, dstY := 0, srcW := 1, srcH := 2 } :=
  ⟨(blit_symmetric_clamp demoMem demoSrc demoDst 0 0 2 2 (-1) 0 0 0).2.1 1
      (by decide) (by decide) (by decide),
   by decide,
   ((blit_symmetric_clamp demoMem demoSrc demoDst 0 0 2 2 0 0 0 0).2.2.2
      (by decide) (by decide)).trans (by decide)⟩

/-! ## Claims on the channel count of `platformLoadWAV` -/

/-- Claim C27, as the code has it.  For every file that `platformLoadWAV`
decodes successfully, `spec.channels` (a `uint8`) is the 16-bit little-endian
value at header bytes [22..24) reduced modulo 256: it is below 256, and it
equals the field exactly when the field is below 256 (high byte 0). -/
theorem platformLoadWAV_channels (fs : String → Option (List Byte)) (filename : String)
    (data : List Byte) (st : WavState) (hf : fs filename = some data)
    (hok : (platformLoadWAV fs filename st).1 = 0) :
    (platformLoadWAV fs filename st).2.spec.channels = readLE16 data 22 % 256 ∧
    (platformLoadWAV fs filename st).2.spec.channels < 256 ∧
    ((platformLoadWAV fs filename st).2.spec.channels = readLE16 data 22
      ↔ readLE16 data 22 < 256) := by
  have key : (platformLoadWAV fs filename st).2.spec.channels = readLE16 data 22 % 256 := by
    unfold platformLoadWAV at hok ⊢
    rw [hf] at hok ⊢
    simp only at hok ⊢
    split_ifs at hok ⊢ with h1 h2
    · simp at hok
    · simp at hok
    · simp only
      rw [readLE16_take data 22 (by omega)]
  refine ⟨key, ?_, ?_⟩
  · rw [key]; omega
  · rw [key]; omega

/-- Witness of C27: a header with 2 in the channel field. -/
theorem platformLoadWAV_channels_witness :
    (platformLoadWAV (oneFile "a.wav" (channelsHeader 2 0)) "a.wav" demoState).1 = 0 ∧
    readLE16 (channelsHeader 2 0) 22 = 2 ∧
    (platformLoadWAV (oneFile "a.wav" (channelsHeader 2 0)) "a.wav" demoState).2.spec.channels
      = 2 :=
  ⟨by decide, by decide,
   (platformLoadWAV_channels (oneFile "a.wav" (channelsHeader 2 0)) "a.wav"
      (channelsHeader 2 0) demoState rfl (by decide)).1.trans (by decide)⟩

/-- Claim C27 fails for a channel field above 255: a file whose header holds
256 at bytes [22..24) (and declares no payload) is decoded successfully and
`spec.channels` is 0. -/
theorem platformLoadWAV_channels_truncated :
    (platformLoadWAV (oneFile "a.wav" (channelsHeader 0 1)) "a.wav" demoState).1 = 0 ∧
    readLE16 (channelsHeader 0 1) 22 = 256 ∧
    (platformLoadWAV (oneFile "a.wav" (channelsHeader 0 1)) "a.wav" demoState).2.spec.channels
      = 0 := by
  decide

/-! ## Fill and color key -/

/-- A fold whose steps all fix `m0` returns `m0` when started there. -/
theorem foldl_fixed {σ α : Type} (f : σ → α → σ) (l : List α) (m0 : σ)
    (h : ∀ i ∈ l, f m0 i = m0) : l.foldl f m0 = m0 := by
  induction l with
  | nil => rfl
  | cons i l ih =>
    rw [List.foldl_cons, h i (List.mem_cons_self _ _)]
    exact ih (fun j hj => h j (List.mem_cons_of_mem _ hj))

/-- After `platformFillRect(s, NULL, r, g, b, a)` every pixel in the raw bounds
of a well-formed surface matches the color key (r, g, b). -/
theorem filled_is_keyed (m : Mem) (s : PlatformSurface) (hw : s.WellFormed)
    (hp : s.pixels ≠ 0) (r g b a : Byte) (sx sy : Int) (hb : s.InBounds sx sy) :
    Keyed { s with hasColorKey := 1, colorKeyR := r, colorKeyG := g, colorKeyB := b } sx sy
      (platformFillRect m (some s) none r g b a) := by
  have hf : Filled s sx sy r g b a (platformFillRect m (some s) none r g b a) := by
    unfold platformFillRect
    simp only [if_neg hp]
    simp only [zero_add]
    have := fillLoop_fills m s 0 0 s.width s.height r g b a hw (le_refl 0) sx sy
      (by unfold PlatformSurface.InBounds at hb; omega)
      (by unfold PlatformSurface.InBounds at hb; omega) hb
    simpa only [zero_add] using this
  obtain ⟨h0, h1, h2, _⟩ := hf
  exact ⟨by simp, h0, h1, h2⟩

/-- Claim C28.  Fill and color key agree on the channel order: when a
well-formed source surface is filled entirely with
`platformFillRect(src, NULL, r, g, b, a)` and given the color key
`platformSetColorKey(src, r, g, b)`, a blit of it with any rectangles onto any
destination surface (distinct or not, null included) leaves the whole memory,
hence every destination pixel, as it is after the fill. -/
theorem fill_then_key_blit_noop (m : Mem) (s : PlatformSurface) (hw : s.WellFormed)
    (r g b a : Byte) (dst : Option PlatformSurface) (srcRect dstRect : Option PlatformRect) :
    platformBlitSurface (platformFillRect m (some s) none r g b a)
        (platformSetColorKey (some s) r g b) srcRect dst dstRect
      = platformFillRect m (some s) none r g b a := by
  cases dst with
  | none => rfl
  | some d =>
    unfold platformSetColorKey platformBlitSurface
    simp only
    by_cases hp : s.pixels = 0
    · rw [if_pos (Or.inl hp)]
    · split_ifs
      · rfl
      · rfl
      · unfold blitLoop
        apply foldl_fixed
        intro y _
        unfold blitRow
        apply foldl_fixed
        intro x _
        by_cases hb : PlatformSurface.InBounds s
            ((blitClamp { s with hasColorKey := 1, colorKeyR := r, colorKeyG := g, colorKeyB := b }
              srcRect d dstRect).srcX + x)
            ((blitClamp { s with hasColorKey := 1, colorKeyR := r, colorKeyG := g, colorKeyB := b }
              srcRect d dstRect).srcY + y)
        · exact blitPixel_keyed _ d _ y x _ (filled_is_keyed m s hw hp r g b a _ _ hb)
        · unfold blitPixel
          simp only
          rw [if_pos]
          unfold PlatformSurface.InBounds at hb
          omega

/-- Witness of C28: a 2x2 surface filled with (r, g, b, a) = (3, 2, 1, 4) and
keyed with (3, 2, 1), blitted onto a distinct surface. -/
theorem fill_then_key_blit_noop_witness :
    fillSurf.WellFormed ∧ Distinct fillSurf demoSrc ∧
    platformFillRect zeroMem (some fillSurf) none 3 2 1 4 1000 = 1 ∧
    platformBlitSurface (platformFillRect zeroMem (some fillSurf) none 3 2 1 4)
        (platformSetColorKey (some fillSurf) 3 2 1) none (some demoSrc) none
      = platformFillRect zeroMem (some fillSurf) none 3 2 1 4 :=
  ⟨by decide, by decide, by decide,
   fill_then_key_blit_noop zeroMem fillSurf (by decide) 3 2 1 4 (some demoSrc) none none⟩

/-! ## Claims on `parseArgs` -/

/-- Claim C29 fails: `parseArgs` does not bound `numArgs`.  For the argument
vector `jc_reborn ads A 1 ads B 2` (only `argAds` is set, so no `usage()`)
the loop stores four arguments, the fourth with index 3, outside the 3-element
array `args`, and `parseArgs` returns with `numArgs = 4`. -/
theorem parseArgs_overflows :
    (parseArgs false ["jc_reborn", "ads", "A", "1", "ads", "B", "2"]).stores
      = [(0, "A"), (1, "1"), (2, "B"), (3, "2")] ∧
    (parseArgs false ["jc_reborn", "ads", "A", "1", "ads", "B", "2"]).numArgs = 4 ∧
    (parseArgs false ["jc_reborn", "ads", "A", "1", "ads", "B", "2"]).outcome
      = ParseOutcome.returned ∧
    (parseArgs true ["jc_reborn", "ads", "A", "1", "ads", "B", "2"]).numArgs = 4 := by
  decide

/-! ## Claims on the configuration file -/

/-- Every character of the decimal digits is a digit, and there is at least
one. -/
theorem decimalAux_digits (fuel : Nat) : ∀ n, n < fuel →
    decimalAux fuel n ≠ [] ∧ ∀ c ∈ decimalAux fuel n, 48 ≤ c ∧ c ≤ 57 := by
  induction fuel with
  | zero => intro n h; omega
  | succ fuel ih =>
    intro n h
    unfold decimalAux
    by_cases h10 : n < 10
    · simp only [h10, if_true]
      refine ⟨by simp, ?_⟩
      intro c hc
      simp only [List.mem_singleton] at hc
      omega
    · simp only [h10, if_false]
      refine ⟨by simp, ?_⟩
      intro c hc
      simp only [List.mem_append, List.mem_singleton] at hc
      rcases hc with hc | hc
      · exact (ih (n / 10) (by omega)).2 c hc
      · omega

/-- The number of digits: at most `k` for a value below `10^k`. -/
theorem decimalAux_length (fuel : Nat) : ∀ n k, 0 < k → n < 10 ^ k →
    (decimalAux fuel n).length ≤ k := by
  induction fuel with
  | zero => intro n k _ _; simp [decimalAux]
  | succ fuel ih =>
    intro n k hk hn
    unfold decimalAux
    by_cases h10 : n < 10
    · simp only [h10, if_true, List.length_singleton]
      omega
    · simp only [h10, if_false, List.length_append, List.length_singleton]
      have hk2 : 2 ≤ k := by
        by_contra hlt
        have : k = 1 := by omega
        subst this
        omega
      have hpow : 10 ^ k = 10 ^ (k - 1) * 10 := by
        rw [← Nat.pow_succ]
        congr 1
        omega
      have := ih (n / 10) (k - 1) (by omega) (by
        rw [hpow] at hn
        exact Nat.div_lt_of_lt_mul (by rw [Nat.mul_comm]; exact hn))
      omega

/-- The digit loop of `atoi` reads the decimal digits back. -/
theorem atoiDigits_decimalAux (fuel : Nat) : ∀ n, n < fuel → ∀ (acc : Int) (rest : CText),
    atoiDigits acc (decimalAux fuel n ++ rest)
      = atoiDigits (acc * 10 ^ (decimalAux fuel n).length + (n : Int)) rest := by
  induction fuel with
  | zero => intro n h; omega
  | succ fuel ih =>
    intro n h acc rest
    unfold decimalAux
    by_cases h10 : n < 10
    · simp only [h10, if_true, List.singleton_append, List.length_singleton, pow_one]
      rw [atoiDigits, if_pos (by omega)]
      congr 1
      push_cast
      ring
    · simp only [h10, if_false, List.append_assoc, List.singleton_append, List.length_append,
        List.length_singleton]
      rw [ih (n / 10) (by omega), atoiDigits, if_pos (by omega)]
      congr 1
      have hn : (n : Int) = 10 * ((n / 10 : Nat) : Int) + ((n % 10 : Nat) : Int) := by
        have := Nat.div_add_mod n 10
        omega
      rw [pow_succ]
      push_cast
      push_cast at hn
      rw [hn]
      ring_nf
      omega

/-- The function `atoi` reads back what `%d` printed, when a newline
follows. -/
theorem atoi_printInt (v : Int) (rest : CText) : atoi (printInt v ++ 10 :: rest) = v := by
  obtain ⟨hne, hdig⟩ := decimalAux_digits (v.natAbs + 1) v.natAbs (by omega)
  have hval : atoiDigits 0 (decimal v.natAbs ++ 10 :: rest) = (v.natAbs : Int) := by
    unfold decimal
    rw [atoiDigits_decimalAux _ _ (by omega), atoiDigits, if_neg (by omega)]
    simp
  obtain ⟨c, cs, hcs⟩ := List.exists_cons_of_ne_nil hne
  have hc : 48 ≤ c ∧ c ≤ 57 := hdig c (by rw [hcs]; exact List.mem_cons_self _ _)
  unfold atoi printInt
  by_cases hv : v < 0
  · simp only [hv, if_true, List.cons_append]
    have hsk : skipSpace (45 :: (decimal v.natAbs ++ 10 :: rest))
        = 45 :: (decimal v.natAbs ++ 10 :: rest) := by
      rw [skipSpace]
      simp
    rw [hsk]
    simp only [List.head?_cons, if_true, List.tail_cons]
    rw [hval]
    omega
  · simp only [hv, if_false]
    have hsk : skipSpace (decimal v.natAbs ++ 10 :: rest) = decimal v.natAbs ++ 10 :: rest := by
      unfold decimal
      rw [hcs, List.cons_append, skipSpace, if_neg (by omega)]
    rw [hsk]
    have hhead : (decimal v.natAbs ++ 10 :: rest).head? = some c := by
      unfold decimal
      rw [hcs]
      rfl
    simp only [hhead, Option.some.injEq]
    rw [if_neg (by omega), if_neg (by omega), hval]
    omega

/-- What `%d` prints holds no newline and, for a 32-bit value, at most 11
characters. -/
theorem printInt_chars (v : Int) :
    (∀ c ∈ printInt v, c ≠ 10) ∧
    (-2147483648 ≤ v → v ≤ 2147483647 → (printInt v).length ≤ 11) := by
  obtain ⟨_, hdig⟩ := decimalAux_digits (v.natAbs + 1) v.natAbs (by omega)
  have hlen : -2147483648 ≤ v → v ≤ 2147483647 → (decimal v.natAbs).length ≤ 10 := by
    intro h1 h2
    exact decimalAux_length _ _ 10 (by omega) (by omega)
  unfold printInt
  by_cases hv : v < 0
  · simp only [hv, if_true, List.mem_cons, List.length_cons]
    refine ⟨?_, fun h1 h2 => by have := hlen h1 h2; omega⟩
    intro c hc
    rcases hc with hc | hc
    · omega
    · have := hdig c hc
      omega
  · simp only [hv, if_false]
    refine ⟨?_, fun h1 h2 => by have := hlen h1 h2; omega⟩
    intro c hc
    have := hdig c hc
    omega

/-- The reading loop of `fgets` on a line that fits: it returns the line with
its newline and does not hit the end of the file. -/
theorem fgetsAux_line (line : CText) : ∀ (k : Nat) (acc rest : CText),
    (∀ c ∈ line, c ≠ 10) → line.length < k →
    fgetsAux k acc (line ++ 10 :: rest) = (acc ++ line ++ [10], rest, false) := by
  induction line with
  | nil =>
    intro k acc rest _ hk
    obtain ⟨j, rfl⟩ : ∃ j, k = j + 1 := ⟨k - 1, by simp at hk; omega⟩
    simp [fgetsAux]
  | cons c line ih =>
    intro k acc rest hc hk
    obtain ⟨j, rfl⟩ : ∃ j, k = j + 1 := ⟨k - 1, by simp at hk; omega⟩
    rw [List.cons_append, fgetsAux, if_neg (hc c (List.mem_cons_self _ _)),
      ih j (acc ++ [c]) rest (fun x hx => hc x (List.mem_cons_of_mem _ hx))
        (by simp at hk; omega)]
    simp

/-- One iteration of the loop of `cfgFileRead` on a line that fits in the
buffer. -/
theorem readLoop_line (fuel : Nat) (cfg : TConfig) (buf line rest : CText)
    (hc : ∀ c ∈ line, c ≠ 10) (hl : line.length < 99) :
    readLoop (fuel + 1) cfg buf { rest := line ++ 10 :: rest, eof := false }
      = readLoop fuel (cfgLine cfg (line ++ [10])) (line ++ [10]) { rest := rest, eof := false } := by
  rw [readLoop]
  simp only [Bool.false_eq_true, if_false, fgets, BUFFER_LEN]
  rw [fgetsAux_line line 99 [] rest hc hl]
  simp

/-- The last two iterations: the end of the file is hit, then the loop
ends. -/
theorem readLoop_end (fuel : Nat) (cfg : TConfig) (buf : CText) :
    readLoop (fuel + 2) cfg buf { rest := [], eof := false } = some cfg := by
  rw [readLoop]
  simp only [Bool.false_eq_true, if_false, fgets, BUFFER_LEN, fgetsAux]
  simp [readLoop]

/-- The reading loop of `fgets` never lengthens the rest of the file. -/
theorem fgetsAux_rest (k : Nat) : ∀ (acc rest : CText),
    (fgetsAux k acc rest).2.1.length ≤ rest.length := by
  induction k with
  | zero => intro acc rest; simp [fgetsAux]
  | succ k ih =>
    intro acc rest
    cases rest with
    | nil => simp [fgetsAux]
    | cons c rest =>
      rw [fgetsAux]
      split_ifs
      · simp
      · have := ih (acc ++ [c]) rest
        simp only [List.length_cons]
        omega

/-- A call of `fgets` with the buffer of `cfgFileRead` sets the end-of-file
indicator or shortens the rest of the file. -/
theorem fgets_progress (buf : CText) (f : CFile) :
    (fgets buf BUFFER_LEN f).2.eof = true ∨
      (fgets buf BUFFER_LEN f).2.rest.length < f.rest.length := by
  obtain ⟨rest, eof⟩ := f
  cases rest with
  | nil => left; simp [fgets, BUFFER_LEN, fgetsAux]
  | cons c rest =>
    right
    have h := fgetsAux_rest 98 ([] ++ [c]) rest
    simp only [fgets, BUFFER_LEN]
    have e : fgetsAux (100 - 1) [] (c :: rest)
        = if c = 10 then ([] ++ [c], rest, false) else fgetsAux 98 ([] ++ [c]) rest := by
      rw [show (100 - 1 : Nat) = 98 + 1 from rfl, fgetsAux]
    rw [e]
    split_ifs <;> simp only [List.length_cons] <;> omega

/-- The loop of `cfgFileRead` ends within `length + 2` iterations. -/
theorem readLoop_total (fuel : Nat) : ∀ (cfg : TConfig) (buf : CText) (f : CFile),
    (f.eof = true ∧ 1 ≤ fuel) ∨ f.rest.length + 2 ≤ fuel →
    (readLoop fuel cfg buf f).isSome = true := by
  induction fuel with
  | zero => intro cfg buf f h; omega
  | succ fuel ih =>
    intro cfg buf f h
    rw [readLoop]
    by_cases he : f.eof = true
    · simp [he]
    · simp only [he, Bool.false_eq_true, if_false]
      have hfuel : f.rest.length + 2 ≤ fuel + 1 := by
        rcases h with ⟨h1, _⟩ | h
        · exact absurd h1 he
        · exact h
      have hnext : ((fgets buf BUFFER_LEN f).2.eof = true ∧ 1 ≤ fuel) ∨
          (fgets buf BUFFER_LEN f).2.rest.length + 2 ≤ fuel := by
        rcases fgets_progress buf f with hp | hp
        · exact Or.inl ⟨hp, by omega⟩
        · exact Or.inr (by omega)
      split_ifs
      · exact ih _ _ _ hnext
      · exact ih _ _ _ hnext

/-- The function `cfgFileRead` returns for every file. -/
theorem cfgFileRead_total (file : Option CText) (junk : CText) :
    (cfgFileRead file junk).isSome = true := by
  cases file with
  | none => rfl
  | some text => exact readLoop_total _ _ _ _ (Or.inr (le_refl _))

theorem cstr_currentDay : cstr "currentDay=" = [99, 117, 114, 114, 101, 110, 116, 68, 97, 121, 61] := by
  decide

theorem cstr_date : cstr "date=" = [100, 97, 116, 101, 61] := by
  decide

/-- The line `cfgFileWrite` writes for `currentDay` sets that member and leaves
`date`. -/
theorem cfgLine_currentDay (cfg : TConfig) (v : Int) :
    cfgLine cfg (cstr "currentDay=" ++ printInt v ++ [10]) = { cfg with currentDay := v } := by
  unfold cfgLine
  rw [cstr_currentDay, cstr_date]
  simp only [List.cons_append, List.nil_append, List.take_succ_cons, List.take_zero,
    List.drop_succ_cons, List.drop_zero, if_true]
  rw [show printInt v ++ [10] = printInt v ++ 10 :: [] from rfl, atoi_printInt]
  simp

/-- The line `cfgFileWrite` writes for `date` sets that member and leaves
`currentDay`. -/
theorem cfgLine_date (cfg : TConfig) (v : Int) :
    cfgLine cfg (cstr "date=" ++ printInt v ++ [10]) = { cfg with date := v } := by
  unfold cfgLine
  rw [cstr_currentDay, cstr_date]
  simp only [List.cons_append, List.nil_append, List.take_succ_cons, List.take_zero,
    List.drop_succ_cons, List.drop_zero, if_true]
  rw [show printInt v ++ [10] = printInt v ++ 10 :: [] from rfl, atoi_printInt]
  simp

/-- Claim C30.  For every pair of `int` values, `cfgFileRead` applied to the
file `cfgFileWrite` has written returns a configuration with the same
`currentDay` and the same `date`; on a missing file and on an empty file it
returns `currentDay = 0` and `date = 0`. -/
theorem config_round_trip (cfg : TConfig) (file : Option CText) (junk : CText)
    (hc : -2147483648 ≤ cfg.currentDay ∧ cfg.currentDay ≤ 2147483647)
    (hd : -2147483648 ≤ cfg.date ∧ cfg.date ≤ 2147483647) :
    cfgFileRead (cfgFileWrite true file cfg) junk = some cfg ∧
    cfgFileRead none junk = some { currentDay := 0, date := 0 } ∧
    cfgFileRead (some []) junk = some { currentDay := 0, date := 0 } := by
  refine ⟨?_, rfl, ?_⟩
  · obtain ⟨c1, l1⟩ := printInt_chars cfg.currentDay
    obtain ⟨c2, l2⟩ := printInt_chars cfg.date
    have hl1 := l1 hc.1 hc.2
    have hl2 := l2 hd.1 hd.2
    have hP1 : ∀ c ∈ cstr "currentDay=" ++ printInt cfg.currentDay, c ≠ 10 := by
      intro c hmem
      rw [List.mem_append] at hmem
      rcases hmem with hmem | hmem
      · rw [cstr_currentDay] at hmem
        simp only [List.mem_cons, List.mem_singleton, List.not_mem_nil, or_false] at hmem
        omega
      · exact c1 c hmem
    have hP2 : ∀ c ∈ cstr "date=" ++ printInt cfg.date, c ≠ 10 := by
      intro c hmem
      rw [List.mem_append] at hmem
      rcases hmem with hmem | hmem
      · rw [cstr_date] at hmem
        simp only [List.mem_cons, List.mem_singleton, List.not_mem_nil, or_false] at hmem
        omega
      · exact c2 c hmem
    have hL1 : (cstr "currentDay=" ++ printInt cfg.currentDay).length < 99 := by
      rw [List.length_append, cstr_currentDay]
      simp only [List.length_cons, List.length_nil]
      omega
    have hL2 : (cstr "date=" ++ printInt cfg.date).length < 99 := by
      rw [List.length_append, cstr_date]
      simp only [List.length_cons, List.length_nil]
      omega
    have htext : cfgText cfg = (cstr "currentDay=" ++ printInt cfg.currentDay)
        ++ 10 :: ((cstr "date=" ++ printInt cfg.date) ++ 10 :: []) := by
      unfold cfgText
      simp
    obtain ⟨k, hk⟩ : ∃ k, (cfgText cfg).length + 2 = k + 2 + 1 + 1 := by
      refine ⟨(cfgText cfg).length - 2, ?_⟩
      have : 2 ≤ (cfgText cfg).length := by
        rw [htext]
        simp only [List.length_append, List.length_cons, List.length_nil]
        omega
      omega
    unfold cfgFileWrite cfgFileRead
    simp only [if_true]
    rw [hk, htext, readLoop_line _ _ _ _ _ hP1 hL1, readLoop_line _ _ _ _ _ hP2 hL2,
      readLoop_end, cfgLine_currentDay, cfgLine_date]
  · unfold cfgFileRead
    exact readLoop_end 0 _ junk

/-- Witness of C30: the configuration (-12, 305). -/
theorem config_round_trip_witness :
    cfgFileWrite true none ⟨-12, 305⟩ = some (cstr "currentDay=-12\ndate=305\n") ∧
    cfgFileRead (cfgFileWrite true none ⟨-12, 305⟩) [7, 7] = some ⟨-12, 305⟩ :=
  ⟨by decide, (config_round_trip ⟨-12, 305⟩ none [7, 7] (by decide) (by decide)).1⟩

end JcReborn

